import Mathlib

/-!
# testhelper: structural deep-equality comparator (`comparator.go`)

A shallow embedding of `compare`, `compareValue`, `compareStructs`,
`compareMaps`, `compareSlices`, `getValues` and `isIgnoreField`, together with
the part of Go's `reflect` package these functions call.

## Modelling decisions

* A Go `interface{}` value and the `reflect.Value` obtained from it are the
  same Lean object, a `Value`: a tree whose every node carries its dynamic
  type.  `reflect.ValueOf` is therefore the identity, and so is
  `Value.Interface` except on a value of interface kind; the zero
  `reflect.Value` (`IsValid() == false`) is `Value.invalid`, which is also the
  nil interface.
* Children of a composite (struct fields, map keys and values, sequence
  elements, the pointee of a pointer) are stored as the interface value that
  `Field(i).Interface()`, `MapIndex(k).Interface()`, `Index(i).Interface()`
  return, so a nil interface stored in a field is `Value.invalid`.
* Pointers carry an address (used by `==`, `0` for a nil pointer) and their
  pointee; data is a finite tree, so cyclic structures are not represented.
  For a pointer to an interface-typed variable the stored pointee is the
  dynamic value that the variable holds; `Elem` returns the variable itself, a
  value of interface kind (`Value.iface`), which `getValues` does not unwrap
  any further, which `Convert` also produces for an interface target type, and
  which `Interface` turns back into the dynamic value.
* The only interface type is the empty interface `interface{}` (and types
  defined from it).  Interface types with methods, channels,
  `unsafe.Pointer`, struct tags and embedded-field flags are not represented.
* A panic of the Go program is the result `none`; a normal boolean result `b`
  is `some b`.
* Floating-point values are IEEE-754 binary64 bit patterns (a `float32` is
  stored as the binary64 value it denotes); only `==` and the conversions of
  `reflect.Value.Convert` are needed.
-/

namespace Testhelper

set_option autoImplicit false

/-! ## Types (`reflect.Kind`, `reflect.Type`) -/

/-- The kinds of `reflect.Kind`. -/
inductive Kind
  | invalid | bool
  | int | int8 | int16 | int32 | int64
  | uint | uint8 | uint16 | uint32 | uint64 | uintptr
  | float32 | float64 | complex64 | complex128
  | array | chan | func | interface | map | ptr | slice | string | struct
  | unsafePointer
deriving DecidableEq, Repr

/-- A struct field declaration (`reflect.StructField`): the name, the package
path (empty exactly when the field is exported) and the declared type. -/
structure StructField (α : Type) where
  name : String
  pkgPath : String
  typ : α
deriving Repr

/-- Field method `IsExported` of `reflect.StructField`: `f.PkgPath == ""`. -/
def StructField.isExported {α : Type} (f : StructField α) : Bool :=
  f.pkgPath == ""

/-- Go types.  `basic k` is the predeclared type of a boolean, numeric or
string kind; `named n u` is the defined type `type n u`; `iface` is the empty
interface type `interface{}`. -/
inductive GoType
  | basic (k : Kind)
  | named (name : String) (under : GoType)
  | array (len : Nat) (elem : GoType)
  | func (signature : String)
  | iface
  | map (key : GoType) (elem : GoType)
  | ptr (elem : GoType)
  | slice (elem : GoType)
  | struct (fields : List (StructField GoType))
deriving Repr

mutual
/-- Type identity (`==` on `reflect.Type`), as a boolean function. -/
def GoType.beq : GoType → GoType → Bool
  | .basic a, .basic b => a == b
  | .named n u, .named m v => n == m && GoType.beq u v
  | .array n a, .array m b => n == m && GoType.beq a b
  | .func s, .func t => s == t
  | .iface, .iface => true
  | .map k a, .map l b => GoType.beq k l && GoType.beq a b
  | .ptr a, .ptr b => GoType.beq a b
  | .slice a, .slice b => GoType.beq a b
  | .struct fs, .struct gs => beqFields fs gs
  | _, _ => false
/-- Identity of two field lists: same names, package paths and types, in order. -/
def beqFields : List (StructField GoType) → List (StructField GoType) → Bool
  | [], [] => true
  | f :: fs, g :: gs =>
    f.name == g.name && f.pkgPath == g.pkgPath && GoType.beq f.typ g.typ && beqFields fs gs
  | _, _ => false
end

mutual
theorem GoType.eq_of_beq : ∀ (a b : GoType), GoType.beq a b = true → a = b
  | .basic _, b => by cases b <;> simp [GoType.beq]
  | .named n u, b => by
    cases b with
    | named m v =>
      simp only [GoType.beq, Bool.and_eq_true, beq_iff_eq]
      intro h
      rw [h.1, GoType.eq_of_beq u v h.2]
    | _ => simp [GoType.beq]
  | .array n u, b => by
    cases b with
    | array m v =>
      simp only [GoType.beq, Bool.and_eq_true, beq_iff_eq]
      intro h
      rw [h.1, GoType.eq_of_beq u v h.2]
    | _ => simp [GoType.beq]
  | .func _, b => by cases b <;> simp [GoType.beq]
  | .iface, b => by cases b <;> simp [GoType.beq]
  | .map k u, b => by
    cases b with
    | map l v =>
      simp only [GoType.beq, Bool.and_eq_true]
      intro h
      rw [GoType.eq_of_beq k l h.1, GoType.eq_of_beq u v h.2]
    | _ => simp [GoType.beq]
  | .ptr u, b => by
    cases b with
    | ptr v =>
      simp only [GoType.beq]
      intro h
      rw [GoType.eq_of_beq u v h]
    | _ => simp [GoType.beq]
  | .slice u, b => by
    cases b with
    | slice v =>
      simp only [GoType.beq]
      intro h
      rw [GoType.eq_of_beq u v h]
    | _ => simp [GoType.beq]
  | .struct fs, b => by
    cases b with
    | struct gs =>
      simp only [GoType.beq]
      intro h
      rw [eq_of_beqFields fs gs h]
    | _ => simp [GoType.beq]
theorem eq_of_beqFields :
    ∀ (a b : List (StructField GoType)), beqFields a b = true → a = b
  | [], b => by cases b <;> simp [beqFields]
  | ⟨n, p, t⟩ :: fs, b => by
    cases b with
    | nil => simp [beqFields]
    | cons g gs =>
      obtain ⟨m, q, s⟩ := g
      simp only [beqFields, Bool.and_eq_true, beq_iff_eq]
      intro h
      rw [h.1.1.1, h.1.1.2, GoType.eq_of_beq t s h.1.2, eq_of_beqFields fs gs h.2]
end

mutual
theorem GoType.beq_self : ∀ (a : GoType), GoType.beq a a = true
  | .basic _ => by simp [GoType.beq]
  | .named _ u => by simp [GoType.beq, GoType.beq_self u]
  | .array _ u => by simp [GoType.beq, GoType.beq_self u]
  | .func _ => by simp [GoType.beq]
  | .iface => by simp [GoType.beq]
  | .map k u => by simp [GoType.beq, GoType.beq_self k, GoType.beq_self u]
  | .ptr u => by simp [GoType.beq, GoType.beq_self u]
  | .slice u => by simp [GoType.beq, GoType.beq_self u]
  | .struct fs => by simp [GoType.beq, beqFields_self fs]
theorem beqFields_self : ∀ (a : List (StructField GoType)), beqFields a a = true
  | [] => by simp [beqFields]
  | ⟨_, _, t⟩ :: fs => by simp [beqFields, GoType.beq_self t, beqFields_self fs]
end

theorem GoType.beq_iff (a b : GoType) : GoType.beq a b = true ↔ a = b :=
  ⟨GoType.eq_of_beq a b, fun h => h ▸ GoType.beq_self a⟩

instance : DecidableEq GoType := fun a b => decidable_of_iff _ (GoType.beq_iff a b)

/-- Method `Kind` of `reflect.Type`: a defined type has the kind of its
underlying type. -/
def GoType.kind : GoType → Kind
  | .basic k => k
  | .named _ u => u.kind
  | .array _ _ => .array
  | .func _ => .func
  | .iface => .interface
  | .map _ _ => .map
  | .ptr _ => .ptr
  | .slice _ => .slice
  | .struct _ => .struct

/-- The underlying type: the definition of a defined type, the type itself
otherwise. -/
def GoType.underlying : GoType → GoType
  | .named _ u => u.underlying
  | t => t

/-- Whether the type is a defined (named) type (`nameFor(t) != ""` for the
composite types, `pkgPathFor(t) != ""` for the basic ones). -/
def GoType.isNamed : GoType → Bool
  | .named _ _ => true
  | _ => false

/-- Method `Elem` of `reflect.Type` for array, map, pointer and slice types. -/
def GoType.elem (t : GoType) : GoType :=
  match t.underlying with
  | .array _ e => e
  | .map _ e => e
  | .ptr e => e
  | .slice e => e
  | u => u

/-- Method `Len` of `reflect.Type` for array types. -/
def GoType.len (t : GoType) : Nat :=
  match t.underlying with
  | .array n _ => n
  | _ => 0

/-- The declared fields of a struct type (`NumField`, `Field(i)`). -/
def GoType.fields (t : GoType) : List (StructField GoType) :=
  match t.underlying with
  | .struct fs => fs
  | _ => []

/-! ## Values (`interface{}` and `reflect.Value`) -/

/-- The payload of a value that has no children. -/
inductive Scalar
  | bool (b : Bool)
  | int (n : Int)
  | float (bits : Nat)
  | complex (re : Nat) (im : Nat)
  | str (bytes : List Nat)
  | func (code : Nat)
deriving DecidableEq, Repr

/-- A Go value together with its dynamic type.  `invalid` is the nil interface
and the zero `reflect.Value`; `seq` is a slice (with the address of its backing
array) or an array, according to the kind of its type; a nil pointer has the
address `0`.  `iface t v` is a `reflect.Value` of interface kind: the variable
of interface type `t` that holds the dynamic value `v` (`invalid` for a nil
interface).  It is what `Elem` returns for a pointer to an interface-typed
variable and what `Convert` returns for an interface type; no `interface{}`
value is one, since `reflect.ValueOf` never returns the interface kind. -/
inductive Value
  | invalid
  | scalar (t : GoType) (s : Scalar)
  | ptr (t : GoType) (addr : Nat) (elem : Value)
  | struct (t : GoType) (fields : List Value)
  | map (t : GoType) (entries : List (Value × Value))
  | seq (t : GoType) (data : Nat) (elems : List Value)
  | iface (t : GoType) (v : Value)
deriving Repr

/-- Method `IsValid` of `reflect.Value`. -/
def Value.isValid : Value → Bool
  | .invalid => false
  | _ => true

/-- Method `Type` of `reflect.Value` (only called on valid values). -/
def Value.typ : Value → GoType
  | .invalid => .basic .invalid
  | .scalar t _ => t
  | .ptr t _ _ => t
  | .struct t _ => t
  | .map t _ => t
  | .seq t _ _ => t
  | .iface t _ => t

/-- Method `Kind` of `reflect.Value`: `Invalid` for the zero value. -/
def Value.kind : Value → Kind
  | .invalid => .invalid
  | v => v.typ.kind

/-- Method `Elem` of `reflect.Value`.  On a pointer: the variable pointed to,
which has the element type of the pointer type.  For an interface element type
that is a value of interface kind holding the stored dynamic value, or the
zero value for a nil pointer; for any other element type it is the stored
pointee (the zero value for a nil pointer).  On a value of interface kind: the
dynamic value it holds. -/
def Value.elem : Value → Value
  | .ptr t a e =>
    if t.elem.kind = .interface then (if a = 0 then .invalid else .iface t.elem e) else e
  | .iface _ e => e
  | _ => .invalid

/-- Method `IsNil` of `reflect.Value`. -/
def Value.isNil : Value → Bool
  | .invalid => true
  | .scalar _ (.func c) => c == 0
  | .ptr _ a _ => a == 0
  | .map _ es => es.isEmpty
  | .seq _ d _ => d == 0
  | .iface _ v => !v.isValid
  | _ => false

/-- Method `Interface` of `reflect.Value`: the value as an `interface{}`, which
for a value of interface kind is the dynamic value it holds. -/
def Value.interface (v : Value) : Value :=
  if v.kind = .interface then v.elem else v

/-- The values `exp.Field(i).Interface()` of a struct, in declaration order. -/
def Value.fieldValues : Value → List Value
  | .struct _ fs => fs
  | _ => []

/-- The entries of a map, in the order `MapKeys` enumerates them. -/
def Value.entries : Value → List (Value × Value)
  | .map _ es => es
  | _ => []

/-- The values `exp.Index(i).Interface()` of a slice or array. -/
def Value.elems : Value → List Value
  | .seq _ _ es => es
  | _ => []

/-- Method `Len` of `reflect.Value` for maps, slices and arrays. -/
def Value.len : Value → Nat
  | .map _ es => es.length
  | .seq _ _ es => es.length
  | .scalar _ (.str bs) => bs.length
  | _ => 0

/-- Method `MapKeys` of `reflect.Value`. -/
def Value.mapKeys (v : Value) : List Value :=
  v.entries.map Prod.fst

mutual
/-- Nesting depth of a value: the number of composite or pointer nodes on the
longest path from the root. -/
def Value.depth : Value → Nat
  | .invalid => 0
  | .scalar _ _ => 0
  | .ptr _ _ e => e.depth + 1
  | .struct _ fs => depthList fs + 1
  | .map _ es => depthEntries es + 1
  | .seq _ _ es => depthList es + 1
  | .iface _ e => e.depth + 1
/-- Largest depth in a list of values. -/
def depthList : List Value → Nat
  | [] => 0
  | v :: vs => max v.depth (depthList vs)
/-- Largest depth among the keys and values of a list of map entries. -/
def depthEntries : List (Value × Value) → Nat
  | [] => 0
  | (k, v) :: es => max (max k.depth v.depth) (depthEntries es)
end

/-! ## Numeric and string representation

Integers are mathematical integers kept in the range of their kind; the
platform is a 64-bit one (`int`, `uint` and `uintptr` have 64 bits). -/

/-- The signed integer kinds. -/
def Kind.isInt : Kind → Bool
  | .int | .int8 | .int16 | .int32 | .int64 => true
  | _ => false

/-- The unsigned integer kinds. -/
def Kind.isUint : Kind → Bool
  | .uint | .uint8 | .uint16 | .uint32 | .uint64 | .uintptr => true
  | _ => false

/-- The floating-point kinds. -/
def Kind.isFloat : Kind → Bool
  | .float32 | .float64 => true
  | _ => false

/-- The complex kinds. -/
def Kind.isComplex : Kind → Bool
  | .complex64 | .complex128 => true
  | _ => false

/-- Width in bits of an integer kind. -/
def Kind.bits : Kind → Nat
  | .int8 | .uint8 => 8
  | .int16 | .uint16 => 16
  | .int32 | .uint32 => 32
  | _ => 64

/-- What `makeInt` stores for the integer kind `k`: the value reduced modulo
`2 ^ k.bits` into the kind's range (two's complement for the signed kinds). -/
def wrapInt (k : Kind) (n : Int) : Int :=
  if k.isUint then n % 2 ^ k.bits
  else (n + 2 ^ (k.bits - 1)) % 2 ^ k.bits - 2 ^ (k.bits - 1)

/-- Number of binary digits of `m`, with `fuel` an upper bound on it. -/
def bitLenAux : Nat → Nat → Nat
  | 0, _ => 0
  | fuel + 1, m => if m = 0 then 0 else bitLenAux fuel (m / 2) + 1

/-- Number of binary digits of `m` (`0` for `0`). -/
def bitLen (m : Nat) : Nat := bitLenAux m m

/-- The natural number `m * 2 ^ k`, rounded down when `k` is negative. -/
def shiftInt (m : Nat) (k : Int) : Nat :=
  if 0 ≤ k then m * 2 ^ k.toNat else m / 2 ^ (-k).toNat

/-- What a binary64 bit pattern denotes: a NaN, an infinity, or the finite
number `± m * 2 ^ e`. -/
inductive FloatClass
  | nan
  | inf (neg : Bool)
  | fin (neg : Bool) (m : Nat) (e : Int)
deriving DecidableEq, Repr

/-- Decode a binary64 bit pattern. -/
def f64Decode (b : Nat) : FloatClass :=
  let neg : Bool := b / 2 ^ 63 % 2 == 1
  let ex : Nat := b / 2 ^ 52 % 2 ^ 11
  let mant : Nat := b % 2 ^ 52
  if ex == 2047 then (if mant == 0 then .inf neg else .nan)
  else if ex == 0 then .fin neg mant (-1074)
  else .fin neg (2 ^ 52 + mant) ((ex : Int) - 1075)

/-- Encode as binary64 a number that binary64 represents exactly. -/
def f64Encode : FloatClass → Nat
  | .nan => 2047 * 2 ^ 52 + 2 ^ 51
  | .inf neg => (if neg then 2 ^ 63 else 0) + 2047 * 2 ^ 52
  | .fin neg m e =>
    let sign := if neg then 2 ^ 63 else 0
    let top : Int := e + bitLen m - 1
    if m = 0 then sign
    else if top > 1023 then sign + 2047 * 2 ^ 52
    else if top ≥ -1022 then
      sign + (top + 1023).toNat * 2 ^ 52 + (shiftInt m (52 - (bitLen m - 1)) - 2 ^ 52)
    else sign + shiftInt m (e + 1074)

/-- Round `± m * 2 ^ e` to the nearest number (ties to even) of the binary
format with `p` significand bits and exponent range `emin .. emax`. -/
def roundTo (p : Nat) (emin emax : Int) (neg : Bool) (m : Nat) (e : Int) : FloatClass :=
  if m = 0 then .fin neg 0 0
  else
    let top : Int := e + bitLen m - 1
    let q : Int := max top emin - (p - 1)
    let s0 : Nat := shiftInt m (e - q)
    let rem : Nat := if e < q then m % 2 ^ (q - e).toNat else 0
    let half : Nat := if e < q then 2 ^ ((q - e).toNat - 1) else 1
    let up : Bool := decide (rem > half) || (rem == half && s0 % 2 == 1)
    let s : Nat := if up then s0 + 1 else s0
    if q + bitLen s - 1 > emax then .inf neg else .fin neg s q

/-- Conversion `float64(n)` of an integer. -/
def intToF64 (n : Int) : Nat :=
  f64Encode (roundTo 53 (-1022) 1023 (decide (n < 0)) n.natAbs 0)

/-- Conversion `float64(float32(x))`: the binary64 pattern rounded to the
nearest `float32`. -/
def roundF32 (b : Nat) : Nat :=
  match f64Decode b with
  | .fin neg m e => f64Encode (roundTo 24 (-126) 127 neg m e)
  | _ => b

/-- Conversion `int64(x)` of a binary64 value: truncation toward zero; the
result for a NaN or a value out of range is the one of amd64, the smallest
`int64`. -/
def f64ToInt64 (b : Nat) : Int :=
  match f64Decode b with
  | .fin neg m e =>
    let v : Int := if neg then -(shiftInt m e : Int) else shiftInt m e
    if -2 ^ 63 ≤ v ∧ v < 2 ^ 63 then v else -2 ^ 63
  | _ => -2 ^ 63

/-- Conversion `uint64(x)` of a binary64 value, as amd64 computes it. -/
def f64ToUint64 (b : Nat) : Int :=
  match f64Decode b with
  | .fin neg m e =>
    let v : Int := if neg then -(shiftInt m e : Int) else shiftInt m e
    if v < 2 ^ 63 then (if -2 ^ 63 ≤ v then v % 2 ^ 64 else 2 ^ 63)
    else if v < 2 ^ 64 then v else 2 ^ 63
  | _ => 2 ^ 63

/-- What `makeFloat` stores for a floating-point kind. -/
def makeFloat (k : Kind) (b : Nat) : Nat :=
  if k == .float32 || k == .complex64 then roundF32 b else b

/-- Whether a binary64 pattern is a NaN. -/
def f64IsNaN (b : Nat) : Bool :=
  b / 2 ^ 52 % 2 ^ 11 == 2047 && b % 2 ^ 52 != 0

/-- The floating-point comparison `a == b`: no NaN equals anything, and the two
zeros are equal. -/
def f64Eq (a b : Nat) : Bool :=
  !f64IsNaN a && !f64IsNaN b && (a == b || (a % 2 ^ 63 == 0 && b % 2 ^ 63 == 0))

/-- The bytes of the UTF-8 encoding of a Unicode scalar value. -/
def encodeRune (r : Nat) : List Nat :=
  if r < 0x80 then [r]
  else if r < 0x800 then [0xC0 + r / 64, 0x80 + r % 64]
  else if r < 0x10000 then [0xE0 + r / 4096, 0x80 + r / 64 % 64, 0x80 + r % 64]
  else [0xF0 + r / 262144, 0x80 + r / 4096 % 64, 0x80 + r / 64 % 64, 0x80 + r % 64]

/-- Conversion `string(rune(x))`: the encoding of `x`, or of U+FFFD when `x` is
not a Unicode scalar value. -/
def runeString (x : Int) : List Nat :=
  if 0 ≤ x ∧ x ≤ 0x10FFFF ∧ ¬ (0xD800 ≤ x ∧ x ≤ 0xDFFF) then encodeRune x.toNat
  else [0xEF, 0xBF, 0xBD]

/-- Whether `b` is a UTF-8 continuation byte. -/
def isCont (b : Nat) : Bool := 0x80 ≤ b && b ≤ 0xBF

/-- Conversion `[]rune(s)`: each well-formed sequence decodes to its scalar
value, every other byte to U+FFFD. -/
def decodeRunes : List Nat → List Nat
  | [] => []
  | [b0] => [if b0 < 0x80 then b0 else 0xFFFD]
  | [b0, b1] =>
    if b0 < 0x80 then b0 :: decodeRunes [b1]
    else if 0xC2 ≤ b0 && b0 ≤ 0xDF && isCont b1 then [b0 % 32 * 64 + b1 % 64]
    else 0xFFFD :: decodeRunes [b1]
  | [b0, b1, b2] =>
    if b0 < 0x80 then b0 :: decodeRunes [b1, b2]
    else if 0xC2 ≤ b0 && b0 ≤ 0xDF && isCont b1 then
      (b0 % 32 * 64 + b1 % 64) :: decodeRunes [b2]
    else if 0xE0 ≤ b0 && b0 ≤ 0xEF && isCont b1 && isCont b2
        && (b0 != 0xE0 || 0xA0 ≤ b1) && (b0 != 0xED || b1 ≤ 0x9F) then
      [b0 % 16 * 4096 + b1 % 64 * 64 + b2 % 64]
    else 0xFFFD :: decodeRunes [b1, b2]
  | b0 :: b1 :: b2 :: b3 :: rest =>
    if b0 < 0x80 then b0 :: decodeRunes (b1 :: b2 :: b3 :: rest)
    else if 0xC2 ≤ b0 && b0 ≤ 0xDF && isCont b1 then
      (b0 % 32 * 64 + b1 % 64) :: decodeRunes (b2 :: b3 :: rest)
    else if 0xE0 ≤ b0 && b0 ≤ 0xEF && isCont b1 && isCont b2
        && (b0 != 0xE0 || 0xA0 ≤ b1) && (b0 != 0xED || b1 ≤ 0x9F) then
      (b0 % 16 * 4096 + b1 % 64 * 64 + b2 % 64) :: decodeRunes (b3 :: rest)
    else if 0xF0 ≤ b0 && b0 ≤ 0xF4 && isCont b1 && isCont b2 && isCont b3
        && (b0 != 0xF0 || 0x90 ≤ b1) && (b0 != 0xF4 || b1 ≤ 0x8F) then
      (b0 % 8 * 262144 + b1 % 64 * 4096 + b2 % 64 * 64 + b3 % 64) :: decodeRunes rest
    else 0xFFFD :: decodeRunes (b1 :: b2 :: b3 :: rest)

/-! ## Conversion (`reflect.Value.CanConvert`, `reflect.Value.Convert`) -/

/-- The conversion functions that `convertOp` of package `reflect` selects. -/
inductive CvtOp
  | cvtInt | cvtUint | cvtIntFloat | cvtUintFloat | cvtIntString | cvtUintString
  | cvtFloatInt | cvtFloatUint | cvtFloat | cvtComplex
  | cvtStringBytes | cvtStringRunes | cvtBytesString | cvtRunesString
  | cvtSliceArrayPtr | cvtSliceArray | cvtDirect | cvtT2I | cvtI2I
deriving DecidableEq, Repr

/-- The general rules at the end of `convertOp`: identical underlying types,
two unnamed pointer types whose base types have identical underlying types, or
a target interface type that the source type implements (every type implements
the empty interface). -/
def convertDirect (dst src : GoType) : Option CvtOp :=
  if dst.underlying = src.underlying then some .cvtDirect
  else if dst.kind = .ptr ∧ dst.isNamed = false ∧ src.kind = .ptr ∧ src.isNamed = false
      ∧ dst.elem.underlying = src.elem.underlying then some .cvtDirect
  else if dst.kind = .interface then
    (if src.kind = .interface then some .cvtI2I else some .cvtT2I)
  else none

/-- Function `convertOp(dst, src)` of package `reflect`: the conversion from a
value of type `src` to type `dst`, `none` when there is none. -/
def convertOp (dst src : GoType) : Option CvtOp :=
  let dk := dst.kind
  let sk := src.kind
  if sk.isInt then
    if dk.isInt || dk.isUint then some .cvtInt
    else if dk.isFloat then some .cvtIntFloat
    else if dk = .string then some .cvtIntString
    else convertDirect dst src
  else if sk.isUint then
    if dk.isInt || dk.isUint then some .cvtUint
    else if dk.isFloat then some .cvtUintFloat
    else if dk = .string then some .cvtUintString
    else convertDirect dst src
  else if sk.isFloat then
    if dk.isInt then some .cvtFloatInt
    else if dk.isUint then some .cvtFloatUint
    else if dk.isFloat then some .cvtFloat
    else convertDirect dst src
  else if sk.isComplex then
    if dk.isComplex then some .cvtComplex else convertDirect dst src
  else if sk = .string then
    if dk = .slice ∧ dst.elem = .basic .uint8 then some .cvtStringBytes
    else if dk = .slice ∧ dst.elem = .basic .int32 then some .cvtStringRunes
    else convertDirect dst src
  else if sk = .slice then
    if dk = .string ∧ src.elem = .basic .uint8 then some .cvtBytesString
    else if dk = .string ∧ src.elem = .basic .int32 then some .cvtRunesString
    else if dk = .ptr ∧ dst.elem.kind = .array ∧ src.elem = dst.elem.elem then
      some .cvtSliceArrayPtr
    else if dk = .array ∧ src.elem = dst.elem then some .cvtSliceArray
    else convertDirect dst src
  else convertDirect dst src

/-- The integer held by an integer value (`v.Int()`, `v.Uint()`). -/
def Value.toInt : Value → Int
  | .scalar _ (.int n) => n
  | _ => 0

/-- The binary64 pattern held by a floating-point value (`v.Float()`). -/
def Value.toFloat : Value → Nat
  | .scalar _ (.float b) => b
  | _ => 0

/-- The bytes held by a string value (`v.String()`). -/
def Value.toBytes : Value → List Nat
  | .scalar _ (.str bs) => bs
  | _ => []

/-- The address of the backing array of a slice. -/
def Value.data : Value → Nat
  | .seq _ d _ => d
  | _ => 0

/-- Function `cvtDirect`: the same data under the type `t`. -/
def Value.retag (v : Value) (t : GoType) : Value :=
  match v with
  | .invalid => .invalid
  | .scalar _ s => .scalar t s
  | .ptr _ a e => .ptr t a e
  | .struct _ fs => .struct t fs
  | .map _ es => .map t es
  | .seq _ d es => .seq t d es
  | .iface _ e => .iface t e

/-- Apply a conversion function of package `reflect` to `v`, with target type `t`. -/
def applyCvt (op : CvtOp) (v : Value) (t : GoType) : Value :=
  match op with
  | .cvtInt | .cvtUint => .scalar t (.int (wrapInt t.kind v.toInt))
  | .cvtIntFloat | .cvtUintFloat => .scalar t (.float (makeFloat t.kind (intToF64 v.toInt)))
  | .cvtIntString | .cvtUintString => .scalar t (.str (runeString v.toInt))
  | .cvtFloatInt => .scalar t (.int (wrapInt t.kind (f64ToInt64 v.toFloat)))
  | .cvtFloatUint => .scalar t (.int (wrapInt t.kind (f64ToUint64 v.toFloat)))
  | .cvtFloat => .scalar t (.float (makeFloat t.kind v.toFloat))
  | .cvtComplex =>
    match v with
    | .scalar _ (.complex re im) =>
      .scalar t (.complex (makeFloat t.kind re) (makeFloat t.kind im))
    | _ => v.retag t
  | .cvtStringBytes =>
    .seq t 0 (v.toBytes.map fun b => .scalar t.elem (.int b))
  | .cvtStringRunes =>
    .seq t 0 ((decodeRunes v.toBytes).map fun r => .scalar t.elem (.int r))
  | .cvtBytesString => .scalar t (.str (v.elems.map fun e => e.toInt.toNat))
  | .cvtRunesString => .scalar t (.str (v.elems.flatMap fun e => runeString e.toInt))
  | .cvtSliceArrayPtr =>
    if v.data = 0 then .ptr t 0 .invalid
    else .ptr t v.data (.seq t.elem 0 (v.elems.take t.elem.len))
  | .cvtSliceArray => .seq t 0 (v.elems.take t.len)
  | .cvtDirect => v.retag t
  | .cvtT2I => .iface t v.interface
  | .cvtI2I => if v.isNil then .iface t .invalid else .iface t v.elem.interface

/-- Method `CanConvert` of `reflect.Value`: the types are convertible, and a
slice converted to an array (or pointer to array) is long enough. -/
def Value.canConvert (v : Value) (t : GoType) : Bool :=
  match convertOp t v.typ with
  | none => false
  | some _ =>
    if v.kind = .slice ∧ t.kind = .array then decide (t.len ≤ v.len)
    else if v.kind = .slice ∧ t.kind = .ptr ∧ t.elem.kind = .array then
      decide (t.elem.len ≤ v.len)
    else true

/-- Method `Convert` of `reflect.Value` (called when `CanConvert` holds). -/
def Value.convert (v : Value) (t : GoType) : Value :=
  match convertOp t v.typ with
  | some op => applyCvt op v t
  | none => v

/-! ## Go equality (`==` on interface values) -/

mutual
/-- Whether values of the type may be compared with `==` without a panic
deciding it: no function, map or slice type, directly or in a field or array
element. -/
def GoType.comparable : GoType → Bool
  | .basic _ => true
  | .named _ u => u.comparable
  | .array _ e => e.comparable
  | .func _ => false
  | .iface => true
  | .map _ _ => false
  | .ptr _ => true
  | .slice _ => false
  | .struct fs => comparableFields fs
/-- All the field types are comparable. -/
def comparableFields : List (StructField GoType) → Bool
  | [] => true
  | ⟨_, _, t⟩ :: fs => t.comparable && comparableFields fs
end

/-- The comparison `==` of two payloads of one type. -/
def Scalar.goEq : Scalar → Scalar → Bool
  | .float a, .float b => f64Eq a b
  | .complex a b, .complex c d => f64Eq a c && f64Eq b d
  | .func _, _ => false
  | a, b => a == b

mutual
/-- Equality of two interface values whose dynamic types are comparable: the
same dynamic type and equal data; pointers are equal when their addresses
are. -/
def Value.goEq : Value → Value → Bool
  | .invalid, .invalid => true
  | .scalar t a, .scalar u b => t == u && a.goEq b
  | .ptr t a _, .ptr u b _ => t == u && a == b
  | .struct t fs, .struct u gs => t == u && goEqList fs gs
  | .seq t _ xs, .seq u _ ys => t == u && goEqList xs ys
  | _, _ => false
/-- Pairwise equality of two lists of values. -/
def goEqList : List Value → List Value → Bool
  | [], [] => true
  | x :: xs, y :: ys => x.goEq y && goEqList xs ys
  | _, _ => false
end

mutual
/-- Whether `==` on the data of two values of one comparable type panics: the
fields of a struct and the elements of an array are compared in order up to the
first pair that differs, and a pair of one uncomparable dynamic type, held by
an interface-typed field or element, panics when it is reached. -/
def Value.eqPanics : Value → Value → Bool
  | .struct _ fs, .struct _ gs => eqPanicsList fs gs
  | .seq _ _ xs, .seq _ _ ys => eqPanicsList xs ys
  | _, _ => false
/-- Whether the comparison in order of two lists of fields or elements
panics. -/
def eqPanicsList : List Value → List Value → Bool
  | x :: xs, y :: ys =>
    if x.isValid && y.isValid && x.typ == y.typ then
      !x.typ.comparable || x.eqPanics y || (x.goEq y && eqPanicsList xs ys)
    else x.goEq y && eqPanicsList xs ys
  | _, _ => false
end

/-- The comparison `x == y` of two interface values: false for different
dynamic types, a panic (`none`) for one uncomparable dynamic type, at the root
or where the comparison of the data reaches it. -/
def ifaceEq (x y : Value) : Option Bool :=
  if x.isValid && y.isValid then
    if x.typ ≠ y.typ then some false
    else if x.typ.comparable then (if x.eqPanics y then none else some (x.goEq y))
    else none
  else some (!x.isValid && !y.isValid)

/-- Method `MapIndex` of `reflect.Value`: the value stored under `key`, `none`
(the zero `reflect.Value`) when the map has no such key. -/
def Value.mapIndex (m key : Value) : Option Value :=
  (m.entries.find? fun e => e.1.goEq key).map Prod.snd

/-! ## Timestamps (`time.Time`) -/

/-- The type `time.Location`, of which only the name is modelled. -/
def locationType : GoType :=
  .named "time.Location" (.struct [⟨"name", "time", .basic .string⟩])

/-- The type `time.Time`: a struct of three unexported fields. -/
def timeType : GoType :=
  .named "time.Time" (.struct [⟨"wall", "time", .basic .uint64⟩,
    ⟨"ext", "time", .basic .int64⟩, ⟨"loc", "time", .ptr locationType⟩])

/-- Field `wall` of a `time.Time`. -/
def timeWall (t : Value) : Nat := (t.fieldValues.getD 0 .invalid).toInt.toNat

/-- Field `ext` of a `time.Time`. -/
def timeExt (t : Value) : Int := (t.fieldValues.getD 1 .invalid).toInt

/-- Whether the `hasMonotonic` bit (bit 63 of `wall`) is set. -/
def timeHasMonotonic (t : Value) : Bool := timeWall t / 2 ^ 63 % 2 == 1

/-- Method `nsec` of `time.Time`: the low 30 bits of `wall`. -/
def timeNsec (t : Value) : Nat := timeWall t % 2 ^ 30

/-- Method `sec` of `time.Time`: seconds since year 1. -/
def timeSec (t : Value) : Int :=
  if timeHasMonotonic t then
    (1884 * 365 + 1884 / 4 - 1884 / 100 + 1884 / 400) * 86400 + (timeWall t % 2 ^ 63 / 2 ^ 30 : Nat)
  else timeExt t

/-- Method `Equal` of `time.Time`: the same instant. -/
def timeEqual (t u : Value) : Bool :=
  if timeHasMonotonic t && timeHasMonotonic u then timeExt t == timeExt u
  else timeSec t == timeSec u && timeNsec t == timeNsec u

/-! ## The comparator (`comparator.go`)

The functions call each other recursively through `compare`.  Each of them is
written here with the recursive callee as its first argument `cmp`;
`compareFuel` ties the knot, and `compare` runs it with one more unit of fuel
than the depth of the expected value, which `compare_eq` shows to be the
fixed point. -/

/-- The type of `compare`: expected value, actual value, current field path,
exclusion list; `none` is a panic. -/
abbrev Cmp := Value → Value → String → List String → Option Bool

/-- Function `isIgnoreField`: whether `field` equals an entry of the list. -/
def isIgnoreField (field : String) : List String → Bool
  | [] => false
  | f :: rest => if field = f then true else isIgnoreField field rest

/-- Function `getValues`: both sides with one pointer indirection removed, the
actual side converted to the expected side's type when the types differ, and
whether the two are compatible. -/
def getValues (expected actual : Value) : Value × Value × Bool :=
  let exp := expected
  let exp := if exp.kind = .ptr ∨ (exp.kind = .interface ∧ !exp.isNil) then exp.elem else exp
  let act := actual
  let act := if act.kind = .ptr ∨ (act.kind = .interface ∧ !act.isNil) then act.elem else act
  if !exp.isValid && !act.isValid then (exp, act, true)
  else if exp.isValid && !act.isValid then (exp, act, false)
  else if !exp.isValid && act.isValid then (exp, act, false)
  else if exp.kind ≠ act.kind ∨ exp.typ ≠ act.typ then
    if act.canConvert exp.typ then (exp, act.convert exp.typ, true)
    else (exp, act, false)
  else (exp, act, true)

/-- The dotted path of a field: its name at the root, otherwise the parent's
path, a dot and the name. -/
def fieldPath (path name : String) : String :=
  if path ≠ "" then path ++ "." ++ name else name

/-- The loop of `compareStructs` from field index `i` on, over the remaining
field declarations. -/
def structLoop (cmp : Cmp) (exp act : Value) (path : String) (ignoreFields : List String) :
    Nat → List (StructField GoType) → Option Bool
  | _, [] => some true
  | i, field :: rest =>
    if !field.isExported || isIgnoreField (fieldPath path field.name) ignoreFields then
      structLoop cmp exp act path ignoreFields (i + 1) rest
    else
      match exp.fieldValues[i]?, act.fieldValues[i]? with
      | some e, some a =>
        match cmp e a (fieldPath path field.name) ignoreFields with
        | some true => structLoop cmp exp act path ignoreFields (i + 1) rest
        | r => r
      | _, _ => none

/-- Function `compareStructs`: timestamps by `Equal`, other structs field by
field. -/
def compareStructs (cmp : Cmp) (exp act : Value) (path : String)
    (ignoreFields : List String) : Option Bool :=
  let typ := exp.typ
  if exp.typ = timeType then
    if act.typ = timeType then some (timeEqual exp act) else none
  else structLoop cmp exp act path ignoreFields 0 typ.fields

/-- The loop of `compareMaps` over the keys of the expected map. -/
def mapLoop (cmp : Cmp) (exp act : Value) (path : String) (ignoreFields : List String) :
    List Value → Option Bool
  | [] => some true
  | key :: keys =>
    match act.mapIndex key with
    | none => some false
    | some actValue =>
      match exp.mapIndex key with
      | none => none
      | some expValue =>
        match cmp expValue actValue path ignoreFields with
        | some true => mapLoop cmp exp act path ignoreFields keys
        | r => r

/-- Function `compareMaps`. -/
def compareMaps (cmp : Cmp) (exp act : Value) (path : String)
    (ignoreFields : List String) : Option Bool :=
  if exp.len ≠ act.len then some false
  else mapLoop cmp exp act path ignoreFields exp.mapKeys

/-- The loop of `compareSlices` over the positions of two sequences. -/
def sliceLoop (cmp : Cmp) (path : String) (ignoreFields : List String) :
    List Value → List Value → Option Bool
  | [], _ => some true
  | e :: es, a :: as =>
    match cmp e a path ignoreFields with
    | some true => sliceLoop cmp path ignoreFields es as
    | r => r
  | _ :: _, [] => none

/-- Function `compareSlices`. -/
def compareSlices (cmp : Cmp) (exp act : Value) (path : String)
    (ignoreFields : List String) : Option Bool :=
  if exp.len ≠ act.len then some false
  else sliceLoop cmp path ignoreFields exp.elems act.elems

/-- Function `compareValue`: dispatch on the kind of the expected value. -/
def compareValue (cmp : Cmp) (exp act : Value) (path : String)
    (ignoreFields : List String) : Option Bool :=
  match exp.kind with
  | .struct => compareStructs cmp exp act path ignoreFields
  | .map => compareMaps cmp exp act path ignoreFields
  | .slice | .array => compareSlices cmp exp act path ignoreFields
  | _ => ifaceEq exp.interface act.interface

/-- The body of `compare`, with `cmp` for the recursive calls. -/
def compareWith (cmp : Cmp) (expected actual : Value) (path : String)
    (ignoreFields : List String) : Option Bool :=
  match getValues expected actual with
  | (exp, act, sameTypes) =>
    if !sameTypes then some false
    else if !exp.isValid && !act.isValid then some true
    else if exp.isValid && !act.isValid then some false
    else if !exp.isValid && act.isValid then some false
    else compareValue cmp exp act path ignoreFields

/-- Function `compare` unfolded at most `n` levels deep. -/
def compareFuel : Nat → Cmp
  | 0 => fun _ _ _ _ => none
  | n + 1 => compareWith (compareFuel n)

/-- Function `compare`. -/
def compare (expected actual : Value) (path : String) (ignoreFields : List String) :
    Option Bool :=
  compareFuel (expected.depth + 1) expected actual path ignoreFields

/-! ## The entry points (`RequireEqual`, `AssertEqual`) -/

/-- The state of the test reporter `t` (a `testing.TB`): the failure messages
reported so far, most recent first, and whether the test was stopped
(`FailNow`). -/
structure TB where
  failures : List String
  stopped : Bool
deriving DecidableEq, Repr

/-- Function `assert.Fail` of testify: reports the failure and lets the test go
on. -/
def assertFail (t : TB) (msg : String) : TB :=
  { t with failures := msg :: t.failures }

/-- Function `require.Fail` of testify: reports the failure and stops the
test. -/
def requireFail (t : TB) (msg : String) : TB :=
  { assertFail t msg with stopped := true }

/-- Function `getErrorMessage`; `marshal` stands for `json.Marshal` with its
error discarded. -/
def getErrorMessage (marshal : Value → String) (expected actual : Value) : String :=
  "\nExpected: " ++ marshal expected ++ "\nActual: " ++ marshal actual

/-- Function `RequireEqual`: the reporter after the call, `none` when the
comparison panics. -/
def RequireEqual (marshal : Value → String) (t : TB) (expected actual : Value)
    (ignoreFields : List String) : Option TB :=
  match compare expected actual "" ignoreFields with
  | none => none
  | some equal =>
    if !equal then some (requireFail t (getErrorMessage marshal expected actual))
    else some t

/-- Function `AssertEqual`: the reporter after the call, `none` when the
comparison panics. -/
def AssertEqual (marshal : Value → String) (t : TB) (expected actual : Value)
    (ignoreFields : List String) : Option TB :=
  match compare expected actual "" ignoreFields with
  | none => none
  | some equal =>
    if !equal then some (assertFail t (getErrorMessage marshal expected actual))
    else some t

/-! ## Vocabulary of the statements, and example values -/

/-- The predeclared type `int`. -/
def intT : GoType := .basic .int

/-- The predeclared type `string`. -/
def stringT : GoType := .basic .string

/-- An `int` value. -/
def mkInt (n : Int) : Value := .scalar intT (.int n)

/-- A `string` value, from its bytes. -/
def mkStr (bs : List Nat) : Value := .scalar stringT (.str bs)

/-- The struct type `type T struct { A int; B int }`. -/
def tAB : GoType := .named "T" (.struct [⟨"A", "", intT⟩, ⟨"B", "", intT⟩])

/-- The value `T{a, b}`. -/
def mkAB (a b : Int) : Value := .struct tAB [mkInt a, mkInt b]

/-- Two struct values of one type other than `time.Time` whose exported fields,
apart from those whose name is an entry of `ig`, compare equal at the root
path: the two differ at most in the fields named in `ig` and in unexported
fields. -/
def agreeOutside (ig : List String) (ev av : Value) : Prop :=
  ev.kind = .struct ∧ av.typ = ev.typ ∧ ev.typ ≠ timeType ∧
    ∀ (j : Nat) (field : StructField GoType), ev.typ.fields[j]? = some field →
      field.isExported = true → field.name ∉ ig →
      ∃ e a, ev.fieldValues[j]? = some e ∧ av.fieldValues[j]? = some a ∧
        compare e a field.name ig = some true

/-- Two struct values of one type other than `time.Time` that hold identical
values in every field whose name is not an entry of `ig`. -/
def differOnlyIn (ig : List String) (ev av : Value) : Prop :=
  ev.kind = .struct ∧ av.typ = ev.typ ∧ ev.typ ≠ timeType ∧
    ∀ (j : Nat) (field : StructField GoType), ev.typ.fields[j]? = some field →
      field.name ∉ ig → av.fieldValues[j]? = ev.fieldValues[j]?

/-- The map type `map[string]T`. -/
def tMapStrAB : GoType := .map stringT tAB

/-- The map type `map[T]int`, keyed by structs. -/
def tMapABInt : GoType := .map tAB intT

/-- The slice type `[]T`. -/
def tSliceAB : GoType := .slice tAB

/-- The struct type `type Inner struct { B int }`. -/
def tInner : GoType := .named "Inner" (.struct [⟨"B", "", intT⟩])

/-- The struct type `type Outer struct { A Inner }`. -/
def tOuter : GoType := .named "Outer" (.struct [⟨"A", "", tInner⟩])

/-- The value `Outer{Inner{b}}`. -/
def mkOuter (b : Int) : Value := .struct tOuter [.struct tInner [mkInt b]]

/-- The struct type `type P struct { A int; b int }` of package `main`, with
the unexported field `b`. -/
def tP : GoType := .named "P" (.struct [⟨"A", "", intT⟩, ⟨"b", "main", intT⟩])

/-- The value `P{a, b}`. -/
def mkP (a b : Int) : Value := .struct tP [mkInt a, mkInt b]

/-- A `time.Time` with the given `wall` and `ext` fields and a nil location. -/
def mkTime (wall ext : Int) : Value :=
  .struct timeType [.scalar (.basic .uint64) (.int wall), .scalar (.basic .int64) (.int ext),
    .ptr (.ptr locationType) 0 .invalid]

/-- An absent value: the nil interface, or a nil pointer of any pointer type
(a pointer whose `Elem()` is the zero `reflect.Value`). -/
def Value.isAbsent (v : Value) : Bool :=
  !v.isValid || (v.kind == .ptr && !v.elem.isValid)

/-- A nil pointer of type `*int`. -/
def nilIntPtr : Value := .ptr (.ptr intT) 0 .invalid

/-- A nil pointer of type `*string`. -/
def nilStrPtr : Value := .ptr (.ptr stringT) 0 .invalid

/-- The array type `[2]int`. -/
def tArr2 : GoType := .array 2 intT

/-- The slice type `[]int`. -/
def tSliceInt : GoType := .slice intT

/-- The map type `map[string]int`. -/
def tMapStrInt : GoType := .map stringT intT

/-- The value with one pointer indirection removed: what `Elem` returns for a
pointer (the zero value for a nil pointer, a value of interface kind for a
pointer to an interface-typed variable), the value itself otherwise. -/
def Value.indirect (v : Value) : Value :=
  if v.kind = .ptr then v.elem else v

/-- The struct type `type Box struct { X interface{} }`. -/
def tBox : GoType := .named "Box" (.struct [⟨"X", "", .iface⟩])

/-- A payload that fits the kind `k` and equals itself under `==`: not a
function value, and no NaN. -/
def Scalar.regular (k : Kind) : Scalar → Bool
  | .bool _ => k == .bool
  | .int _ => k.isInt || k.isUint
  | .float b => k.isFloat && !f64IsNaN b
  | .complex re im => k.isComplex && !f64IsNaN re && !f64IsNaN im
  | .str _ => k == .string
  | .func _ => false

mutual
/-- A well-formed value that holds no NaN, no function value and no pointer to
an interface-typed variable: every node has the shape its kind calls for, a
struct has one value per declared field, and every map key equals itself under
`==`. -/
def Value.regular : Value → Bool
  | .invalid => true
  | .scalar t s => s.regular t.kind
  | .ptr t _ e => t.kind == .ptr && t.elem.kind != .interface && e.regular
  | .struct t fs => t.kind == .struct && fs.length == t.fields.length && regularList fs
  | .map t es => t.kind == .map && regularEntries es
  | .seq t _ es => (t.kind == .slice || t.kind == .array) && regularList es
  | .iface _ _ => false
/-- All the values of the list are regular. -/
def regularList : List Value → Bool
  | [] => true
  | v :: vs => v.regular && regularList vs
/-- All the keys equal themselves and all the values are regular. -/
def regularEntries : List (Value × Value) → Bool
  | [] => true
  | (k, v) :: es => k.goEq k && v.regular && regularEntries es
end

/-- A `float64` value, from its bit pattern. -/
def mkF64 (bits : Nat) : Value := .scalar (.basic .float64) (.float bits)

/-- The bit pattern of a `float64` NaN. -/
def nanBits : Nat := 0x7FF8000000000000

/-- A `time.Time` with the given `wall` and `ext` fields and a location pointer
at address `addr` to a `time.Location` named `zone`. -/
def mkTimeIn (wall ext : Int) (addr : Nat) (zone : List Nat) : Value :=
  .struct timeType [.scalar (.basic .uint64) (.int wall), .scalar (.basic .int64) (.int ext),
    .ptr (.ptr locationType) addr (.struct locationType [mkStr zone])]

/-- The slice `[]int{a, b, c}`. -/
def mkInts3 (a b c : Int) : Value := .seq tSliceInt 1 [mkInt a, mkInt b, mkInt c]

/-- The function type `func()`. -/
def tFunc : GoType := .func "func()"

/-- A non-nil function value of type `func()`. -/
def mkFunc : Value := .scalar tFunc (.func 1)

/-- The struct type `type H struct { F func() }`. -/
def tHandler : GoType := .named "H" (.struct [⟨"F", "", tFunc⟩])

/-- The map type `map[string]interface{}`. -/
def tMapStrAny : GoType := .map stringT .iface

/-- A value with at most one level of pointer indirection: a non-pointer value,
or a pointer to a variable that is neither a pointer nor of interface type. -/
def Value.oneLevel (v : Value) : Prop :=
  v.kind ≠ .interface ∧ v.indirect.kind ≠ .ptr ∧ v.indirect.kind ≠ .interface

/-- The value with every pointer among its struct fields, map values or
sequence elements replaced by its pointee. -/
def Value.indirectChildren : Value → Value
  | .struct t fs => .struct t (fs.map Value.indirect)
  | .map t es => .map t (es.map fun e => (e.1, e.2.indirect))
  | .seq t d es => .seq t d (es.map Value.indirect)
  | v => v

/-- The pointer type `*int`. -/
def tIntPtr : GoType := .ptr intT

/-- A pointer of type `*int` at address `addr` to the integer `n`. -/
def mkIntPtr (addr : Nat) (n : Int) : Value := .ptr tIntPtr addr (mkInt n)

/-- A pointer of type `**int` at address `addr` to the pointer `p`. -/
def mkIntPtrPtr (addr : Nat) (p : Value) : Value := .ptr (.ptr tIntPtr) addr p

/-- The slice type `[]interface{}`. -/
def tSliceAny : GoType := .slice .iface

/-- The slice type `[]*int`. -/
def tSliceIntPtr : GoType := .slice tIntPtr

/-- The struct type `type Q struct { P *int }`. -/
def tQ : GoType := .named "Q" (.struct [⟨"P", "", tIntPtr⟩])

/-- The predeclared type `int8`. -/
def int8T : GoType := .basic .int8

/-- The pointer type `*interface{}`. -/
def tAnyPtr : GoType := .ptr .iface

/-- A pointer at the non-nil address `addr` to a variable of type
`interface{}` that holds `v` (a nil interface when `v` is `invalid`). -/
def mkAnyPtr (addr : Nat) (v : Value) : Value := .ptr tAnyPtr addr v

/-- The struct type `type T2 struct { A float64; B int }`. -/
def tFB : GoType := .named "T2" (.struct [⟨"A", "", .basic .float64⟩, ⟨"B", "", intT⟩])

/-- The value `T2{a, b}`, with `a` given by its bit pattern. -/
def mkFB (a : Nat) (b : Int) : Value := .struct tFB [mkF64 a, mkInt b]

/-- The map type `map[string]T2`. -/
def tMapStrFB : GoType := .map stringT tFB

/-- The map type `map[string]time.Time`. -/
def tMapStrTime : GoType := .map stringT timeType

/-- The struct type `type HB struct { F func(); B int }`. -/
def tHB : GoType := .named "HB" (.struct [⟨"F", "", tFunc⟩, ⟨"B", "", intT⟩])

/-- The value `HB{f, b}` for a non-nil function `f`. -/
def mkHB (b : Int) : Value := .struct tHB [mkFunc, mkInt b]

/-- The map type `map[string]HB`. -/
def tMapStrHB : GoType := .map stringT tHB

/-! ## The fixed-point equation of `compare` -/

theorem depthList_mem {c : Value} {l : List Value} (h : c ∈ l) : c.depth ≤ depthList l := by
  induction l with
  | nil => cases h
  | cons x xs ih =>
    rw [depthList]
    rcases List.mem_cons.mp h with rfl | h'
    · exact le_max_left _ _
    · exact le_trans (ih h') (le_max_right _ _)

theorem depthEntries_mem {e : Value × Value} {l : List (Value × Value)} (h : e ∈ l) :
    e.2.depth ≤ depthEntries l := by
  induction l with
  | nil => cases h
  | cons x xs ih =>
    obtain ⟨k, v⟩ := x
    rw [depthEntries]
    rcases List.mem_cons.mp h with rfl | h'
    · exact le_trans (le_max_right _ _) (le_max_left _ _)
    · exact le_trans (ih h') (le_max_right _ _)

theorem depth_fieldValues {v c : Value} (h : c ∈ v.fieldValues) : c.depth < v.depth := by
  cases v with
  | struct t fs =>
    rw [Value.depth]
    exact Nat.lt_succ_of_le (depthList_mem h)
  | _ => cases h

theorem depth_elems {v c : Value} (h : c ∈ v.elems) : c.depth < v.depth := by
  cases v with
  | seq t d es =>
    rw [Value.depth]
    exact Nat.lt_succ_of_le (depthList_mem h)
  | _ => cases h

theorem depth_entries {v : Value} {e : Value × Value} (h : e ∈ v.entries) :
    e.2.depth < v.depth := by
  cases v with
  | map t es =>
    rw [Value.depth]
    exact Nat.lt_succ_of_le (depthEntries_mem h)
  | _ => cases h

theorem mapIndex_mem {m key c : Value} (h : m.mapIndex key = some c) :
    ∃ e ∈ m.entries, e.2 = c := by
  unfold Value.mapIndex at h
  rcases Option.map_eq_some'.mp h with ⟨e, he, hc⟩
  exact ⟨e, List.mem_of_find?_eq_some he, hc⟩

theorem depth_mapIndex {m key c : Value} (h : m.mapIndex key = some c) :
    c.depth < m.depth := by
  obtain ⟨e, he, rfl⟩ := mapIndex_mem h
  exact depth_entries he

theorem depth_elem_le (v : Value) : v.elem.depth ≤ v.depth := by
  cases v with
  | ptr t a e =>
    simp only [Value.elem, Value.depth]
    split_ifs <;> simp [Value.depth]
  | _ => simp [Value.elem, Value.depth]

/-- The expected side returned by `getValues` is the expected value or its
pointee. -/
theorem getValues_fst (expected actual : Value) :
    (getValues expected actual).1 = expected ∨ (getValues expected actual).1 = expected.elem := by
  unfold getValues
  simp only
  split_ifs <;> simp

theorem depth_getValues_le (expected actual : Value) :
    (getValues expected actual).1.depth ≤ expected.depth := by
  rcases getValues_fst expected actual with h | h <;> rw [h]
  exact depth_elem_le expected

theorem structLoop_congr {f g : Cmp} (exp act : Value) (path : String) (ig : List String)
    (h : ∀ c, c.depth < exp.depth → ∀ a p, f c a p ig = g c a p ig)
    (fields : List (StructField GoType)) (i : Nat) :
    structLoop f exp act path ig i fields = structLoop g exp act path ig i fields := by
  induction fields generalizing i with
  | nil => simp [structLoop]
  | cons field rest ih =>
    rw [structLoop, structLoop, ih (i + 1)]
    split_ifs
    · rfl
    · cases he : exp.fieldValues[i]? with
      | none => rfl
      | some e =>
        cases act.fieldValues[i]? with
        | none => rfl
        | some a =>
          simp only
          rw [h e (depth_fieldValues (List.getElem?_mem he))]

theorem mapLoop_congr {f g : Cmp} (exp act : Value) (path : String) (ig : List String)
    (h : ∀ c, c.depth < exp.depth → ∀ a p, f c a p ig = g c a p ig)
    (keys : List Value) :
    mapLoop f exp act path ig keys = mapLoop g exp act path ig keys := by
  induction keys with
  | nil => simp [mapLoop]
  | cons key rest ih =>
    rw [mapLoop, mapLoop, ih]
    cases act.mapIndex key with
    | none => rfl
    | some a =>
      cases he : exp.mapIndex key with
      | none => rfl
      | some e =>
        simp only
        rw [h e (depth_mapIndex he)]

theorem sliceLoop_congr {f g : Cmp} (path : String) (ig : List String)
    (es as : List Value) (h : ∀ c ∈ es, ∀ a p, f c a p ig = g c a p ig) :
    sliceLoop f path ig es as = sliceLoop g path ig es as := by
  induction es generalizing as with
  | nil => simp [sliceLoop]
  | cons e rest ih =>
    cases as with
    | nil => simp [sliceLoop]
    | cons a as =>
      rw [sliceLoop, sliceLoop, h e (List.mem_cons_self _ _),
        ih as (fun c hc => h c (List.mem_cons_of_mem _ hc))]

theorem compareValue_congr {f g : Cmp} (exp act : Value) (path : String) (ig : List String)
    (h : ∀ c, c.depth < exp.depth → ∀ a p, f c a p ig = g c a p ig) :
    compareValue f exp act path ig = compareValue g exp act path ig := by
  have h1 : compareStructs f exp act path ig = compareStructs g exp act path ig := by
    simp only [compareStructs, structLoop_congr exp act path ig h]
  have h2 : compareMaps f exp act path ig = compareMaps g exp act path ig := by
    simp only [compareMaps, mapLoop_congr exp act path ig h]
  have h3 : compareSlices f exp act path ig = compareSlices g exp act path ig := by
    simp only [compareSlices,
      sliceLoop_congr path ig exp.elems act.elems (fun c hc => h c (depth_elems hc))]
  unfold compareValue
  rw [h1, h2, h3]

theorem compareWith_congr {f g : Cmp} (expected actual : Value) (path : String)
    (ig : List String)
    (h : ∀ c, c.depth < expected.depth → ∀ a p, f c a p ig = g c a p ig) :
    compareWith f expected actual path ig = compareWith g expected actual path ig := by
  unfold compareWith
  have hd := depth_getValues_le expected actual
  rcases hgv : getValues expected actual with ⟨exp, act, same⟩
  rw [hgv] at hd
  simp only
  rw [compareValue_congr exp act path ig (fun c hc => h c (lt_of_lt_of_le hc hd))]

theorem compareFuel_stable (ig : List String) :
    ∀ (n m : Nat) (expected actual : Value) (path : String),
      expected.depth < n → expected.depth < m →
      compareFuel n expected actual path ig = compareFuel m expected actual path ig := by
  intro n
  induction n with
  | zero => intro m e a p hn; exact absurd hn (Nat.not_lt_zero _)
  | succ n ih =>
    intro m e a p hn hm
    cases m with
    | zero => exact absurd hm (Nat.not_lt_zero _)
    | succ m =>
      rw [compareFuel, compareFuel]
      apply compareWith_congr
      intro c hc a' p'
      exact ih m c a' p' (by omega) (by omega)

/-- The defining equation of `compare`: its body, with `compare` itself for the
recursive calls. -/
theorem compare_eq (expected actual : Value) (path : String) (ig : List String) :
    compare expected actual path ig = compareWith compare expected actual path ig := by
  unfold compare
  rw [compareFuel]
  apply compareWith_congr
  intro c hc a p
  exact compareFuel_stable ig _ _ c a p hc (Nat.lt_succ_self _)

/-! ## Lemmas on the three loops and on `getValues` -/

/-- The struct loop returns true exactly when every remaining field that is
exported and not excluded has values on both sides that `cmp` finds equal. -/
theorem structLoop_eq_true_iff (cmp : Cmp) (exp act : Value) (path : String)
    (ig : List String) (fields : List (StructField GoType)) (i : Nat) :
    structLoop cmp exp act path ig i fields = some true ↔
      ∀ (j : Nat) (field : StructField GoType), fields[j]? = some field →
        field.isExported = true → isIgnoreField (fieldPath path field.name) ig = false →
        ∃ e a, exp.fieldValues[i + j]? = some e ∧ act.fieldValues[i + j]? = some a ∧
          cmp e a (fieldPath path field.name) ig = some true := by
  induction fields generalizing i with
  | nil => simp [structLoop]
  | cons field rest ih =>
    rw [structLoop]
    have step : (∀ (j : Nat) (fld : StructField GoType), rest[j]? = some fld →
        fld.isExported = true → isIgnoreField (fieldPath path fld.name) ig = false →
        ∃ e a, exp.fieldValues[i + 1 + j]? = some e ∧ act.fieldValues[i + 1 + j]? = some a ∧
          cmp e a (fieldPath path fld.name) ig = some true) ↔
        (∀ (j : Nat) (fld : StructField GoType), (field :: rest)[j + 1]? = some fld →
        fld.isExported = true → isIgnoreField (fieldPath path fld.name) ig = false →
        ∃ e a, exp.fieldValues[i + (j + 1)]? = some e ∧
          act.fieldValues[i + (j + 1)]? = some a ∧
          cmp e a (fieldPath path fld.name) ig = some true) := by
      have hidx : ∀ j, i + 1 + j = i + (j + 1) := fun j => by omega
      simp only [List.getElem?_cons_succ, hidx]
    by_cases hskip : (!field.isExported || isIgnoreField (fieldPath path field.name) ig) = true
    · rw [if_pos hskip, ih (i + 1), step]
      constructor
      · intro h j fld hj hexp hign
        cases j with
        | zero =>
          simp only [List.getElem?_cons_zero, Option.some.injEq] at hj
          subst hj
          simp [hexp, hign] at hskip
        | succ j => exact h j fld hj hexp hign
      · intro h j fld hj hexp hign
        exact h (j + 1) fld hj hexp hign
    · rw [if_neg hskip]
      have hexp0 : field.isExported = true := by
        cases hx : field.isExported <;> simp [hx] at hskip ⊢
      have hign0 : isIgnoreField (fieldPath path field.name) ig = false := by
        cases hx : isIgnoreField (fieldPath path field.name) ig <;> simp [hx] at hskip ⊢
      constructor
      · intro h j fld hj hexp hign
        cases he : exp.fieldValues[i]? with
        | none => simp [he] at h
        | some e =>
          cases ha : act.fieldValues[i]? with
          | none => simp [he, ha] at h
          | some a =>
            simp only [he, ha] at h
            cases hc : cmp e a (fieldPath path field.name) ig with
            | none => simp [hc] at h
            | some b =>
              cases b with
              | false => simp [hc] at h
              | true =>
                simp only [hc] at h
                cases j with
                | zero =>
                  simp only [List.getElem?_cons_zero, Option.some.injEq] at hj
                  subst hj
                  exact ⟨e, a, by simpa using he, by simpa using ha, hc⟩
                | succ j => exact (step.mp ((ih (i + 1)).mp h)) j fld hj hexp hign
      · intro h
        obtain ⟨e, a, he, ha, hc⟩ := h 0 field (by simp) hexp0 hign0
        simp only [Nat.add_zero] at he ha
        simp only [he, ha, hc]
        exact (ih (i + 1)).mpr (step.mpr (fun j fld hj => h (j + 1) fld hj))

/-- A value whose kind is not `Ptr` or `Interface` comes out of `getValues`
unchanged on the expected side. -/
theorem getValues_of_same_typ (exp act : Value) (hp : exp.kind ≠ .ptr)
    (hi : exp.kind ≠ .interface) (hv : exp.isValid = true) (ht : act.typ = exp.typ)
    (hva : act.isValid = true) :
    getValues exp act = (exp, act, true) := by
  have hk : act.kind = exp.kind := by
    cases exp <;> cases act <;> simp_all [Value.kind, Value.isValid]
  unfold getValues
  simp [hp, hi, hk, hv, hva, ht]

/-- Function `isIgnoreField` is membership in the exclusion list. -/
theorem isIgnoreField_eq_true_iff (field : String) (ig : List String) :
    isIgnoreField field ig = true ↔ field ∈ ig := by
  induction ig with
  | nil => simp [isIgnoreField]
  | cons f rest ih =>
    rw [isIgnoreField]
    by_cases h : field = f
    · simp [h]
    · simp [h, ih]

theorem isIgnoreField_eq_false_iff (field : String) (ig : List String) :
    isIgnoreField field ig = false ↔ field ∉ ig := by
  rw [← isIgnoreField_eq_true_iff]
  cases isIgnoreField field ig <;> simp

/-- A valid value of struct, map, slice or array kind goes through `compare`
to `compareValue` unchanged when the other side has the same type. -/
theorem compare_of_same_typ (exp act : Value) (path : String) (ig : List String)
    (hp : exp.kind ≠ .ptr) (hi : exp.kind ≠ .interface) (hv : exp.isValid = true)
    (ht : act.typ = exp.typ) (hva : act.isValid = true) :
    compare exp act path ig = compareValue compare exp act path ig := by
  rw [compare_eq, compareWith, getValues_of_same_typ exp act hp hi hv ht hva]
  simp [hv, hva]

theorem isValid_of_kind_ne {v : Value} (h : v.kind ≠ .invalid) : v.isValid = true := by
  cases v <;> simp_all [Value.kind, Value.isValid]

theorem isValid_of_typ_eq {exp act : Value} (hk : exp.kind ≠ .invalid)
    (ht : act.typ = exp.typ) : act.isValid = true := by
  cases act with
  | invalid =>
    exfalso
    cases exp with
    | invalid => exact hk rfl
    | _ =>
      simp only [Value.kind, Value.typ] at hk ht
      rw [← ht] at hk
      exact hk rfl
  | _ => rfl

/-- The map loop returns true exactly when every listed key is present in both
maps with values that `cmp` finds equal. -/
theorem mapLoop_eq_true_iff (cmp : Cmp) (exp act : Value) (path : String)
    (ig : List String) (keys : List Value) :
    mapLoop cmp exp act path ig keys = some true ↔
      ∀ key ∈ keys, ∃ ev av, exp.mapIndex key = some ev ∧ act.mapIndex key = some av ∧
        cmp ev av path ig = some true := by
  induction keys with
  | nil => simp [mapLoop]
  | cons key rest ih =>
    rw [mapLoop]
    simp only [List.mem_cons, forall_eq_or_imp]
    cases ha : act.mapIndex key with
    | none => simp
    | some av =>
      cases he : exp.mapIndex key with
      | none => simp
      | some ev =>
        cases hc : cmp ev av path ig with
        | none => simp [hc]
        | some b =>
          cases b with
          | false => simp [hc]
          | true => simp [hc, ih]

/-- The sequence loop returns true exactly when every expected position has an
actual element that `cmp` finds equal to the expected one. -/
theorem sliceLoop_eq_true_iff (cmp : Cmp) (path : String) (ig : List String)
    (es as : List Value) :
    sliceLoop cmp path ig es as = some true ↔
      ∀ (i : Nat) (e : Value), es[i]? = some e →
        ∃ a, as[i]? = some a ∧ cmp e a path ig = some true := by
  induction es generalizing as with
  | nil => simp [sliceLoop]
  | cons e rest ih =>
    cases as with
    | nil =>
      rw [sliceLoop]
      constructor
      · intro h
        cases h
      · intro h
        obtain ⟨a, ha, _⟩ := h 0 e (by simp)
        simp at ha
    | cons a as =>
      rw [sliceLoop]
      constructor
      · intro h i x hi
        cases hc : cmp e a path ig with
        | none => simp [hc] at h
        | some b =>
          cases b with
          | false => simp [hc] at h
          | true =>
            simp only [hc] at h
            cases i with
            | zero =>
              simp only [List.getElem?_cons_zero, Option.some.injEq] at hi
              subst hi
              exact ⟨a, by simp, hc⟩
            | succ i =>
              simp only [List.getElem?_cons_succ] at hi ⊢
              exact (ih as).mp h i x hi
      · intro h
        obtain ⟨a', ha', hc⟩ := h 0 e (by simp)
        simp only [List.getElem?_cons_zero, Option.some.injEq] at ha'
        subst ha'
        simp only [hc]
        refine (ih as).mpr (fun i x hi => ?_)
        simpa using h (i + 1) x (by simpa using hi)

theorem fieldPath_root (name : String) : fieldPath "" name = name := by
  simp [fieldPath]

theorem compare_struct_eq (exp act : Value) (path : String) (ig : List String)
    (hk : exp.kind = .struct) (ht : act.typ = exp.typ) :
    compare exp act path ig = compareStructs compare exp act path ig := by
  have hne : exp.kind ≠ .invalid := by rw [hk]; decide
  rw [compare_of_same_typ exp act path ig (by rw [hk]; decide) (by rw [hk]; decide)
    (isValid_of_kind_ne hne) ht (isValid_of_typ_eq hne ht)]
  simp [compareValue, hk]

theorem compare_map_eq (exp act : Value) (path : String) (ig : List String)
    (hk : exp.kind = .map) (ht : act.typ = exp.typ) :
    compare exp act path ig = compareMaps compare exp act path ig := by
  have hne : exp.kind ≠ .invalid := by rw [hk]; decide
  rw [compare_of_same_typ exp act path ig (by rw [hk]; decide) (by rw [hk]; decide)
    (isValid_of_kind_ne hne) ht (isValid_of_typ_eq hne ht)]
  simp [compareValue, hk]

theorem compare_seq_eq (exp act : Value) (path : String) (ig : List String)
    (hk : exp.kind = .slice ∨ exp.kind = .array) (ht : act.typ = exp.typ) :
    compare exp act path ig = compareSlices compare exp act path ig := by
  have hne : exp.kind ≠ .invalid := by rcases hk with h | h <;> rw [h] <;> decide
  rw [compare_of_same_typ exp act path ig (by rcases hk with h | h <;> rw [h] <;> decide)
    (by rcases hk with h | h <;> rw [h] <;> decide)
    (isValid_of_kind_ne hne) ht (isValid_of_typ_eq hne ht)]
  rcases hk with h | h <;> simp [compareValue, h]

theorem compare_of_agreeOutside {ig : List String} {ev av : Value}
    (h : agreeOutside ig ev av) : compare ev av "" ig = some true := by
  obtain ⟨hk, ht, hnt, hf⟩ := h
  rw [compare_struct_eq ev av "" ig hk ht, compareStructs]
  simp only [if_neg hnt]
  rw [structLoop_eq_true_iff]
  intro j field hj hexp hign
  rw [fieldPath_root] at hign ⊢
  rw [Nat.zero_add]
  exact hf j field hj hexp ((isIgnoreField_eq_false_iff _ _).mp hign)

theorem agreeOutside_mkAB (a b c : Int) : agreeOutside ["B"] (mkAB a b) (mkAB a c) := by
  refine ⟨rfl, rfl, (by decide : tAB ≠ timeType), ?_⟩
  intro j field hj hexp hni
  have hf : (mkAB a b).typ.fields = [⟨"A", "", intT⟩, ⟨"B", "", intT⟩] := rfl
  rw [hf] at hj
  match j, hj with
  | 0, hj =>
    simp only [List.getElem?_cons_zero, Option.some.injEq] at hj
    subst hj
    refine ⟨mkInt a, mkInt a, rfl, rfl, ?_⟩
    rw [compare_eq]
    simp [compareWith, getValues, mkInt, intT, Value.kind, Value.typ, GoType.kind,
      Value.isValid, compareValue, ifaceEq, GoType.comparable, Value.goEq, Scalar.goEq,
      Value.interface, Value.eqPanics]
  | 1, hj =>
    simp only [List.getElem?_cons_succ, List.getElem?_cons_zero, Option.some.injEq] at hj
    subst hj
    simp at hni
  | j + 2, hj => simp at hj

theorem fieldPath_eq (path name : String) :
    fieldPath path name = if path = "" then name else path ++ "." ++ name := by
  unfold fieldPath
  by_cases h : path = "" <;> simp [h]

/-- The struct loop reads the actual side only at exported fields. -/
theorem structLoop_act_congr (cmp : Cmp) (exp act act' : Value) (path : String)
    (ig : List String) (fields : List (StructField GoType)) (i : Nat)
    (h : ∀ (j : Nat) (field : StructField GoType), fields[j]? = some field →
      field.isExported = true → act.fieldValues[i + j]? = act'.fieldValues[i + j]?) :
    structLoop cmp exp act path ig i fields = structLoop cmp exp act' path ig i fields := by
  induction fields generalizing i with
  | nil => simp [structLoop]
  | cons field rest ih =>
    have hrest : structLoop cmp exp act path ig (i + 1) rest
        = structLoop cmp exp act' path ig (i + 1) rest := by
      apply ih
      intro j fld hj hexp
      have := h (j + 1) fld (by simpa using hj) hexp
      rwa [show i + (j + 1) = i + 1 + j by omega] at this
    rw [structLoop, structLoop, hrest]
    by_cases hskip : (!field.isExported || isIgnoreField (fieldPath path field.name) ig) = true
    · rw [if_pos hskip, if_pos hskip]
    · rw [if_neg hskip, if_neg hskip]
      have hexp0 : field.isExported = true := by
        cases hx : field.isExported <;> simp [hx] at hskip ⊢
      have h0 := h 0 field (by simp) hexp0
      rw [Nat.add_zero] at h0
      rw [h0]

/-! ## Lemmas on conversion -/

theorem retag_isValid (v : Value) (t : GoType) : (v.retag t).isValid = v.isValid := by
  cases v <;> rfl

theorem applyCvt_isValid (op : CvtOp) (v : Value) (t : GoType) (h : v.isValid = true) :
    (applyCvt op v t).isValid = true := by
  cases op <;> simp only [applyCvt] <;> try rfl
  · split
    · rfl
    · rw [retag_isValid]; exact h
  · split_ifs <;> rfl
  · rw [retag_isValid]; exact h
  · split_ifs <;> rfl

/-- Conversion keeps a valid value valid. -/
theorem convert_isValid (v : Value) (t : GoType) (h : v.isValid = true) :
    (v.convert t).isValid = true := by
  unfold Value.convert
  cases convertOp t v.typ with
  | none => exact h
  | some op => exact applyCvt_isValid op v t h

/-- After the indirection step of `getValues` a value is valid exactly when it
is not absent. -/
theorem indirect_isValid (a : Value) (ha : a.kind ≠ .interface) :
    (if a.kind = .ptr ∨ (a.kind = .interface ∧ (!a.isNil) = true) then a.elem else a).isValid
      = !a.isAbsent := by
  unfold Value.isAbsent
  by_cases hp : a.kind = .ptr
  · have hv : a.isValid = true := isValid_of_kind_ne (by rw [hp]; decide)
    simp [hp, hv]
  · simp [hp, ha]

/-- What `getValues` reports when at least one side is absent: the sides are
compatible only if both are absent, and each returned side is invalid exactly
when the corresponding input is absent. -/
theorem getValues_of_absent (x y : Value) (hx : x.kind ≠ .interface)
    (hy : y.kind ≠ .interface) (h : x.isAbsent = true ∨ y.isAbsent = true) :
    (getValues x y).2.2 = (x.isAbsent && y.isAbsent)
    ∧ (getValues x y).1.isValid = !x.isAbsent
    ∧ (getValues x y).2.1.isValid = !y.isAbsent := by
  have hvx := indirect_isValid x hx
  have hvy := indirect_isValid y hy
  unfold getValues
  simp only []
  generalize (if x.kind = .ptr ∨ (x.kind = .interface ∧ (!x.isNil) = true) then x.elem
    else x) = ex at hvx ⊢
  generalize (if y.kind = .ptr ∨ (y.kind = .interface ∧ (!y.isNil) = true) then y.elem
    else y) = ey at hvy ⊢
  rcases h with h | h
  · cases hy' : y.isAbsent <;> simp [hvx, hvy, h, hy']
  · cases hx' : x.isAbsent <;> simp [hvx, hvy, h, hx']

theorem typ_kind_of_kind {v : Value} {k : Kind} (h : v.kind = k) (hk : k ≠ .invalid) :
    v.typ.kind = k := by
  cases v with
  | invalid => exact absurd h.symm hk
  | _ => exact h

/-- Without a pointer on either side, `getValues` only decides compatibility
and converts the actual side. -/
theorem getValues_no_indirect (exp act : Value) (hv : exp.isValid = true)
    (hva : act.isValid = true) (hp : exp.kind ≠ .ptr) (hi : exp.kind ≠ .interface)
    (hpa : act.kind ≠ .ptr) (hia : act.kind ≠ .interface) :
    getValues exp act =
      if exp.kind ≠ act.kind ∨ exp.typ ≠ act.typ then
        if act.canConvert exp.typ then (exp, act.convert exp.typ, true) else (exp, act, false)
      else (exp, act, true) := by
  unfold getValues
  simp [hp, hi, hpa, hia, hv, hva]

theorem convertDirect_eq (dst src : GoType) (op : CvtOp) (h : convertDirect dst src = some op)
    (hi : dst.kind ≠ .interface) : op = .cvtDirect := by
  unfold convertDirect at h
  split_ifs at h <;> simp_all

/-- From a map or array type, and from a slice type to a slice type, the only
conversion to a type that is not an interface type is `cvtDirect`. -/
theorem convertOp_direct (dst src : GoType) (op : CvtOp) (h : convertOp dst src = some op)
    (hk : src.kind = .map ∨ src.kind = .array ∨ (src.kind = .slice ∧ dst.kind = .slice))
    (hi : dst.kind ≠ .interface) : op = .cvtDirect := by
  unfold convertOp at h
  rcases hk with hk | hk | ⟨hk, hd⟩
  · simp only [hk, Kind.isInt, Kind.isUint, Kind.isFloat, Kind.isComplex] at h
    exact convertDirect_eq dst src op (by simpa using h) hi
  · simp only [hk, Kind.isInt, Kind.isUint, Kind.isFloat, Kind.isComplex] at h
    exact convertDirect_eq dst src op (by simpa using h) hi
  · simp only [hk, hd, Kind.isInt, Kind.isUint, Kind.isFloat, Kind.isComplex] at h
    exact convertDirect_eq dst src op (by simpa using h) hi

theorem retag_len (v : Value) (t : GoType) : (v.retag t).len = v.len := by
  cases v with
  | scalar u s => cases s <;> rfl
  | _ => rfl

/-- A conversion by `cvtDirect` keeps the number of entries or elements. -/
theorem convert_len_of_direct (v : Value) (t : GoType)
    (hk : v.typ.kind = .map ∨ v.typ.kind = .array ∨ (v.typ.kind = .slice ∧ t.kind = .slice))
    (hi : t.kind ≠ .interface) :
    (v.convert t).len = v.len := by
  unfold Value.convert
  cases h : convertOp t v.typ with
  | none => rfl
  | some op =>
    rw [convertOp_direct t v.typ op h hk hi]
    exact retag_len v t

/-- Two valid non-pointer values of which the expected one is a map, slice or
array compare unequal when their sizes differ and stay different after the
conversion of the actual side. -/
theorem compare_len_ne (exp act : Value) (path : String) (ig : List String)
    (hk : exp.kind = .map ∨ exp.kind = .slice ∨ exp.kind = .array)
    (hva : act.isValid = true) (hpa : act.kind ≠ .ptr) (hia : act.kind ≠ .interface)
    (hlen : exp.len ≠ act.len)
    (hconv : act.canConvert exp.typ = true → exp.len ≠ (act.convert exp.typ).len) :
    compare exp act path ig = some false := by
  have hne : exp.kind ≠ .invalid := by rcases hk with h | h | h <;> rw [h] <;> decide
  have hp : exp.kind ≠ .ptr := by rcases hk with h | h | h <;> rw [h] <;> decide
  have hi : exp.kind ≠ .interface := by rcases hk with h | h | h <;> rw [h] <;> decide
  have hv := isValid_of_kind_ne hne
  have hcv : ∀ a : Value, exp.len ≠ a.len → compareValue compare exp a path ig = some false := by
    intro a ha
    rcases hk with h | h | h <;> simp [compareValue, h, compareMaps, compareSlices, ha]
  rw [compare_eq, compareWith, getValues_no_indirect exp act hv hva hp hi hpa hia]
  by_cases hsame : exp.kind ≠ act.kind ∨ exp.typ ≠ act.typ
  · rw [if_pos hsame]
    by_cases hc : act.canConvert exp.typ = true
    · rw [if_pos hc]
      simp only [hv, convert_isValid act exp.typ hva]
      simpa using hcv _ (hconv hc)
    · rw [if_neg hc]
      simp
  · rw [if_neg hsame]
    simp only [hv, hva]
    simpa using hcv _ hlen

/-! ## Lemmas on key equality -/

theorem f64Eq_symm {a b : Nat} (h : f64Eq a b = true) : f64Eq b a = true := by
  unfold f64Eq at h ⊢
  simp only [Bool.and_eq_true, Bool.not_eq_true', Bool.or_eq_true, beq_iff_eq] at h ⊢
  obtain ⟨⟨ha, hb⟩, h⟩ := h
  refine ⟨⟨hb, ha⟩, ?_⟩
  rcases h with h | ⟨h1, h2⟩
  · exact Or.inl h.symm
  · exact Or.inr ⟨h2, h1⟩

theorem f64Eq_trans {a b c : Nat} (h1 : f64Eq a b = true) (h2 : f64Eq b c = true) :
    f64Eq a c = true := by
  unfold f64Eq at h1 h2 ⊢
  simp only [Bool.and_eq_true, Bool.not_eq_true', Bool.or_eq_true, beq_iff_eq] at h1 h2 ⊢
  obtain ⟨⟨ha, _⟩, h1⟩ := h1
  obtain ⟨⟨_, hc⟩, h2⟩ := h2
  refine ⟨⟨ha, hc⟩, ?_⟩
  rcases h1 with h1 | ⟨h1, h1'⟩ <;> rcases h2 with h2 | ⟨h2, h2'⟩
  · exact Or.inl (h1.trans h2)
  · exact Or.inr ⟨h1 ▸ h2, h2'⟩
  · exact Or.inr ⟨h1, h2 ▸ h1'⟩
  · exact Or.inr ⟨h1, h2'⟩

theorem scalarGoEq_symm {a b : Scalar} (h : a.goEq b = true) : b.goEq a = true := by
  cases a <;> cases b <;> simp_all [Scalar.goEq]
  · exact f64Eq_symm h
  · exact ⟨f64Eq_symm h.1, f64Eq_symm h.2⟩

theorem scalarGoEq_trans {a b c : Scalar} (h1 : a.goEq b = true) (h2 : b.goEq c = true) :
    a.goEq c = true := by
  cases a <;> cases b <;> simp_all [Scalar.goEq] <;> cases c <;> simp_all [Scalar.goEq]
  · exact f64Eq_trans h1 h2
  · exact ⟨f64Eq_trans h1.1 h2.1, f64Eq_trans h1.2 h2.2⟩

mutual
theorem Value.goEq_symm : ∀ (x y : Value), x.goEq y = true → y.goEq x = true
  | .invalid, y => by cases y <;> simp [Value.goEq]
  | .scalar t a, y => by
    cases y with
    | scalar u b =>
      simp only [Value.goEq, Bool.and_eq_true, beq_iff_eq]
      exact fun h => ⟨h.1.symm, scalarGoEq_symm h.2⟩
    | _ => simp [Value.goEq]
  | .ptr t a _, y => by
    cases y with
    | ptr u b _ =>
      simp only [Value.goEq, Bool.and_eq_true, beq_iff_eq]
      exact fun h => ⟨h.1.symm, h.2.symm⟩
    | _ => simp [Value.goEq]
  | .struct t fs, y => by
    cases y with
    | struct u gs =>
      simp only [Value.goEq, Bool.and_eq_true, beq_iff_eq]
      exact fun h => ⟨h.1.symm, goEqList_symm fs gs h.2⟩
    | _ => simp [Value.goEq]
  | .map _ _, y => by cases y <;> simp [Value.goEq]
  | .seq t _ xs, y => by
    cases y with
    | seq u _ ys =>
      simp only [Value.goEq, Bool.and_eq_true, beq_iff_eq]
      exact fun h => ⟨h.1.symm, goEqList_symm xs ys h.2⟩
    | _ => simp [Value.goEq]
  | .iface _ _, y => by cases y <;> simp [Value.goEq]
theorem goEqList_symm : ∀ (xs ys : List Value), goEqList xs ys = true → goEqList ys xs = true
  | [], ys => by cases ys <;> simp [goEqList]
  | x :: xs, ys => by
    cases ys with
    | nil => simp [goEqList]
    | cons y ys =>
      simp only [goEqList, Bool.and_eq_true]
      exact fun h => ⟨Value.goEq_symm x y h.1, goEqList_symm xs ys h.2⟩
end

theorem goEq_trans_invalid (y z : Value) (h1 : Value.invalid.goEq y = true)
    (h2 : y.goEq z = true) : Value.invalid.goEq z = true := by
  cases y <;> simp [Value.goEq] at h1
  exact h2

theorem goEq_trans_scalar (t : GoType) (a : Scalar) (y z : Value)
    (h1 : (Value.scalar t a).goEq y = true) (h2 : y.goEq z = true) :
    (Value.scalar t a).goEq z = true := by
  cases y with
  | scalar u b =>
    cases z with
    | scalar w c =>
      simp only [Value.goEq, Bool.and_eq_true, beq_iff_eq] at h1 h2 ⊢
      exact ⟨h1.1.trans h2.1, scalarGoEq_trans h1.2 h2.2⟩
    | _ => simp [Value.goEq] at h2
  | _ => simp [Value.goEq] at h1

theorem goEq_trans_ptr (t : GoType) (a : Nat) (e y z : Value)
    (h1 : (Value.ptr t a e).goEq y = true) (h2 : y.goEq z = true) :
    (Value.ptr t a e).goEq z = true := by
  cases y with
  | ptr u b _ =>
    cases z with
    | ptr w c _ =>
      simp only [Value.goEq, Bool.and_eq_true, beq_iff_eq] at h1 h2 ⊢
      exact ⟨h1.1.trans h2.1, h1.2.trans h2.2⟩
    | _ => simp [Value.goEq] at h2
  | _ => simp [Value.goEq] at h1

theorem goEq_trans_struct (t : GoType) (fs : List Value) (y z : Value)
    (ih : ∀ gs hs, goEqList fs gs = true → goEqList gs hs = true → goEqList fs hs = true)
    (h1 : (Value.struct t fs).goEq y = true) (h2 : y.goEq z = true) :
    (Value.struct t fs).goEq z = true := by
  cases y with
  | struct u gs =>
    cases z with
    | struct w hs =>
      simp only [Value.goEq, Bool.and_eq_true, beq_iff_eq] at h1 h2 ⊢
      exact ⟨h1.1.trans h2.1, ih gs hs h1.2 h2.2⟩
    | _ => simp [Value.goEq] at h2
  | _ => simp [Value.goEq] at h1

theorem goEq_trans_seq (t : GoType) (d : Nat) (xs : List Value) (y z : Value)
    (ih : ∀ ys zs, goEqList xs ys = true → goEqList ys zs = true → goEqList xs zs = true)
    (h1 : (Value.seq t d xs).goEq y = true) (h2 : y.goEq z = true) :
    (Value.seq t d xs).goEq z = true := by
  cases y with
  | seq u _ ys =>
    cases z with
    | seq w _ zs =>
      simp only [Value.goEq, Bool.and_eq_true, beq_iff_eq] at h1 h2 ⊢
      exact ⟨h1.1.trans h2.1, ih ys zs h1.2 h2.2⟩
    | _ => simp [Value.goEq] at h2
  | _ => simp [Value.goEq] at h1

theorem goEq_trans_iface (t : GoType) (v y z : Value)
    (h1 : (Value.iface t v).goEq y = true) : (Value.iface t v).goEq z = true := by
  cases y <;> simp [Value.goEq] at h1

theorem goEq_trans_map (t : GoType) (es : List (Value × Value)) (y z : Value)
    (h1 : (Value.map t es).goEq y = true) : (Value.map t es).goEq z = true := by
  cases y <;> simp [Value.goEq] at h1

theorem goEqList_trans_cons (x : Value) (xs ys zs : List Value)
    (ihx : ∀ y z, x.goEq y = true → y.goEq z = true → x.goEq z = true)
    (ih : ∀ ys zs, goEqList xs ys = true → goEqList ys zs = true → goEqList xs zs = true)
    (h1 : goEqList (x :: xs) ys = true) (h2 : goEqList ys zs = true) :
    goEqList (x :: xs) zs = true := by
  cases ys with
  | nil => simp [goEqList] at h1
  | cons y ys =>
    cases zs with
    | nil => simp [goEqList] at h2
    | cons z zs =>
      simp only [goEqList, Bool.and_eq_true] at h1 h2 ⊢
      exact ⟨ihx y z h1.1 h2.1, ih ys zs h1.2 h2.2⟩

theorem goEqList_trans_nil (ys zs : List Value) (h1 : goEqList [] ys = true)
    (h2 : goEqList ys zs = true) : goEqList [] zs = true := by
  cases ys with
  | nil => exact h2
  | cons y ys => simp [goEqList] at h1

mutual
theorem Value.goEq_trans :
    ∀ (x y z : Value), x.goEq y = true → y.goEq z = true → x.goEq z = true
  | .invalid, y, z => goEq_trans_invalid y z
  | .scalar t a, y, z => goEq_trans_scalar t a y z
  | .ptr t a e, y, z => goEq_trans_ptr t a e y z
  | .struct t fs, y, z => goEq_trans_struct t fs y z (goEqList_trans fs)
  | .map t es, y, z => fun h1 _ => goEq_trans_map t es y z h1
  | .seq t d xs, y, z => goEq_trans_seq t d xs y z (goEqList_trans xs)
  | .iface t v, y, z => fun h1 _ => goEq_trans_iface t v y z h1
theorem goEqList_trans :
    ∀ (xs ys zs : List Value), goEqList xs ys = true → goEqList ys zs = true →
      goEqList xs zs = true
  | [], ys, zs => goEqList_trans_nil ys zs
  | x :: xs, ys, zs => goEqList_trans_cons x xs ys zs (Value.goEq_trans x) (goEqList_trans xs)
end

/-- Counting argument on keys: if the expected keys are pairwise different,
each of them equals some actual key, and there are as many actual keys as
expected ones, then every actual key equals some expected key. -/
theorem keys_covered (es as : List Value)
    (hd : es.Pairwise (fun a b => a.goEq b = false))
    (hfound : ∀ e ∈ es, ∃ a ∈ as, a.goEq e = true)
    (hlen : es.length = as.length) :
    ∀ a ∈ as, ∃ e ∈ es, a.goEq e = true := by
  induction es generalizing as with
  | nil =>
    intro a ha
    have : as = [] := List.length_eq_zero.mp hlen.symm
    rw [this] at ha
    cases ha
  | cons e rest ih =>
    obtain ⟨a0, ha0, hr0⟩ := hfound e (List.mem_cons_self _ _)
    obtain ⟨as1, as2, rfl⟩ := List.append_of_mem ha0
    have hd' := List.pairwise_cons.mp hd
    have hfound' : ∀ e' ∈ rest, ∃ a ∈ as1 ++ as2, a.goEq e' = true := by
      intro e' he'
      obtain ⟨a', ha', hr'⟩ := hfound e' (List.mem_cons_of_mem _ he')
      have hne : a' ≠ a0 := by
        rintro rfl
        have h1 := Value.goEq_symm _ _ hr0
        have h2 := Value.goEq_trans _ _ _ h1 hr'
        rw [hd'.1 e' he'] at h2
        cases h2
      refine ⟨a', ?_, hr'⟩
      rcases List.mem_append.mp ha' with h | h
      · exact List.mem_append_left _ h
      · rcases List.mem_cons.mp h with h | h
        · exact absurd h hne
        · exact List.mem_append_right _ h
    have hlen' : rest.length = (as1 ++ as2).length := by
      simp only [List.length_cons, List.length_append] at hlen ⊢
      omega
    have hrec := ih (as1 ++ as2) hd'.2 hfound' hlen'
    intro a ha
    rcases List.mem_append.mp ha with h | h
    · obtain ⟨e', he', hr⟩ := hrec a (List.mem_append_left _ h)
      exact ⟨e', List.mem_cons_of_mem _ he', hr⟩
    · rcases List.mem_cons.mp h with h | h
      · exact ⟨e, List.mem_cons_self _ _, h ▸ hr0⟩
      · obtain ⟨e', he', hr⟩ := hrec a (List.mem_append_right _ h)
        exact ⟨e', List.mem_cons_of_mem _ he', hr⟩

theorem mapIndex_key {m key c : Value} (h : m.mapIndex key = some c) :
    ∃ k ∈ m.mapKeys, k.goEq key = true := by
  unfold Value.mapIndex at h
  rcases Option.map_eq_some'.mp h with ⟨e, he, _⟩
  exact ⟨e.1, List.mem_map.mpr ⟨e, List.mem_of_find?_eq_some he, rfl⟩,
    by simpa using List.find?_some he⟩

theorem retag_entries (v : Value) (t : GoType) : (v.retag t).entries = v.entries := by
  cases v <;> rfl

/-- Converting a map keeps its entries. -/
theorem convert_entries_of_map (v : Value) (t : GoType) (hk : v.typ.kind = .map)
    (hi : t.kind ≠ .interface) :
    (v.convert t).entries = v.entries := by
  unfold Value.convert
  cases h : convertOp t v.typ with
  | none => rfl
  | some op =>
    rw [convertOp_direct t v.typ op h (Or.inl hk) hi]
    exact retag_entries v t

/-- When `compare` returns true on two maps, `compareMaps` returned true on the
expected map and the actual map, the latter possibly converted to the expected
type with its entries unchanged. -/
theorem compareMaps_of_compare_true (exp act : Value) (path : String) (ig : List String)
    (hk : exp.kind = .map) (hka : act.kind = .map)
    (h : compare exp act path ig = some true) :
    ∃ act' : Value, act'.entries = act.entries ∧ act'.len = act.len ∧
      compareMaps compare exp act' path ig = some true := by
  have hv : exp.isValid = true := isValid_of_kind_ne (by rw [hk]; decide)
  have hva : act.isValid = true := isValid_of_kind_ne (by rw [hka]; decide)
  have hat := typ_kind_of_kind hka (by decide)
  rw [compare_eq, compareWith, getValues_no_indirect exp act hv hva (by rw [hk]; decide)
    (by rw [hk]; decide) (by rw [hka]; decide) (by rw [hka]; decide)] at h
  by_cases hsame : exp.kind ≠ act.kind ∨ exp.typ ≠ act.typ
  · rw [if_pos hsame] at h
    by_cases hc : act.canConvert exp.typ = true
    · rw [if_pos hc] at h
      simp only [hv, convert_isValid act exp.typ hva] at h
      have hti : exp.typ.kind ≠ .interface := by
        rw [typ_kind_of_kind hk (by decide)]; decide
      refine ⟨act.convert exp.typ, convert_entries_of_map act exp.typ hat hti,
        convert_len_of_direct act exp.typ (Or.inl hat) hti, ?_⟩
      simpa [compareValue, hk] using h
    · rw [if_neg hc] at h
      simp at h
  · rw [if_neg hsame] at h
    simp only [hv, hva] at h
    exact ⟨act, rfl, rfl, by simpa [compareValue, hk] using h⟩

/-- Function `getValues` in terms of `indirect`, for values whose dynamic type
is not an interface type. -/
theorem getValues_eq_indirect (expected actual : Value) (he : expected.kind ≠ .interface)
    (ha : actual.kind ≠ .interface) :
    getValues expected actual =
      if !expected.indirect.isValid && !actual.indirect.isValid then
        (expected.indirect, actual.indirect, true)
      else if expected.indirect.isValid && !actual.indirect.isValid then
        (expected.indirect, actual.indirect, false)
      else if !expected.indirect.isValid && actual.indirect.isValid then
        (expected.indirect, actual.indirect, false)
      else if expected.indirect.kind ≠ actual.indirect.kind
          ∨ expected.indirect.typ ≠ actual.indirect.typ then
        if actual.indirect.canConvert expected.indirect.typ then
          (expected.indirect, actual.indirect.convert expected.indirect.typ, true)
        else (expected.indirect, actual.indirect, false)
      else (expected.indirect, actual.indirect, true) := by
  unfold getValues Value.indirect
  simp only [he, ha, false_and, or_false]

/-- Two present values of different types, the actual one not convertible to
the expected type, compare unequal. -/
theorem compare_of_incompatible (expected actual : Value) (path : String) (ig : List String)
    (he : expected.kind ≠ .interface) (ha : actual.kind ≠ .interface)
    (hve : expected.indirect.isValid = true) (hva : actual.indirect.isValid = true)
    (hne : expected.indirect.typ ≠ actual.indirect.typ)
    (hnc : actual.indirect.canConvert expected.indirect.typ = false) :
    compare expected actual path ig = some false := by
  rw [compare_eq, compareWith, getValues_eq_indirect expected actual he ha]
  simp [hve, hva, hne, hnc]

/-! ## Lemmas on regular values -/

theorem regularList_mem {l : List Value} (h : regularList l = true) {c : Value}
    (hc : c ∈ l) : c.regular = true := by
  induction l with
  | nil => cases hc
  | cons x xs ih =>
    simp only [regularList, Bool.and_eq_true] at h
    rcases List.mem_cons.mp hc with rfl | h'
    · exact h.1
    · exact ih h.2 h'

theorem regularEntries_mem {l : List (Value × Value)} (h : regularEntries l = true)
    {e : Value × Value} (he : e ∈ l) : e.1.goEq e.1 = true ∧ e.2.regular = true := by
  induction l with
  | nil => cases he
  | cons x xs ih =>
    obtain ⟨k, v⟩ := x
    simp only [regularEntries, Bool.and_eq_true] at h
    rcases List.mem_cons.mp he with rfl | h'
    · exact ⟨h.1.1, h.1.2⟩
    · exact ih h.2 h'

theorem f64Eq_self {b : Nat} (h : f64IsNaN b = false) : f64Eq b b = true := by
  simp [f64Eq, h]

theorem scalarGoEq_self {k : Kind} {s : Scalar} (h : s.regular k = true) :
    s.goEq s = true := by
  cases s <;> simp_all [Scalar.regular, Scalar.goEq, f64Eq_self]

/-- A type whose kind is not array, function, map, slice or struct is
comparable. -/
theorem comparable_of_kind : ∀ (t : GoType), t.kind ≠ .array → t.kind ≠ .func →
    t.kind ≠ .map → t.kind ≠ .slice → t.kind ≠ .struct → t.comparable = true
  | .basic _, _, _, _, _, _ => rfl
  | .named _ u, h1, h2, h3, h4, h5 => by
    rw [GoType.comparable]
    exact comparable_of_kind u h1 h2 h3 h4 h5
  | .array _ _, h1, _, _, _, _ => absurd rfl h1
  | .func _, _, h2, _, _, _ => absurd rfl h2
  | .iface, _, _, _, _, _ => rfl
  | .map _ _, _, _, h3, _, _ => absurd rfl h3
  | .ptr _, _, _, _, _, _ => rfl
  | .slice _, _, _, _, h4, _ => absurd rfl h4
  | .struct _, _, _, _, _, h5 => absurd rfl h5

theorem interface_of_kind_ne {v : Value} (h : v.kind ≠ .interface) : v.interface = v := by
  simp [Value.interface, h]

theorem compareValue_default (cmp : Cmp) (exp act : Value) (path : String)
    (ig : List String) (h1 : exp.kind ≠ .struct) (h2 : exp.kind ≠ .map)
    (h3 : exp.kind ≠ .slice) (h4 : exp.kind ≠ .array) :
    compareValue cmp exp act path ig = ifaceEq exp.interface act.interface := by
  unfold compareValue
  split <;> simp_all

/-- The default case of `compareValue` on two values that are not of interface
kind: `==` on the two values. -/
theorem compareValue_leaf (cmp : Cmp) (exp act : Value) (path : String)
    (ig : List String) (h1 : exp.kind ≠ .struct) (h2 : exp.kind ≠ .map)
    (h3 : exp.kind ≠ .slice) (h4 : exp.kind ≠ .array) (h5 : exp.kind ≠ .interface)
    (h6 : act.kind ≠ .interface) :
    compareValue cmp exp act path ig = ifaceEq exp act := by
  rw [compareValue_default cmp exp act path ig h1 h2 h3 h4, interface_of_kind_ne h5,
    interface_of_kind_ne h6]

theorem timeEqual_self (t : Value) : timeEqual t t = true := by
  unfold timeEqual
  split_ifs <;> simp

/-- The kind of a regular scalar is a boolean, numeric or string kind. -/
theorem scalar_regular_kind {t : GoType} {s : Scalar}
    (h : (Value.scalar t s).regular = true) :
    t.kind ≠ .array ∧ t.kind ≠ .func ∧ t.kind ≠ .map ∧ t.kind ≠ .slice ∧ t.kind ≠ .struct
      ∧ t.kind ≠ .interface ∧ t.kind ≠ .ptr := by
  rw [Value.regular] at h
  cases s <;> simp only [Scalar.regular, Bool.and_eq_true, Bool.or_eq_true, beq_iff_eq] at h
  · rw [h]; decide
  · rcases h with h | h <;> revert h <;> cases t.kind <;> simp [Kind.isInt, Kind.isUint]
  · have h := h.1; revert h; cases t.kind <;> simp [Kind.isFloat]
  · have h := h.1.1; revert h; cases t.kind <;> simp [Kind.isComplex]
  · rw [h]; decide
  · cases h

theorem regular_kind_ne_interface {v : Value} (h : v.regular = true) :
    v.kind ≠ .interface := by
  cases v with
  | invalid => simp [Value.kind]
  | scalar t s => exact (scalar_regular_kind h).2.2.2.2.2.1
  | ptr t a e =>
    simp only [Value.regular, Bool.and_eq_true, beq_iff_eq] at h
    simp [Value.kind, Value.typ, h.1.1]
  | struct t fs =>
    simp only [Value.regular, Bool.and_eq_true, beq_iff_eq] at h
    simp [Value.kind, Value.typ, h.1.1]
  | map t es =>
    simp only [Value.regular, Bool.and_eq_true, beq_iff_eq] at h
    simp [Value.kind, Value.typ, h.1]
  | seq t d es =>
    simp only [Value.regular, Bool.and_eq_true, Bool.or_eq_true, beq_iff_eq] at h
    rcases h.1 with h' | h' <;> simp [Value.kind, Value.typ, h']
  | iface t v => simp [Value.regular] at h

/-- The pointee of a regular pointer is the stored one: its element type is not
an interface type. -/
theorem elem_of_regular {t : GoType} {a : Nat} {e : Value}
    (h : (Value.ptr t a e).regular = true) : (Value.ptr t a e).elem = e := by
  simp only [Value.regular, Bool.and_eq_true, beq_iff_eq, bne_iff_ne] at h
  simp [Value.elem, h.1.2]

theorem indirect_regular {v : Value} (h : v.regular = true) : v.indirect.regular = true := by
  unfold Value.indirect
  split_ifs
  · cases v with
    | ptr t a e =>
      rw [elem_of_regular h]
      simp only [Value.regular, Bool.and_eq_true] at h
      exact h.2
    | iface t v => simp [Value.regular] at h
    | _ => rfl
  · exact h

theorem depth_indirect_le (v : Value) : v.indirect.depth ≤ v.depth := by
  unfold Value.indirect
  split_ifs
  · exact depth_elem_le v
  · exact le_refl _

/-- A regular valid value compares equal to itself at the level of
`compareValue`, once its children do under `compare`. -/
theorem compareValue_self (w : Value) (path : String) (ig : List String)
    (hr : w.regular = true) (hv : w.isValid = true)
    (ih : ∀ c : Value, c.depth < w.depth → c.regular = true →
      ∀ p : String, compare c c p ig = some true) :
    compareValue compare w w path ig = some true := by
  cases w with
  | invalid => cases hv
  | scalar t s =>
    obtain ⟨h1, h2, h3, h4, h5, h6, _⟩ := scalar_regular_kind hr
    rw [compareValue_leaf compare (.scalar t s) (.scalar t s) path ig
      (show (Value.scalar t s).kind ≠ .struct from h5)
      (show (Value.scalar t s).kind ≠ .map from h3)
      (show (Value.scalar t s).kind ≠ .slice from h4)
      (show (Value.scalar t s).kind ≠ .array from h1)
      (show (Value.scalar t s).kind ≠ .interface from h6)
      (show (Value.scalar t s).kind ≠ .interface from h6)]
    have hc := comparable_of_kind t h1 h2 h3 h4 h5
    rw [Value.regular] at hr
    simp [ifaceEq, Value.isValid, Value.typ, hc, Value.goEq, Value.eqPanics,
      scalarGoEq_self hr]
  | iface t v => simp [Value.regular] at hr
  | ptr t a e =>
    simp only [Value.regular, Bool.and_eq_true, beq_iff_eq] at hr
    have hk : (Value.ptr t a e).kind = .ptr := hr.1.1
    rw [compareValue_leaf compare _ _ path ig (by rw [hk]; decide) (by rw [hk]; decide)
      (by rw [hk]; decide) (by rw [hk]; decide) (by rw [hk]; decide) (by rw [hk]; decide)]
    have hc := comparable_of_kind t (by rw [hr.1.1]; decide) (by rw [hr.1.1]; decide)
      (by rw [hr.1.1]; decide) (by rw [hr.1.1]; decide) (by rw [hr.1.1]; decide)
    simp [ifaceEq, Value.isValid, Value.typ, hc, Value.goEq, Value.eqPanics]
  | struct t fs =>
    simp only [Value.regular, Bool.and_eq_true, beq_iff_eq] at hr
    obtain ⟨⟨hk, hlen⟩, hfs⟩ := hr
    have hk' : (Value.struct t fs).kind = .struct := hk
    simp only [compareValue, hk', compareStructs, Value.typ]
    split_ifs with ht
    · rw [timeEqual_self]
    · rw [structLoop_eq_true_iff]
      intro j field hj _ _
      have hjlt : j < fs.length := by
        rw [hlen]
        exact (List.getElem?_eq_some.mp hj).1
      refine ⟨fs[j], fs[j], ?_, ?_, ?_⟩
      · simp [Value.fieldValues, hjlt]
      · simp [Value.fieldValues, hjlt]
      · have hmem : fs[j] ∈ fs := List.getElem_mem hjlt
        exact ih _ (depth_fieldValues (v := .struct t fs) hmem) (regularList_mem hfs hmem) _
  | map t es =>
    simp only [Value.regular, Bool.and_eq_true, beq_iff_eq] at hr
    obtain ⟨hk, hes⟩ := hr
    have hk' : (Value.map t es).kind = .map := hk
    simp only [compareValue, hk', compareMaps, ne_eq, not_true_eq_false, if_false]
    rw [mapLoop_eq_true_iff]
    intro key hkey
    obtain ⟨e0, he0, rfl⟩ := List.mem_map.mp hkey
    have hself := (regularEntries_mem hes he0).1
    have hsome : ((Value.map t es).mapIndex e0.1).isSome = true := by
      unfold Value.mapIndex
      rw [Option.isSome_map']
      exact List.find?_isSome.mpr ⟨e0, he0, hself⟩
    obtain ⟨c, hc⟩ := Option.isSome_iff_exists.mp hsome
    obtain ⟨e1, he1, rfl⟩ := mapIndex_mem hc
    exact ⟨e1.2, e1.2, hc, hc,
      ih _ (depth_entries (v := .map t es) he1) (regularEntries_mem hes he1).2 _⟩
  | seq t d es =>
    simp only [Value.regular, Bool.and_eq_true, Bool.or_eq_true, beq_iff_eq] at hr
    obtain ⟨hk, hes⟩ := hr
    have hloop : sliceLoop compare path ig es es = some true := by
      rw [sliceLoop_eq_true_iff]
      intro i e hi
      have hmem : e ∈ es := List.getElem?_mem hi
      exact ⟨e, hi, ih _ (depth_elems (v := .seq t d es) hmem) (regularList_mem hes hmem) _⟩
    rcases hk with hk | hk
    · have hk' : (Value.seq t d es).kind = .slice := hk
      simpa [compareValue, hk', compareSlices, Value.elems] using hloop
    · have hk' : (Value.seq t d es).kind = .array := hk
      simpa [compareValue, hk', compareSlices, Value.elems] using hloop

theorem compare_self_aux (ig : List String) : ∀ (n : Nat) (v : Value), v.depth < n →
    v.regular = true → ∀ path : String, compare v v path ig = some true := by
  intro n
  induction n with
  | zero => intro v h; exact absurd h (Nat.not_lt_zero _)
  | succ n ih =>
    intro v hd hr path
    have hi := regular_kind_ne_interface hr
    rw [compare_eq, compareWith, getValues_eq_indirect v v hi hi]
    rcases Bool.eq_false_or_eq_true v.indirect.isValid with hv | hv
    · have key := compareValue_self v.indirect path ig (indirect_regular hr) hv
        (fun c hc hcr p => ih c (by have := depth_indirect_le v; omega) hcr p)
      simpa [hv] using key
    · simp [hv]

/-- Struct values that differ only in fields named by `ig` agree outside `ig`
when the expected one is regular. -/
theorem agreeOutside_of_differOnlyIn {ig : List String} {ev av : Value}
    (hr : ev.regular = true) (h : differOnlyIn ig ev av) : agreeOutside ig ev av := by
  obtain ⟨hk, ht, hnt, hf⟩ := h
  refine ⟨hk, ht, hnt, ?_⟩
  intro j field hj _ hni
  cases ev with
  | invalid => cases hk
  | scalar t s => exact absurd hk (scalar_regular_kind hr).2.2.2.2.1
  | iface t v => simp [Value.regular] at hr
  | ptr t a e =>
    simp only [Value.regular, Bool.and_eq_true, beq_iff_eq] at hr
    have hk' : t.kind = .struct := hk
    rw [hr.1.1] at hk'
    cases hk'
  | map t es =>
    simp only [Value.regular, Bool.and_eq_true, beq_iff_eq] at hr
    have hk' : t.kind = .struct := hk
    rw [hr.1] at hk'
    cases hk'
  | seq t d es =>
    simp only [Value.regular, Bool.and_eq_true, Bool.or_eq_true, beq_iff_eq] at hr
    have hk' : t.kind = .struct := hk
    rcases hr.1 with h' | h' <;> rw [h'] at hk' <;> cases hk'
  | struct t fs =>
    simp only [Value.regular, Bool.and_eq_true, beq_iff_eq] at hr
    obtain ⟨⟨_, hlen⟩, hfs⟩ := hr
    have hj' : t.fields[j]? = some field := hj
    have hjlt : j < fs.length := by
      rw [hlen]
      exact (List.getElem?_eq_some.mp hj').1
    have he : (Value.struct t fs).fieldValues[j]? = some fs[j] := by
      simp [Value.fieldValues, hjlt]
    refine ⟨fs[j], fs[j], he, ?_, ?_⟩
    · rw [hf j field hj hni, he]
    · exact compare_self_aux ig _ _ (Nat.lt_succ_self _)
        (regularList_mem hfs (List.getElem_mem hjlt)) _

/-! ## Lemmas on timestamps -/

theorem kind_of_typ_timeType {v : Value} (h : v.typ = timeType) : v.kind = .struct := by
  cases v with
  | invalid => exact absurd h (by decide)
  | _ =>
    simp only [Value.kind]
    rw [h]
    rfl

/-- On two values of type `time.Time`, `compareStructs` is `Time.Equal`,
whatever function stands for the recursive calls. -/
theorem compareStructs_time (cmp : Cmp) (exp act : Value) (path : String) (ig : List String)
    (he : exp.typ = timeType) (ha : act.typ = timeType) :
    compareStructs cmp exp act path ig = some (timeEqual exp act) := by
  simp [compareStructs, he, ha]

theorem compare_time_eq (exp act : Value) (path : String) (ig : List String)
    (he : exp.typ = timeType) (ha : act.typ = timeType) :
    compare exp act path ig = some (timeEqual exp act) := by
  rw [compare_struct_eq exp act path ig (kind_of_typ_timeType he) (ha.trans he.symm)]
  exact compareStructs_time compare exp act path ig he ha

/-! ## Lemmas on pointer indirection -/

theorem indirect_of_not_ptr {v : Value} (h : v.kind ≠ .ptr) : v.indirect = v := by
  simp [Value.indirect, h]

theorem indirect_ptr (t : GoType) (x : Nat) (a : Value) (ht : t.kind = .ptr)
    (hi : t.elem.kind ≠ .interface) : (Value.ptr t x a).indirect = a := by
  have hk : (Value.ptr t x a).kind = .ptr := ht
  simp [Value.indirect, hk, Value.elem, hi]

/-- Function `getValues` sees a value only through one indirection. -/
theorem getValues_indirect (e a : Value) (he : e.oneLevel) (ha : a.oneLevel) :
    getValues e a = getValues e.indirect a.indirect := by
  rw [getValues_eq_indirect e a he.1 ha.1,
    getValues_eq_indirect e.indirect a.indirect he.2.2 ha.2.2,
    indirect_of_not_ptr he.2.1, indirect_of_not_ptr ha.2.1]

/-- One level of pointer indirection on either side is transparent to
`compare`. -/
theorem compare_indirect (e a : Value) (path : String) (ig : List String)
    (he : e.oneLevel) (ha : a.oneLevel) :
    compare e a path ig = compare e.indirect a.indirect path ig := by
  rw [compare_eq, compare_eq e.indirect, compareWith, compareWith, getValues_indirect e a he ha]

theorem oneLevel_of_not_ptr {v : Value} (hp : v.kind ≠ .ptr) (hi : v.kind ≠ .interface) :
    v.oneLevel := by
  refine ⟨hi, ?_, ?_⟩ <;> rw [indirect_of_not_ptr hp] <;> assumption

theorem oneLevel_ptr (t : GoType) (x : Nat) (a : Value) (ht : t.kind = .ptr)
    (hte : t.elem.kind ≠ .interface) (hp : a.kind ≠ .ptr) (hi : a.kind ≠ .interface) :
    (Value.ptr t x a).oneLevel := by
  have hk : (Value.ptr t x a).kind = .ptr := ht
  refine ⟨by rw [hk]; decide, ?_, ?_⟩ <;> rw [indirect_ptr t x a ht hte] <;> assumption

theorem indirectChildren_typ (v : Value) : v.indirectChildren.typ = v.typ := by
  cases v <;> rfl

theorem indirectChildren_kind (v : Value) : v.indirectChildren.kind = v.kind := by
  cases v <;> rfl

theorem indirectChildren_len (v : Value) : v.indirectChildren.len = v.len := by
  cases v <;> simp [Value.indirectChildren, Value.len]

theorem indirectChildren_fieldValues (v : Value) :
    v.indirectChildren.fieldValues = v.fieldValues.map Value.indirect := by
  cases v <;> simp [Value.indirectChildren, Value.fieldValues]

theorem indirectChildren_elems (v : Value) :
    v.indirectChildren.elems = v.elems.map Value.indirect := by
  cases v <;> simp [Value.indirectChildren, Value.elems]

theorem indirectChildren_mapKeys (v : Value) : v.indirectChildren.mapKeys = v.mapKeys := by
  cases v <;> simp [Value.indirectChildren, Value.mapKeys, Value.entries, Function.comp_def]

theorem find?_map_snd (p : Value → Bool) (f : Value → Value) (es : List (Value × Value)) :
    ((es.map fun e => (e.1, f e.2)).find? fun e => p e.1)
      = (es.find? fun e => p e.1).map fun e => (e.1, f e.2) := by
  induction es with
  | nil => rfl
  | cons e rest ih =>
    simp only [List.map_cons, List.find?_cons]
    cases p e.1 <;> simp [ih]

theorem indirectChildren_mapIndex (v key : Value) :
    v.indirectChildren.mapIndex key = (v.mapIndex key).map Value.indirect := by
  cases v with
  | map t es =>
    simp only [Value.indirectChildren, Value.mapIndex, Value.entries]
    rw [find?_map_snd (fun k => k.goEq key) Value.indirect es]
    cases es.find? fun e => e.1.goEq key <;> rfl
  | _ => rfl

/-- The struct loop on two values with their children replaced by the
pointees. -/
theorem structLoop_indirectChildren (cmp : Cmp) (exp act : Value) (path : String)
    (ig : List String)
    (h : ∀ e ∈ exp.fieldValues, ∀ a ∈ act.fieldValues, ∀ p : String,
      cmp e.indirect a.indirect p ig = cmp e a p ig)
    (fields : List (StructField GoType)) (i : Nat) :
    structLoop cmp exp.indirectChildren act.indirectChildren path ig i fields
      = structLoop cmp exp act path ig i fields := by
  induction fields generalizing i with
  | nil => simp [structLoop]
  | cons field rest ih =>
    rw [structLoop, structLoop, ih (i + 1), indirectChildren_fieldValues,
      indirectChildren_fieldValues, List.getElem?_map, List.getElem?_map]
    split_ifs
    · rfl
    · cases he : exp.fieldValues[i]? with
      | none => rfl
      | some e =>
        cases ha : act.fieldValues[i]? with
        | none => rfl
        | some a =>
          simp only [Option.map_some']
          rw [h e (List.getElem?_mem he) a (List.getElem?_mem ha)]

/-- The map loop on two values with their children replaced by the pointees. -/
theorem mapLoop_indirectChildren (cmp : Cmp) (exp act : Value) (path : String)
    (ig : List String)
    (h : ∀ e ∈ exp.entries, ∀ a ∈ act.entries, ∀ p : String,
      cmp e.2.indirect a.2.indirect p ig = cmp e.2 a.2 p ig)
    (keys : List Value) :
    mapLoop cmp exp.indirectChildren act.indirectChildren path ig keys
      = mapLoop cmp exp act path ig keys := by
  induction keys with
  | nil => simp [mapLoop]
  | cons key rest ih =>
    rw [mapLoop, mapLoop, ih, indirectChildren_mapIndex, indirectChildren_mapIndex]
    cases ha : act.mapIndex key with
    | none => rfl
    | some a =>
      cases he : exp.mapIndex key with
      | none => rfl
      | some e =>
        simp only [Option.map_some']
        obtain ⟨e', he', rfl⟩ := mapIndex_mem he
        obtain ⟨a', ha', rfl⟩ := mapIndex_mem ha
        rw [h e' he' a' ha']

/-- The sequence loop on two lists with their elements replaced by the
pointees. -/
theorem sliceLoop_indirect (cmp : Cmp) (path : String) (ig : List String)
    (es as : List Value)
    (h : ∀ e ∈ es, ∀ a ∈ as, ∀ p : String, cmp e.indirect a.indirect p ig = cmp e a p ig) :
    sliceLoop cmp path ig (es.map Value.indirect) (as.map Value.indirect)
      = sliceLoop cmp path ig es as := by
  induction es generalizing as with
  | nil => simp [sliceLoop]
  | cons e rest ih =>
    cases as with
    | nil => simp [sliceLoop]
    | cons a as =>
      simp only [List.map_cons]
      rw [sliceLoop, sliceLoop, h e (List.mem_cons_self _ _) a (List.mem_cons_self _ _),
        ih as (fun e' he' a' ha' =>
          h e' (List.mem_cons_of_mem _ he') a' (List.mem_cons_of_mem _ ha'))]

/-- Replacing the pointers among the children of two same-typed structs, maps
or sequences by their pointees leaves `compare` unchanged. -/
theorem compare_indirectChildren (exp act : Value) (path : String) (ig : List String)
    (hk : exp.kind = .struct ∨ exp.kind = .map ∨ exp.kind = .slice ∨ exp.kind = .array)
    (ht : act.typ = exp.typ) (hnt : exp.typ ≠ timeType)
    (hf : ∀ c ∈ exp.fieldValues ++ act.fieldValues, c.oneLevel)
    (he : ∀ c ∈ exp.entries ++ act.entries, c.2.oneLevel)
    (hs : ∀ c ∈ exp.elems ++ act.elems, c.oneLevel) :
    compare exp.indirectChildren act.indirectChildren path ig = compare exp act path ig := by
  have ht' : act.indirectChildren.typ = exp.indirectChildren.typ := by
    rw [indirectChildren_typ, indirectChildren_typ, ht]
  rcases hk with hk | hk | hk
  · rw [compare_struct_eq exp act path ig hk ht,
      compare_struct_eq _ _ path ig (by rw [indirectChildren_kind, hk]) ht',
      compareStructs, compareStructs, indirectChildren_typ]
    simp only [if_neg hnt]
    apply structLoop_indirectChildren
    intro e hee a haa p
    exact (compare_indirect e a p ig (hf e (List.mem_append_left _ hee))
      (hf a (List.mem_append_right _ haa))).symm
  · rw [compare_map_eq exp act path ig hk ht,
      compare_map_eq _ _ path ig (by rw [indirectChildren_kind, hk]) ht',
      compareMaps, compareMaps, indirectChildren_len, indirectChildren_len,
      indirectChildren_mapKeys]
    split_ifs
    · rfl
    · apply mapLoop_indirectChildren
      intro e hee a haa p
      exact (compare_indirect e.2 a.2 p ig (he e (List.mem_append_left _ hee))
        (he a (List.mem_append_right _ haa))).symm
  · rw [compare_seq_eq exp act path ig hk ht,
      compare_seq_eq _ _ path ig (by rw [indirectChildren_kind]; exact hk) ht',
      compareSlices, compareSlices, indirectChildren_len, indirectChildren_len,
      indirectChildren_elems, indirectChildren_elems]
    split_ifs
    · rfl
    · apply sliceLoop_indirect
      intro e hee a haa p
      exact (compare_indirect e a p ig (hs e (List.mem_append_left _ hee))
        (hs a (List.mem_append_right _ haa))).symm

/-! ## Lemmas on integer conversion -/

theorem isInt_false_of_isUint {k : Kind} (h : k.isUint = true) : k.isInt = false := by
  cases k <;> simp_all [Kind.isInt, Kind.isUint]

theorem int_kind_ne {k : Kind} (h : k.isInt = true ∨ k.isUint = true) :
    k ≠ .ptr ∧ k ≠ .interface ∧ k ≠ .struct ∧ k ≠ .map ∧ k ≠ .slice ∧ k ≠ .array
      ∧ k ≠ .func ∧ k ≠ .invalid := by
  cases k <;> simp_all [Kind.isInt, Kind.isUint]

/-- Between two integer types `convertOp` selects `cvtInt` or `cvtUint`. -/
theorem convertOp_int (dst src : GoType) (hd : dst.kind.isInt = true ∨ dst.kind.isUint = true)
    (hs : src.kind.isInt = true ∨ src.kind.isUint = true) :
    convertOp dst src = some .cvtInt ∨ convertOp dst src = some .cvtUint := by
  have hdk : (dst.kind.isInt || dst.kind.isUint) = true := by
    rcases hd with h | h <;> simp [h]
  unfold convertOp
  rcases hs with h | h
  · left
    simp [h, hdk]
  · right
    simp [h, isInt_false_of_isUint h, hdk]

/-- An integer converts to every other integer type, by reduction modulo
`2 ^ w` into the range of the target kind. -/
theorem convert_int (t u : GoType) (m : Int) (ht : t.kind.isInt = true ∨ t.kind.isUint = true)
    (hu : u.kind.isInt = true ∨ u.kind.isUint = true) :
    (Value.scalar u (.int m)).canConvert t = true
    ∧ (Value.scalar u (.int m)).convert t = .scalar t (.int (wrapInt t.kind m)) := by
  have hks : (Value.scalar u (.int m)).kind ≠ .slice := (int_kind_ne hu).2.2.2.2.1
  unfold Value.canConvert Value.convert
  simp only [Value.typ]
  rcases convertOp_int t u ht hu with h | h <;> simp [h, hks, applyCvt, Value.toInt]

/-! ## Lemmas on the exclusion list -/

theorem structLoop_congr_ig {f g : Cmp} (exp act : Value) (path : String)
    (ig ig' : List String) (hI : ∀ x, isIgnoreField x ig = isIgnoreField x ig')
    (h : ∀ e a p, f e a p ig = g e a p ig') (fields : List (StructField GoType)) (i : Nat) :
    structLoop f exp act path ig i fields = structLoop g exp act path ig' i fields := by
  induction fields generalizing i with
  | nil => simp [structLoop]
  | cons field rest ih =>
    rw [structLoop, structLoop, ih (i + 1), hI]
    split_ifs
    · rfl
    · cases exp.fieldValues[i]? with
      | none => rfl
      | some e =>
        cases act.fieldValues[i]? with
        | none => rfl
        | some a =>
          simp only
          rw [h e a]

theorem mapLoop_congr_ig {f g : Cmp} (exp act : Value) (path : String)
    (ig ig' : List String) (h : ∀ e a p, f e a p ig = g e a p ig') (keys : List Value) :
    mapLoop f exp act path ig keys = mapLoop g exp act path ig' keys := by
  induction keys with
  | nil => simp [mapLoop]
  | cons key rest ih =>
    rw [mapLoop, mapLoop, ih]
    cases act.mapIndex key with
    | none => rfl
    | some a =>
      cases exp.mapIndex key with
      | none => rfl
      | some e =>
        simp only
        rw [h e a]

theorem sliceLoop_congr_ig {f g : Cmp} (path : String) (ig ig' : List String)
    (h : ∀ e a p, f e a p ig = g e a p ig') (es as : List Value) :
    sliceLoop f path ig es as = sliceLoop g path ig' es as := by
  induction es generalizing as with
  | nil => simp [sliceLoop]
  | cons e rest ih =>
    cases as with
    | nil => simp [sliceLoop]
    | cons a as => rw [sliceLoop, sliceLoop, h e a, ih as]

theorem compareWith_congr_ig {f g : Cmp} (expected actual : Value) (path : String)
    (ig ig' : List String) (hI : ∀ x, isIgnoreField x ig = isIgnoreField x ig')
    (h : ∀ e a p, f e a p ig = g e a p ig') :
    compareWith f expected actual path ig = compareWith g expected actual path ig' := by
  have hv : ∀ exp act : Value,
      compareValue f exp act path ig = compareValue g exp act path ig' := by
    intro exp act
    have h1 : compareStructs f exp act path ig = compareStructs g exp act path ig' := by
      simp only [compareStructs, structLoop_congr_ig exp act path ig ig' hI h]
    have h2 : compareMaps f exp act path ig = compareMaps g exp act path ig' := by
      simp only [compareMaps, mapLoop_congr_ig exp act path ig ig' h]
    have h3 : compareSlices f exp act path ig = compareSlices g exp act path ig' := by
      simp only [compareSlices, sliceLoop_congr_ig path ig ig' h]
    unfold compareValue
    rw [h1, h2, h3]
  unfold compareWith
  simp only [hv]

/-- Two exclusion lists that `isIgnoreField` cannot tell apart give the same
result. -/
theorem compare_congr_ig (ig ig' : List String)
    (hI : ∀ x, isIgnoreField x ig = isIgnoreField x ig') (e a : Value) (p : String) :
    compare e a p ig = compare e a p ig' := by
  have hfuel : ∀ (n : Nat) (e a : Value) (p : String),
      compareFuel n e a p ig = compareFuel n e a p ig' := by
    intro n
    induction n with
    | zero => intro e a p; rfl
    | succ n ih =>
      intro e a p
      show compareWith (compareFuel n) e a p ig = compareWith (compareFuel n) e a p ig'
      exact compareWith_congr_ig e a p ig ig' hI ih
  exact hfuel _ e a p

/-- A true comparison of `exp` with `act` stays true under a longer exclusion
list, once this holds for the children of `exp`. -/
theorem compareValue_mono (ig ig' : List String) (hsub : ∀ x ∈ ig, x ∈ ig')
    (exp act : Value) (path : String)
    (ih : ∀ c : Value, c.depth < exp.depth → ∀ (a : Value) (p : String),
      compare c a p ig = some true → compare c a p ig' = some true)
    (h : compareValue compare exp act path ig = some true) :
    compareValue compare exp act path ig' = some true := by
  have h1 : compareStructs compare exp act path ig = some true →
      compareStructs compare exp act path ig' = some true := by
    unfold compareStructs
    simp only
    split_ifs
    · exact id
    · exact id
    · rw [structLoop_eq_true_iff, structLoop_eq_true_iff]
      intro h j field hj hexp hign
      have hign0 : isIgnoreField (fieldPath path field.name) ig = false := by
        rw [isIgnoreField_eq_false_iff] at hign ⊢
        exact fun hm => hign (hsub _ hm)
      obtain ⟨e, a, he, ha, hc⟩ := h j field hj hexp hign0
      exact ⟨e, a, he, ha, ih e (depth_fieldValues (List.getElem?_mem he)) a _ hc⟩
  have h2 : compareMaps compare exp act path ig = some true →
      compareMaps compare exp act path ig' = some true := by
    unfold compareMaps
    split_ifs
    · exact id
    · rw [mapLoop_eq_true_iff, mapLoop_eq_true_iff]
      intro h key hkey
      obtain ⟨ev, av, he, ha, hc⟩ := h key hkey
      exact ⟨ev, av, he, ha, ih ev (depth_mapIndex he) av _ hc⟩
  have h3 : compareSlices compare exp act path ig = some true →
      compareSlices compare exp act path ig' = some true := by
    unfold compareSlices
    split_ifs
    · exact id
    · rw [sliceLoop_eq_true_iff, sliceLoop_eq_true_iff]
      intro h i e hi
      obtain ⟨a, ha, hc⟩ := h i e hi
      exact ⟨a, ha, ih e (depth_elems (List.getElem?_mem hi)) a _ hc⟩
  revert h
  unfold compareValue
  split
  · exact h1
  · exact h2
  · exact h3
  · exact h3
  · exact id

theorem compare_mono_aux (ig ig' : List String) (hsub : ∀ x ∈ ig, x ∈ ig') :
    ∀ (n : Nat) (e a : Value) (p : String), e.depth < n →
      compare e a p ig = some true → compare e a p ig' = some true := by
  intro n
  induction n with
  | zero => intro e a p h; exact absurd h (Nat.not_lt_zero _)
  | succ n ih =>
    intro e a p hd h
    rw [compare_eq] at h ⊢
    unfold compareWith at h ⊢
    have hle := depth_getValues_le e a
    rcases hg : getValues e a with ⟨exp, act, same⟩
    rw [hg] at h hle
    simp only at h hle ⊢
    split_ifs at h ⊢ <;>
      first
      | exact h
      | exact compareValue_mono ig ig' hsub exp act p
          (fun c hc a' p' => ih c a' p' (by omega)) h

/-! ## Lemmas on symmetry -/

theorem goEq_comm (x y : Value) : x.goEq y = y.goEq x := by
  cases h1 : x.goEq y <;> cases h2 : y.goEq x
  · rfl
  · rw [Value.goEq_symm y x h2] at h1
    cases h1
  · rw [Value.goEq_symm x y h1] at h2
    cases h2
  · rfl

theorem eqPanicsList_comm_cons (x y : Value) (xs ys : List Value)
    (ihx : x.eqPanics y = y.eqPanics x) (ih : eqPanicsList xs ys = eqPanicsList ys xs) :
    eqPanicsList (x :: xs) (y :: ys) = eqPanicsList (y :: ys) (x :: xs) := by
  simp only [eqPanicsList]
  rw [ihx, ih, goEq_comm x y, Bool.and_comm x.isValid y.isValid]
  by_cases ht : x.typ = y.typ
  · rw [ht]
  · have h1 : (x.typ == y.typ) = false := by simpa using ht
    have h2 : (y.typ == x.typ) = false := by simpa using fun h : y.typ = x.typ => ht h.symm
    simp [h1, h2]

mutual
theorem Value.eqPanics_comm : ∀ (x y : Value), x.eqPanics y = y.eqPanics x
  | .invalid, y => by cases y <;> rfl
  | .scalar _ _, y => by cases y <;> rfl
  | .ptr _ _ _, y => by cases y <;> rfl
  | .map _ _, y => by cases y <;> rfl
  | .iface _ _, y => by cases y <;> rfl
  | .struct _ fs, y => by
    cases y with
    | struct _ gs =>
      simp only [Value.eqPanics]
      exact eqPanicsList_comm fs gs
    | _ => rfl
  | .seq _ _ xs, y => by
    cases y with
    | seq _ _ ys =>
      simp only [Value.eqPanics]
      exact eqPanicsList_comm xs ys
    | _ => rfl
theorem eqPanicsList_comm : ∀ (xs ys : List Value), eqPanicsList xs ys = eqPanicsList ys xs
  | [], ys => by cases ys <;> rfl
  | _ :: _, [] => rfl
  | x :: xs, y :: ys =>
    eqPanicsList_comm_cons x y xs ys (Value.eqPanics_comm x y) (eqPanicsList_comm xs ys)
end

theorem ifaceEq_comm (x y : Value) : ifaceEq x y = ifaceEq y x := by
  unfold ifaceEq
  by_cases hv : (x.isValid && y.isValid) = true
  · have hv' : (y.isValid && x.isValid) = true := by rw [Bool.and_comm]; exact hv
    rw [if_pos hv, if_pos hv']
    by_cases ht : x.typ = y.typ
    · rw [if_neg (not_not.mpr ht), if_neg (not_not.mpr ht.symm), ht, goEq_comm,
        Value.eqPanics_comm]
    · rw [if_pos ht, if_pos (fun h => ht h.symm)]
  · have hv' : ¬ (y.isValid && x.isValid) = true := by rw [Bool.and_comm]; exact hv
    rw [if_neg hv, if_neg hv', Bool.and_comm]

theorem beq_swap {α : Type} [BEq α] [LawfulBEq α] (a b : α) : (a == b) = (b == a) := by
  apply Bool.eq_iff_iff.mpr
  rw [beq_iff_eq, beq_iff_eq]
  exact eq_comm

theorem timeEqual_comm (t u : Value) : timeEqual t u = timeEqual u t := by
  unfold timeEqual
  rw [Bool.and_comm (timeHasMonotonic t), beq_swap (timeExt t), beq_swap (timeSec t),
    beq_swap (timeNsec t)]

theorem structLoop_comm (cmp : Cmp) (exp act : Value) (path : String) (ig : List String)
    (h : ∀ e ∈ exp.fieldValues, ∀ a ∈ act.fieldValues, ∀ p : String,
      cmp e a p ig = cmp a e p ig)
    (fields : List (StructField GoType)) (i : Nat) :
    structLoop cmp exp act path ig i fields = structLoop cmp act exp path ig i fields := by
  induction fields generalizing i with
  | nil => simp [structLoop]
  | cons field rest ih =>
    rw [structLoop, structLoop, ih (i + 1)]
    split_ifs
    · rfl
    · cases he : exp.fieldValues[i]? with
      | none => cases act.fieldValues[i]? <;> rfl
      | some e =>
        cases ha : act.fieldValues[i]? with
        | none => rfl
        | some a =>
          simp only
          rw [h e (List.getElem?_mem he) a (List.getElem?_mem ha)]

theorem sliceLoop_comm (cmp : Cmp) (path : String) (ig : List String) (es as : List Value)
    (hlen : es.length = as.length)
    (h : ∀ e ∈ es, ∀ a ∈ as, ∀ p : String, cmp e a p ig = cmp a e p ig) :
    sliceLoop cmp path ig es as = sliceLoop cmp path ig as es := by
  induction es generalizing as with
  | nil =>
    cases as with
    | nil => rfl
    | cons a as => cases hlen
  | cons e rest ih =>
    cases as with
    | nil => cases hlen
    | cons a as =>
      rw [sliceLoop, sliceLoop, h e (List.mem_cons_self _ _) a (List.mem_cons_self _ _),
        ih as (by simpa using hlen) (fun e' he' a' ha' =>
          h e' (List.mem_cons_of_mem _ he') a' (List.mem_cons_of_mem _ ha'))]

/-- Two keys that are equal under `==` find the same entry. -/
theorem mapIndex_congr_key (m k k' : Value) (h : k.goEq k' = true) :
    m.mapIndex k = m.mapIndex k' := by
  have hp : (fun e : Value × Value => e.1.goEq k) = fun e => e.1.goEq k' := by
    funext e
    apply Bool.eq_iff_iff.mpr
    constructor
    · intro h1
      exact Value.goEq_trans _ _ _ h1 h
    · intro h1
      exact Value.goEq_trans _ _ _ h1 (Value.goEq_symm _ _ h)
  unfold Value.mapIndex
  rw [hp]

/-- One direction of the symmetry of map comparison: with pairwise different
expected keys and value comparisons that stay true when swapped, a true
comparison stays true when the two maps are swapped. -/
theorem compareMaps_swap (t : GoType) (es fs : List (Value × Value)) (path : String)
    (ig : List String) (hk : t.kind = .map)
    (hd : (Value.map t es).mapKeys.Pairwise (fun a b => a.goEq b = false))
    (hc : ∀ e ∈ es, ∀ a ∈ fs, compare e.2 a.2 path ig = some true →
      compare a.2 e.2 path ig = some true)
    (h : compare (.map t es) (.map t fs) path ig = some true) :
    compare (.map t fs) (.map t es) path ig = some true := by
  rw [compare_map_eq (.map t es) (.map t fs) path ig hk rfl, compareMaps] at h
  rw [compare_map_eq (.map t fs) (.map t es) path ig hk rfl, compareMaps]
  simp only [Value.len] at h ⊢
  split_ifs at h with hlen
  · cases h
  · rw [if_neg (fun hne => hne (not_not.mp hlen).symm)]
    rw [mapLoop_eq_true_iff] at h ⊢
    have hfound : ∀ e ∈ (Value.map t es).mapKeys,
        ∃ a ∈ (Value.map t fs).mapKeys, a.goEq e = true := by
      intro e he
      obtain ⟨_, av, _, ha, _⟩ := h e he
      exact mapIndex_key ha
    have hcov := keys_covered _ _ hd hfound
      (by simpa [Value.mapKeys, Value.entries] using not_not.mp hlen)
    intro k' hk'
    obtain ⟨k, hkm, hkk⟩ := hcov k' hk'
    obtain ⟨ev, av, he, ha, hcmp⟩ := h k hkm
    obtain ⟨e0, he0, rfl⟩ := mapIndex_mem he
    obtain ⟨a0, ha0, rfl⟩ := mapIndex_mem ha
    refine ⟨a0.2, e0.2, ?_, ?_, hc e0 he0 a0 ha0 hcmp⟩
    · rw [mapIndex_congr_key _ k' k hkk]
      exact ha
    · rw [mapIndex_congr_key _ k' k hkk]
      exact he

/-! ## Lemmas on values of interface kind and on conversion -/

theorem underlying_kind : ∀ t : GoType, t.underlying.kind = t.kind
  | .named _ u => by
    rw [GoType.underlying, GoType.kind]
    exact underlying_kind u
  | .basic _ => rfl
  | .array _ _ => rfl
  | .func _ => rfl
  | .iface => rfl
  | .map _ _ => rfl
  | .ptr _ => rfl
  | .slice _ => rfl
  | .struct _ => rfl

theorem typ_kind_of_isValid {v : Value} (h : v.isValid = true) : v.typ.kind = v.kind := by
  cases v with
  | invalid => cases h
  | _ => rfl

/-- Every type that is not an interface type converts to an interface type, by
`cvtT2I`. -/
theorem convertOp_to_iface (dst src : GoType) (hd : dst.kind = .interface)
    (hs : src.kind ≠ .interface) : convertOp dst src = some .cvtT2I := by
  have hu : dst.underlying ≠ src.underlying := by
    intro h
    apply hs
    rw [← underlying_kind src, ← h, underlying_kind, hd]
  have hcd : convertDirect dst src = some .cvtT2I := by
    unfold convertDirect
    simp [hu, hd, hs]
  have e1 : Kind.interface.isInt = false := rfl
  have e2 : Kind.interface.isUint = false := rfl
  have e3 : Kind.interface.isFloat = false := rfl
  have e4 : Kind.interface.isComplex = false := rfl
  unfold convertOp
  simp only [hd, hcd, e1, e2, e3, e4, Bool.or_self, Bool.false_eq_true, if_false,
    reduceCtorEq, false_and, ite_self]

/-- An interface type converts to no type that is not an interface type. -/
theorem convertOp_from_iface (dst src : GoType) (hs : src.kind = .interface)
    (hd : dst.kind ≠ .interface) : convertOp dst src = none := by
  have hu : dst.underlying ≠ src.underlying := by
    intro h
    apply hd
    rw [← underlying_kind dst, h, underlying_kind, hs]
  have hcd : convertDirect dst src = none := by
    unfold convertDirect
    simp [hu, hd, hs]
  unfold convertOp
  simp [hs, hcd, Kind.isInt, Kind.isUint, Kind.isFloat, Kind.isComplex]

theorem elem_ptr_iface (t : GoType) (x : Nat) (a : Value) (hte : t.elem.kind = .interface)
    (hx : x ≠ 0) : (Value.ptr t x a).elem = .iface t.elem a := by
  simp [Value.elem, hte, hx]

/-- A pointer to an interface-typed variable against a present value that is
neither a pointer nor of interface kind: the dynamic value of the variable is
compared with the other side by `==`. -/
theorem compare_ptr_iface (t : GoType) (x : Nat) (a b : Value) (path : String)
    (ig : List String) (ht : t.kind = .ptr) (hte : t.elem.kind = .interface) (hx : x ≠ 0)
    (hbv : b.isValid = true) (hbp : b.kind ≠ .ptr) (hbi : b.kind ≠ .interface) :
    compare (.ptr t x a) b path ig = ifaceEq a b := by
  have hk : (Value.ptr t x a).kind = .ptr := ht
  have hki : (Value.iface t.elem a).kind = .interface := hte
  have hkb : b.typ.kind ≠ .interface := by rw [typ_kind_of_isValid hbv]; exact hbi
  have hconv := convertOp_to_iface t.elem b.typ hte hkb
  have hcan : b.canConvert t.elem = true := by
    unfold Value.canConvert
    simp [hconv, hte]
  have hcv : b.convert t.elem = .iface t.elem b := by
    unfold Value.convert
    simp [hconv, applyCvt, interface_of_kind_ne hbi]
  have h1 : (Value.ptr t x a).indirect = .iface t.elem a := by
    rw [Value.indirect, if_pos hk, elem_ptr_iface t x a hte hx]
  have hne : (Value.iface t.elem a).kind ≠ b.kind := by
    rw [hki]
    exact fun h => hbi h.symm
  have hg : getValues (.ptr t x a) b = (.iface t.elem a, .iface t.elem b, true) := by
    rw [getValues_eq_indirect _ _ (by rw [hk]; decide) hbi, h1, indirect_of_not_ptr hbp]
    have hvi : (Value.iface t.elem a).isValid = true := rfl
    simp [hvi, hbv, hne, Value.typ, hcan, hcv]
  have hd := compareValue_default compare (.iface t.elem a) (.iface t.elem b) path ig
    (by rw [hki]; decide) (by rw [hki]; decide) (by rw [hki]; decide) (by rw [hki]; decide)
  rw [compare_eq, compareWith, hg]
  simp only [Value.isValid, Bool.not_true, Bool.and_false, Bool.false_eq_true, if_false,
    Bool.and_self, Bool.not_false]
  rw [hd]
  have hkib : (Value.iface t.elem b).kind = .interface := hte
  have hia : (Value.iface t.elem a).interface = a := by
    rw [Value.interface, if_pos hki]
    rfl
  have hib : (Value.iface t.elem b).interface = b := by
    rw [Value.interface, if_pos hkib]
    rfl
  rw [hia, hib]
  simp

/-- With two present non-pointer values of different types, `getValues`
reports what `CanConvert` says and hands on the converted actual value. -/
theorem getValues_of_typ_ne (exp act : Value) (hv : exp.isValid = true)
    (hva : act.isValid = true) (hp : exp.kind ≠ .ptr) (hi : exp.kind ≠ .interface)
    (hpa : act.kind ≠ .ptr) (hia : act.kind ≠ .interface) (hne : exp.typ ≠ act.typ) :
    getValues exp act =
      if act.canConvert exp.typ then (exp, act.convert exp.typ, true) else (exp, act, false) := by
  rw [getValues_no_indirect exp act hv hva hp hi hpa hia, if_pos (Or.inr hne)]

theorem compare_of_convertible (exp act : Value) (path : String) (ig : List String)
    (hv : exp.isValid = true) (hva : act.isValid = true) (hp : exp.kind ≠ .ptr)
    (hi : exp.kind ≠ .interface) (hpa : act.kind ≠ .ptr) (hia : act.kind ≠ .interface)
    (hne : exp.typ ≠ act.typ) (hc : act.canConvert exp.typ = true) :
    compare exp act path ig = compareValue compare exp (act.convert exp.typ) path ig := by
  rw [compare_eq, compareWith, getValues_of_typ_ne exp act hv hva hp hi hpa hia hne, if_pos hc]
  simp [hv, convert_isValid act exp.typ hva]

/-- An expected integer against an actual value that converts to the integer
`k` of the expected type: true exactly when the expected integer is `k`. -/
theorem compare_int_of_convert (t : GoType) (n k : Int) (act : Value) (path : String)
    (ig : List String) (ht : t.kind.isInt = true ∨ t.kind.isUint = true)
    (hva : act.isValid = true) (hpa : act.kind ≠ .ptr) (hia : act.kind ≠ .interface)
    (hne : t ≠ act.typ) (hc : act.canConvert t = true)
    (hcv : act.convert t = .scalar t (.int k)) :
    compare (.scalar t (.int n)) act path ig = some (decide (n = k)) := by
  have hkt := int_kind_ne ht
  have hket : (Value.scalar t (.int n)).kind = t.kind := rfl
  rw [compare_of_convertible (.scalar t (.int n)) act path ig rfl hva hkt.1 hkt.2.1 hpa hia
    hne hc]
  simp only [Value.typ]
  rw [hcv]
  have hcomp := comparable_of_kind t hkt.2.2.2.2.2.1 hkt.2.2.2.2.2.2.1 hkt.2.2.2.1
    hkt.2.2.2.2.1 hkt.2.2.1
  rw [compareValue_leaf compare (.scalar t (.int n)) (.scalar t (.int k)) path ig
    (by rw [hket]; exact hkt.2.2.1) (by rw [hket]; exact hkt.2.2.2.1)
    (by rw [hket]; exact hkt.2.2.2.2.1) (by rw [hket]; exact hkt.2.2.2.2.2.1)
    (by rw [hket]; exact hkt.2.1) (show t.kind ≠ .interface from hkt.2.1)]
  by_cases hnk : n = k <;>
    simp [ifaceEq, Value.isValid, Value.typ, hcomp, Value.goEq, Scalar.goEq, Value.eqPanics, hnk]

theorem float_kind_ne {k : Kind} (h : k.isFloat = true) :
    k ≠ .ptr ∧ k ≠ .interface ∧ k ≠ .slice ∧ k.isInt = false ∧ k.isUint = false := by
  cases k <;> simp_all [Kind.isInt, Kind.isUint, Kind.isFloat]

/-- A floating-point number converts to every integer type: it is truncated
toward zero to a 64-bit integer, which is then reduced modulo `2 ^ w` into the
range of the target kind. -/
theorem convert_float_int (t u : GoType) (b : Nat) (hu : u.kind.isFloat = true) :
    (t.kind.isInt = true → (Value.scalar u (.float b)).canConvert t = true
      ∧ (Value.scalar u (.float b)).convert t
        = .scalar t (.int (wrapInt t.kind (f64ToInt64 b))))
    ∧ (t.kind.isUint = true → (Value.scalar u (.float b)).canConvert t = true
      ∧ (Value.scalar u (.float b)).convert t
        = .scalar t (.int (wrapInt t.kind (f64ToUint64 b)))) := by
  obtain ⟨_, _, hs, h1, h2⟩ := float_kind_ne hu
  have hks : (Value.scalar u (.float b)).kind ≠ .slice := hs
  constructor
  · intro ht
    have hop : convertOp t u = some .cvtFloatInt := by
      unfold convertOp
      simp [h1, h2, hu, ht]
    unfold Value.canConvert Value.convert
    simp [Value.typ, hop, hks, applyCvt, Value.toFloat]
  · intro ht
    have hti := isInt_false_of_isUint ht
    have hop : convertOp t u = some .cvtFloatUint := by
      unfold convertOp
      simp [h1, h2, hu, ht, hti]
    unfold Value.canConvert Value.convert
    simp [Value.typ, hop, hks, applyCvt, Value.toFloat]

/-! ## The claims -/

/-- Claim C1: For two struct values of the same type other than `time.Time`,
every path and every exclusion list, `compareStructs` returns true if and only
if every field that is exported and whose dotted path is not in the exclusion
list compares equal under `compare`, called with that field's path and the full
exclusion list; `compare` on the two structs is that call of `compareStructs`.
For `T{A int; B int}`: `compare(T{1,2}, T{1,9}, "", "B")` is true and
`compare(T{1,2}, T{1,9}, "")` is false. -/
theorem compareStructs_true_iff (exp act : Value) (path : String) (ig : List String)
    (hk : exp.kind = .struct) (ht : act.typ = exp.typ) (hnt : exp.typ ≠ timeType) :
    (compareStructs compare exp act path ig = some true ↔
      ∀ (j : Nat) (field : StructField GoType), exp.typ.fields[j]? = some field →
        field.isExported = true → fieldPath path field.name ∉ ig →
        ∃ e a, exp.fieldValues[j]? = some e ∧ act.fieldValues[j]? = some a ∧
          compare e a (fieldPath path field.name) ig = some true)
    ∧ compare exp act path ig = compareStructs compare exp act path ig
    ∧ compare (mkAB 1 2) (mkAB 1 9) "" ["B"] = some true
    ∧ compare (mkAB 1 2) (mkAB 1 9) "" [] = some false := by
  refine ⟨?_, ?_, by decide, by decide⟩
  · unfold compareStructs
    simp only [if_neg hnt]
    rw [structLoop_eq_true_iff]
    simp only [Nat.zero_add, isIgnoreField_eq_false_iff]
  · have hne : exp.kind ≠ .invalid := by rw [hk]; decide
    rw [compare_of_same_typ exp act path ig (by rw [hk]; decide) (by rw [hk]; decide)
      (isValid_of_kind_ne hne) ht (isValid_of_typ_eq hne ht)]
    simp [compareValue, hk]

/-- Witness for C1: the two values `T{1,2}` and `T{1,9}`. -/
theorem compareStructs_true_iff_witness :
    (compareStructs compare (mkAB 1 2) (mkAB 1 9) "" ["B"] = some true ↔
      ∀ (j : Nat) (field : StructField GoType), (mkAB 1 2).typ.fields[j]? = some field →
        field.isExported = true → fieldPath "" field.name ∉ ["B"] →
        ∃ e a, (mkAB 1 2).fieldValues[j]? = some e ∧ (mkAB 1 9).fieldValues[j]? = some a ∧
          compare e a (fieldPath "" field.name) ["B"] = some true)
    ∧ compare (mkAB 1 2) (mkAB 1 9) "" ["B"]
      = compareStructs compare (mkAB 1 2) (mkAB 1 9) "" ["B"]
    ∧ compare (mkAB 1 2) (mkAB 1 9) "" ["B"] = some true
    ∧ compare (mkAB 1 2) (mkAB 1 9) "" [] = some false :=
  compareStructs_true_iff (mkAB 1 2) (mkAB 1 9) "" ["B"] (by decide) (by decide) (by decide)

/-- Counterexample to C2 as stated: two maps with the same key whose struct
values are identical in every field but `B` do not compare equal with `"B"`
excluded when the other field holds a NaN (`map[string]T2{"x": {NaN, 2}}`
against `map[string]T2{"x": {NaN, 9}}` is false, and so are the slices of these
values), and the comparison panics when the other field holds a function.
Two maps of `time.Time` values that differ only in the field `ext` compare
unequal with `"ext"` excluded: a timestamp is never compared field by
field. -/
theorem compare_root_exclusion_fails :
    differOnlyIn ["B"] (mkFB nanBits 2) (mkFB nanBits 9)
    ∧ compare (.map tMapStrFB [(mkStr [120], mkFB nanBits 2)])
        (.map tMapStrFB [(mkStr [120], mkFB nanBits 9)]) "" ["B"] = some false
    ∧ compare (.seq (.slice tFB) 1 [mkFB nanBits 2]) (.seq (.slice tFB) 2 [mkFB nanBits 9])
        "" ["B"] = some false
    ∧ differOnlyIn ["B"] (mkHB 2) (mkHB 9)
    ∧ compare (.map tMapStrHB [(mkStr [120], mkHB 2)])
        (.map tMapStrHB [(mkStr [120], mkHB 9)]) "" ["B"] = none
    ∧ (∀ j : Nat, j ≠ 1 → (mkTime 0 100).fieldValues[j]? = (mkTime 0 200).fieldValues[j]?)
    ∧ compare (.map tMapStrTime [(mkStr [120], mkTime 0 100)])
        (.map tMapStrTime [(mkStr [120], mkTime 0 200)]) "" ["ext"] = some false := by
  refine ⟨⟨by decide, rfl, by decide, ?_⟩, by decide, by decide,
    ⟨by decide, rfl, by decide, ?_⟩, by decide, ?_, by decide⟩
  · intro j field hj hni
    match j, hj with
    | 0, _ => rfl
    | 1, hj =>
      have hf : field = ⟨"B", "", intT⟩ := by
        have h2 : (mkFB nanBits 2).typ.fields[1]? = some ⟨"B", "", intT⟩ := rfl
        rw [h2] at hj
        exact (Option.some.inj hj).symm
      rw [hf] at hni
      exact absurd (List.mem_singleton.mpr rfl) hni
    | j + 2, _ => rfl
  · intro j field hj hni
    match j, hj with
    | 0, _ => rfl
    | 1, hj =>
      have hf : field = ⟨"B", "", intT⟩ := by
        have h2 : (mkHB 2).typ.fields[1]? = some ⟨"B", "", intT⟩ := rfl
        rw [h2] at hj
        exact (Option.some.inj hj).symm
      rw [hf] at hni
      exact absurd (List.mem_singleton.mpr rfl) hni
    | j + 2, _ => rfl
  · intro j hj
    match j, hj with
    | 0, _ => rfl
    | 1, hj => exact absurd rfl hj
    | 2, _ => rfl
    | j + 3, _ => rfl

/-- Claim C2, amended: Maps and sequences do not extend the field path.  For two
maps of one type with equally many entries, compared at the root, in which
every expected key is present on both sides with struct values of a type other
than `time.Time` that differ at most in fields named by an entry of the
exclusion list (`agreeOutside`: every other exported field compares equal),
`compare` returns true; likewise for two slices or arrays, position by
position.  This covers struct values that hold identical values in all other
fields (`differOnlyIn`) when these hold no NaN, no function value and no
pointer to an interface-typed variable (`Value.regular`).  The exclusion never
applies to keys: a key of the expected map that the actual map lacks makes the
result differ from true whatever the exclusion list.  So
`map[string]T{"x": {1,2}}` against `map[string]T{"x": {1,9}}` and `[]T{{1,2}}`
against `[]T{{1,9}}` compare equal when `"B"` is excluded, while
`map[T]int{{1,2}: 0}` against `map[T]int{{1,9}: 0}` does not. -/
theorem compare_container_root_exclusion (exp act : Value) (ig : List String) :
    (exp.kind = .map → act.typ = exp.typ → exp.len = act.len →
      (∀ key ∈ exp.mapKeys, ∃ ev av, exp.mapIndex key = some ev ∧
        act.mapIndex key = some av ∧ agreeOutside ig ev av) →
      compare exp act "" ig = some true)
    ∧ (exp.kind = .slice ∨ exp.kind = .array → act.typ = exp.typ → exp.len = act.len →
      (∀ (i : Nat) (e : Value), exp.elems[i]? = some e →
        ∃ a, act.elems[i]? = some a ∧ agreeOutside ig e a) →
      compare exp act "" ig = some true)
    ∧ (exp.kind = .map → act.typ = exp.typ → exp.len = act.len →
      (∀ key ∈ exp.mapKeys, ∃ ev av, exp.mapIndex key = some ev ∧
        act.mapIndex key = some av ∧ ev.regular = true ∧ differOnlyIn ig ev av) →
      compare exp act "" ig = some true)
    ∧ (exp.kind = .slice ∨ exp.kind = .array → act.typ = exp.typ → exp.len = act.len →
      (∀ (i : Nat) (e : Value), exp.elems[i]? = some e →
        ∃ a, act.elems[i]? = some a ∧ e.regular = true ∧ differOnlyIn ig e a) →
      compare exp act "" ig = some true)
    ∧ (exp.kind = .map → act.typ = exp.typ →
      (∃ key ∈ exp.mapKeys, act.mapIndex key = none) →
      compare exp act "" ig ≠ some true)
    ∧ compare (.map tMapStrAB [(mkStr [120], mkAB 1 2)])
        (.map tMapStrAB [(mkStr [120], mkAB 1 9)]) "" ["B"] = some true
    ∧ compare (.seq tSliceAB 1 [mkAB 1 2]) (.seq tSliceAB 2 [mkAB 1 9]) "" ["B"] = some true
    ∧ compare (.map tMapABInt [(mkAB 1 2, mkInt 0)])
        (.map tMapABInt [(mkAB 1 9, mkInt 0)]) "" ["B"] = some false := by
  have hmap : exp.kind = .map → act.typ = exp.typ → exp.len = act.len →
      (∀ key ∈ exp.mapKeys, ∃ ev av, exp.mapIndex key = some ev ∧
        act.mapIndex key = some av ∧ agreeOutside ig ev av) →
      compare exp act "" ig = some true := by
    intro hk ht hlen h
    rw [compare_map_eq exp act "" ig hk ht, compareMaps]
    simp only [hlen, ne_eq, not_true_eq_false, if_false]
    rw [mapLoop_eq_true_iff]
    intro key hkey
    obtain ⟨ev, av, he, ha, hag⟩ := h key hkey
    exact ⟨ev, av, he, ha, compare_of_agreeOutside hag⟩
  have hseq : exp.kind = .slice ∨ exp.kind = .array → act.typ = exp.typ →
      exp.len = act.len →
      (∀ (i : Nat) (e : Value), exp.elems[i]? = some e →
        ∃ a, act.elems[i]? = some a ∧ agreeOutside ig e a) →
      compare exp act "" ig = some true := by
    intro hk ht hlen h
    rw [compare_seq_eq exp act "" ig hk ht, compareSlices]
    simp only [hlen, ne_eq, not_true_eq_false, if_false]
    rw [sliceLoop_eq_true_iff]
    intro i e hi
    obtain ⟨a, ha, hag⟩ := h i e hi
    exact ⟨a, ha, compare_of_agreeOutside hag⟩
  refine ⟨hmap, hseq, ?_, ?_, ?_, by decide, by decide, by decide⟩
  · intro hk ht hlen h
    refine hmap hk ht hlen (fun key hkey => ?_)
    obtain ⟨ev, av, he, ha, hr, hd⟩ := h key hkey
    exact ⟨ev, av, he, ha, agreeOutside_of_differOnlyIn hr hd⟩
  · intro hk ht hlen h
    refine hseq hk ht hlen (fun i e hi => ?_)
    obtain ⟨a, ha, hr, hd⟩ := h i e hi
    exact ⟨a, ha, agreeOutside_of_differOnlyIn hr hd⟩
  · intro hk ht ⟨key, hkey, hnone⟩ htrue
    rw [compare_map_eq exp act "" ig hk ht, compareMaps] at htrue
    split_ifs at htrue
    · cases htrue
    · rw [mapLoop_eq_true_iff] at htrue
      obtain ⟨ev, av, _, ha, _⟩ := htrue key hkey
      rw [hnone] at ha
      cases ha

/-- Witness for C2: the maps `map[string]T{"x": {1,2}}` and
`map[string]T{"x": {1,9}}` satisfy the hypotheses of the map statement. -/
theorem compare_container_root_exclusion_witness :
    compare (.map tMapStrAB [(mkStr [120], mkAB 1 2)])
      (.map tMapStrAB [(mkStr [120], mkAB 1 9)]) "" ["B"] = some true :=
  (compare_container_root_exclusion (.map tMapStrAB [(mkStr [120], mkAB 1 2)])
    (.map tMapStrAB [(mkStr [120], mkAB 1 9)]) ["B"]).1 (by decide) (by decide) (by decide)
    (by
      intro key hkey
      simp only [Value.mapKeys, Value.entries, List.map_cons, List.map_nil,
        List.mem_singleton] at hkey
      subst hkey
      exact ⟨mkAB 1 2, mkAB 1 9, rfl, rfl, agreeOutside_mkAB 1 2 9⟩)

/-- Claim C3: The path handed down for a struct field is the field's name at the
root and otherwise the parent's path, a dot and the name; a field is excluded
exactly when that whole path is equal to an entry of the exclusion list, so an
entry that is only a suffix, a prefix or a segment of the path never matches
it.  Two structs of one type other than `time.Time` compare equal exactly when
every exported field whose path is no entry of the list compares equal under
that path.  For `Outer{A Inner}`, `Inner{B int}`: `Outer{{1}}` and `Outer{{2}}`
compare equal under the exclusion `"A.B"` but not under `"B"`, `"A."` or
`".B"`; the entry `"A"` is the whole path of the field `A` and so skips `A`
itself. -/
theorem fieldPath_exact_exclusion (exp act : Value) (path field : String)
    (ig : List String) :
    (∀ name : String, fieldPath path name = if path = "" then name else path ++ "." ++ name)
    ∧ (isIgnoreField field ig = true ↔ field ∈ ig)
    ∧ (exp.kind = .struct → act.typ = exp.typ → exp.typ ≠ timeType →
      (compare exp act path ig = some true ↔
        ∀ (j : Nat) (fld : StructField GoType), exp.typ.fields[j]? = some fld →
          fld.isExported = true →
          (if path = "" then fld.name else path ++ "." ++ fld.name) ∉ ig →
          ∃ e a, exp.fieldValues[j]? = some e ∧ act.fieldValues[j]? = some a ∧
            compare e a (if path = "" then fld.name else path ++ "." ++ fld.name) ig
              = some true))
    ∧ compare (mkOuter 1) (mkOuter 2) "" ["A.B"] = some true
    ∧ compare (mkOuter 1) (mkOuter 2) "" ["B"] = some false
    ∧ compare (mkOuter 1) (mkOuter 2) "" ["A."] = some false
    ∧ compare (mkOuter 1) (mkOuter 2) "" [".B"] = some false
    ∧ compare (mkOuter 1) (mkOuter 2) "" ["A"] = some true
    ∧ isIgnoreField "A.B" ["A", "B", "A.", ".B"] = false := by
  refine ⟨fieldPath_eq path, isIgnoreField_eq_true_iff field ig, ?_, by decide, by decide,
    by decide, by decide, by decide, by decide⟩
  intro hk ht hnt
  rw [compare_struct_eq exp act path ig hk ht, compareStructs]
  simp only [if_neg hnt]
  rw [structLoop_eq_true_iff]
  simp only [Nat.zero_add, isIgnoreField_eq_false_iff, fieldPath_eq]

/-- Witness for C3: the struct statement at `Outer{{1}}`, `Outer{{2}}` with the
exclusion `"A.B"`. -/
theorem fieldPath_exact_exclusion_witness :
    compare (mkOuter 1) (mkOuter 2) "" ["A.B"] = some true ↔
      ∀ (j : Nat) (fld : StructField GoType), (mkOuter 1).typ.fields[j]? = some fld →
        fld.isExported = true →
        (if "" = "" then fld.name else "" ++ "." ++ fld.name) ∉ ["A.B"] →
        ∃ e a, (mkOuter 1).fieldValues[j]? = some e ∧ (mkOuter 2).fieldValues[j]? = some a ∧
          compare e a (if "" = "" then fld.name else "" ++ "." ++ fld.name) ["A.B"]
            = some true :=
  (fieldPath_exact_exclusion (mkOuter 1) (mkOuter 2) "" "A.B" ["A.B"]).2.2.1
    (by decide) (by decide) (by decide)

/-- Counterexample to C4 as stated: two `time.Time` values have one type, no
exported field at all, and differ only in the unexported field `ext`, yet
`compare` returns false. -/
theorem compare_time_unexported_differ :
    (mkTime 0 1).kind = .struct ∧ (mkTime 0 2).typ = (mkTime 0 1).typ
    ∧ (∀ f ∈ (mkTime 0 1).typ.fields, f.isExported = false)
    ∧ compare (mkTime 0 1) (mkTime 0 2) "" [] = some false := by
  refine ⟨by decide, by decide, by decide, by decide⟩

/-- Claim C4, amended: Private-field blindness for struct types other than
`time.Time`: for two struct values of one such type, every path and every
exclusion list, `compare` does not read unexported fields (replacing the
actual value by one with the same exported fields leaves the result
unchanged), and it returns true whenever every exported field whose path is
not excluded compares equal.  For `P{A int; b int}`, `compare(P{1,2}, P{1,9})`
is true. -/
theorem compare_unexported_blind (exp act act' : Value) (path : String) (ig : List String)
    (hk : exp.kind = .struct) (ht : act.typ = exp.typ) (ht' : act'.typ = exp.typ)
    (hnt : exp.typ ≠ timeType) :
    ((∀ (j : Nat) (field : StructField GoType), exp.typ.fields[j]? = some field →
        field.isExported = true → act.fieldValues[j]? = act'.fieldValues[j]?) →
      compare exp act path ig = compare exp act' path ig)
    ∧ ((∀ (j : Nat) (field : StructField GoType), exp.typ.fields[j]? = some field →
        field.isExported = true → fieldPath path field.name ∉ ig →
        ∃ e a, exp.fieldValues[j]? = some e ∧ act.fieldValues[j]? = some a ∧
          compare e a (fieldPath path field.name) ig = some true) →
      compare exp act path ig = some true)
    ∧ compare (mkP 1 2) (mkP 1 9) "" [] = some true := by
  refine ⟨?_, ?_, by decide⟩
  · intro h
    rw [compare_struct_eq exp act path ig hk ht, compare_struct_eq exp act' path ig hk ht',
      compareStructs, compareStructs]
    simp only [if_neg hnt]
    apply structLoop_act_congr
    intro j field hj hexp
    rw [Nat.zero_add]
    exact h j field hj hexp
  · intro h
    rw [compare_struct_eq exp act path ig hk ht, compareStructs]
    simp only [if_neg hnt]
    rw [structLoop_eq_true_iff]
    intro j field hj hexp hign
    rw [Nat.zero_add]
    exact h j field hj hexp ((isIgnoreField_eq_false_iff _ _).mp hign)

/-- Witness for C4: `P{1,2}` against `P{1,9}` and `P{1,7}`, which differ only
in the unexported field `b`. -/
theorem compare_unexported_blind_witness :
    compare (mkP 1 2) (mkP 1 9) "" [] = compare (mkP 1 2) (mkP 1 7) "" [] :=
  (compare_unexported_blind (mkP 1 2) (mkP 1 9) (mkP 1 7) "" [] (by decide) (by decide)
    (by decide) (by decide)).1 (by
      intro j field hj hexp
      have hf : (mkP 1 2).typ.fields = [⟨"A", "", intT⟩, ⟨"b", "main", intT⟩] := rfl
      rw [hf] at hj
      match j, hj with
      | 0, _ => rfl
      | 1, hj =>
        simp only [List.getElem?_cons_succ, List.getElem?_cons_zero, Option.some.injEq] at hj
        subst hj
        simp [StructField.isExported] at hexp
      | j + 2, hj => simp at hj)

/-- Claim C5: Absence handling, for every path and exclusion list: two absent
values compare equal, and an absent value compared with a non-absent one (in
either order) compares unequal; absent is the nil interface or a nil pointer
of any pointer type.  The two values are `interface{}` values, so neither is
of interface kind.  So `compare(nil, nil)` and `compare((*int)(nil),
(*string)(nil))` are true, `compare(nil, 0)`, `compare(0, nil)` and
`compare((*int)(nil), 0)` are false.  A non-nil pointer `&i` to a variable
`var i interface{}` that holds nil is not absent: `compare(&i, nil)` and
`compare(nil, &i)` are false, while the nil pointer `(*interface{})(nil)` is
absent. -/
theorem compare_absent (a b : Value) (path : String) (ig : List String)
    (ha : a.kind ≠ .interface) (hb : b.kind ≠ .interface) :
    (a.isAbsent = true → b.isAbsent = true → compare a b path ig = some true)
    ∧ (a.isAbsent = true → b.isAbsent = false → compare a b path ig = some false)
    ∧ (a.isAbsent = false → b.isAbsent = true → compare a b path ig = some false)
    ∧ compare .invalid .invalid path ig = some true
    ∧ compare nilIntPtr nilStrPtr path ig = some true
    ∧ compare .invalid nilIntPtr path ig = some true
    ∧ compare .invalid (mkInt 0) path ig = some false
    ∧ compare (mkInt 0) .invalid path ig = some false
    ∧ compare nilIntPtr (mkInt 0) path ig = some false
    ∧ compare (mkInt 0) nilIntPtr path ig = some false
    ∧ (mkAnyPtr 1 .invalid).isAbsent = false
    ∧ compare (mkAnyPtr 1 .invalid) .invalid path ig = some false
    ∧ compare .invalid (mkAnyPtr 1 .invalid) path ig = some false
    ∧ (mkAnyPtr 0 .invalid).isAbsent = true
    ∧ compare (mkAnyPtr 0 .invalid) .invalid path ig = some true := by
  have key : ∀ x y : Value, x.kind ≠ .interface → y.kind ≠ .interface →
      (x.isAbsent = true ∨ y.isAbsent = true) →
      compare x y path ig = some (x.isAbsent && y.isAbsent) := by
    intro x y hx hy hxy
    obtain ⟨h1, h2, h3⟩ := getValues_of_absent x y hx hy hxy
    rw [compare_eq]
    unfold compareWith
    rcases hg : getValues x y with ⟨ex, ey, same⟩
    rw [hg] at h1 h2 h3
    simp only at h1 h2 h3 ⊢
    rw [h1, h2, h3]
    rcases hxy with h | h
    · cases hy' : y.isAbsent <;> simp [h, hy']
    · cases hx' : x.isAbsent <;> simp [h, hx']
  refine ⟨fun h1 h2 => ?_, fun h1 h2 => ?_, fun h1 h2 => ?_, ?_, ?_, ?_, ?_, ?_, ?_, ?_,
    by decide, ?_, ?_, by decide, ?_⟩
  · rw [key a b ha hb (Or.inl h1), h1, h2]; rfl
  · rw [key a b ha hb (Or.inl h1), h1, h2]; rfl
  · rw [key a b ha hb (Or.inr h2), h1, h2]; rfl
  · rw [key _ _ (by decide) (by decide) (Or.inl (by decide))]; rfl
  · rw [key _ _ (by decide) (by decide) (Or.inl (by decide))]; rfl
  · rw [key _ _ (by decide) (by decide) (Or.inl (by decide))]; rfl
  · rw [key _ _ (by decide) (by decide) (Or.inl (by decide))]; rfl
  · rw [key _ _ (by decide) (by decide) (Or.inr (by decide))]; rfl
  · rw [key _ _ (by decide) (by decide) (Or.inl (by decide))]; rfl
  · rw [key _ _ (by decide) (by decide) (Or.inr (by decide))]; rfl
  · rw [key _ _ (by decide) (by decide) (Or.inr (by decide))]; rfl
  · rw [key _ _ (by decide) (by decide) (Or.inl (by decide))]; rfl
  · rw [key _ _ (by decide) (by decide) (Or.inl (by decide))]; rfl

/-- Witness for C5: a nil `*int` against the integer `0`, at the root with no
exclusion. -/
theorem compare_absent_witness :
    compare nilIntPtr (mkInt 0) "" [] = some false :=
  (compare_absent nilIntPtr (mkInt 0) "" [] (by decide) (by decide)).2.1
    (by decide) (by decide)

/-- Counterexample to C6 as stated: the expected array `[2]int{1,2}` and the
actual slice `[]int{1,2,3}` are two ordered sequences of different lengths,
and `compare` returns true, because `getValues` converts the slice to the
array type, which keeps its first two elements. -/
theorem compare_array_longer_slice :
    (Value.seq tArr2 0 [mkInt 1, mkInt 2]).kind = .array
    ∧ (Value.seq tSliceInt 1 [mkInt 1, mkInt 2, mkInt 3]).kind = .slice
    ∧ (Value.seq tArr2 0 [mkInt 1, mkInt 2]).len
        ≠ (Value.seq tSliceInt 1 [mkInt 1, mkInt 2, mkInt 3]).len
    ∧ compare (.seq tArr2 0 [mkInt 1, mkInt 2])
        (.seq tSliceInt 1 [mkInt 1, mkInt 2, mkInt 3]) "" [] = some true := by
  refine ⟨by decide, by decide, by decide, by decide⟩

/-- Claim C6, amended: Size mismatch: `compare` returns false, whatever the
contents, the path and the exclusion list, for two maps with different numbers
of entries and for two ordered sequences of different lengths, except for an
expected array against a longer actual slice: for an expected slice against a
slice or array, an expected array against an array, and an expected array
against a shorter slice.  (A longer slice with the array's element type is
converted to the array type, which truncates it.) -/
theorem compare_size_mismatch (exp act : Value) (path : String) (ig : List String)
    (hlen : exp.len ≠ act.len) :
    (exp.kind = .map → act.kind = .map → compare exp act path ig = some false)
    ∧ (exp.kind = .slice → act.kind = .slice ∨ act.kind = .array →
      compare exp act path ig = some false)
    ∧ (exp.kind = .array → act.kind = .array → compare exp act path ig = some false)
    ∧ (exp.kind = .array → act.kind = .slice → exp.typ.len = exp.len → act.len < exp.len →
      compare exp act path ig = some false)
    ∧ compare (.map tMapStrInt [(mkStr [120], mkInt 1)]) (.map tMapStrInt []) path ig
        = some false
    ∧ compare (.seq tSliceInt 1 [mkInt 1, mkInt 2])
        (.seq tSliceInt 1 [mkInt 1, mkInt 2, mkInt 3]) path ig = some false
    ∧ compare (.seq tArr2 0 [mkInt 1, mkInt 2]) (.seq tSliceInt 1 [mkInt 1]) path ig
        = some false := by
  have hmap : ∀ e a : Value, e.len ≠ a.len → e.kind = .map → a.kind = .map →
      compare e a path ig = some false := by
    intro e a hl he ha
    have hat := typ_kind_of_kind ha (by decide)
    refine compare_len_ne e a path ig (Or.inl he) (isValid_of_kind_ne (by rw [ha]; decide))
      (by rw [ha]; decide) (by rw [ha]; decide) hl (fun _ => ?_)
    rw [convert_len_of_direct a e.typ (Or.inl hat)
      (by rw [typ_kind_of_kind he (by decide)]; decide)]
    exact hl
  have hslice : ∀ e a : Value, e.len ≠ a.len → e.kind = .slice →
      a.kind = .slice ∨ a.kind = .array → compare e a path ig = some false := by
    intro e a hl he ha
    have het := typ_kind_of_kind he (by decide)
    have hne : a.kind ≠ .invalid := by rcases ha with h | h <;> rw [h] <;> decide
    refine compare_len_ne e a path ig (Or.inr (Or.inl he)) (isValid_of_kind_ne hne)
      (by rcases ha with h | h <;> rw [h] <;> decide)
      (by rcases ha with h | h <;> rw [h] <;> decide) hl (fun _ => ?_)
    rw [convert_len_of_direct a e.typ]
    · exact hl
    · rcases ha with h | h
      · exact Or.inr (Or.inr ⟨typ_kind_of_kind h (by decide), het⟩)
      · exact Or.inr (Or.inl (typ_kind_of_kind h (by decide)))
    · rw [het]; decide
  have harr : ∀ e a : Value, e.len ≠ a.len → e.kind = .array →
      (a.kind = .array ∨ (a.kind = .slice ∧ e.typ.len = e.len ∧ a.len < e.len)) →
      compare e a path ig = some false := by
    intro e a hl he ha
    have het := typ_kind_of_kind he (by decide)
    have hne : a.kind ≠ .invalid := by rcases ha with h | ⟨h, _⟩ <;> rw [h] <;> decide
    refine compare_len_ne e a path ig (Or.inr (Or.inr he)) (isValid_of_kind_ne hne)
      (by rcases ha with h | ⟨h, _⟩ <;> rw [h] <;> decide)
      (by rcases ha with h | ⟨h, _⟩ <;> rw [h] <;> decide) hl (fun hc => ?_)
    rcases ha with h | ⟨h, hwf, hlt⟩
    · rw [convert_len_of_direct a e.typ (Or.inr (Or.inl (typ_kind_of_kind h (by decide))))
        (by rw [het]; decide)]
      exact hl
    · exfalso
      unfold Value.canConvert at hc
      cases hop : convertOp e.typ a.typ with
      | none => simp [hop] at hc
      | some op =>
        simp only [hop, h, het, true_and, if_true, decide_eq_true_eq] at hc
        omega
  refine ⟨hmap exp act hlen, hslice exp act hlen, fun he ha => harr exp act hlen he (Or.inl ha),
    fun he ha hwf hlt => harr exp act hlen he (Or.inr ⟨ha, hwf, hlt⟩), ?_, ?_, ?_⟩
  · exact hmap _ _ (by decide) (by decide) (by decide)
  · exact hslice _ _ (by decide) (by decide) (Or.inl (by decide))
  · exact harr _ _ (by decide) (by decide) (Or.inr ⟨by decide, by decide, by decide⟩)

/-- Witness for C6: the slices `[]int{1,2}` and `[]int{1,2,3}`. -/
theorem compare_size_mismatch_witness :
    compare (.seq tSliceInt 1 [mkInt 1, mkInt 2])
      (.seq tSliceInt 1 [mkInt 1, mkInt 2, mkInt 3]) "" [] = some false :=
  (compare_size_mismatch (.seq tSliceInt 1 [mkInt 1, mkInt 2])
    (.seq tSliceInt 1 [mkInt 1, mkInt 2, mkInt 3]) "" [] (by decide)).2.1
    (by decide) (Or.inl (by decide))

/-- Claim C7: Whenever `compare` returns true on two maps (the expected one with
pairwise different keys, as every Go map has), the two maps have the same
number of entries and the same key set: every key of the actual map is equal
to a key of the expected map, and every key of the expected map to a key of
the actual map, although the code only looks up the expected map's keys. -/
theorem compare_maps_same_keys (t u : GoType) (es fs : List (Value × Value))
    (path : String) (ig : List String) (ht : t.kind = .map) (hu : u.kind = .map)
    (hd : (Value.map t es).mapKeys.Pairwise (fun a b => a.goEq b = false))
    (h : compare (.map t es) (.map u fs) path ig = some true) :
    es.length = fs.length
    ∧ (∀ k ∈ (Value.map u fs).mapKeys, ∃ k' ∈ (Value.map t es).mapKeys, k.goEq k' = true)
    ∧ (∀ k ∈ (Value.map t es).mapKeys, ∃ k' ∈ (Value.map u fs).mapKeys, k'.goEq k = true) := by
  obtain ⟨act', hent, hlen, hcm⟩ :=
    compareMaps_of_compare_true (.map t es) (.map u fs) path ig ht hu h
  unfold compareMaps at hcm
  split_ifs at hcm with hl
  · cases hcm
  · rw [mapLoop_eq_true_iff] at hcm
    have hkeys : act'.mapKeys = (Value.map u fs).mapKeys := by
      unfold Value.mapKeys
      rw [hent]
    have hfound : ∀ e ∈ (Value.map t es).mapKeys,
        ∃ a ∈ (Value.map u fs).mapKeys, a.goEq e = true := by
      intro e he
      obtain ⟨_, av, _, ha, _⟩ := hcm e he
      rw [← hkeys]
      exact mapIndex_key ha
    have hlen' : es.length = fs.length := by
      have : (Value.map t es).len = act'.len := by simpa using hl
      rw [hlen] at this
      exact this
    refine ⟨hlen', ?_, hfound⟩
    exact keys_covered _ _ hd hfound (by simpa [Value.mapKeys, Value.entries] using hlen')

/-- Witness for C7: `map[string]int{"x": 1, "y": 2}` against the same map with
its entries enumerated in the other order. -/
theorem compare_maps_same_keys_witness :
    [(mkStr [120], mkInt 1), (mkStr [121], mkInt 2)].length
      = [(mkStr [121], mkInt 2), (mkStr [120], mkInt 1)].length
    ∧ (∀ k ∈ (Value.map tMapStrInt [(mkStr [121], mkInt 2), (mkStr [120], mkInt 1)]).mapKeys,
        ∃ k' ∈ (Value.map tMapStrInt [(mkStr [120], mkInt 1), (mkStr [121], mkInt 2)]).mapKeys,
          k.goEq k' = true)
    ∧ (∀ k ∈ (Value.map tMapStrInt [(mkStr [120], mkInt 1), (mkStr [121], mkInt 2)]).mapKeys,
        ∃ k' ∈ (Value.map tMapStrInt [(mkStr [121], mkInt 2), (mkStr [120], mkInt 1)]).mapKeys,
          k'.goEq k = true) :=
  compare_maps_same_keys tMapStrInt tMapStrInt [(mkStr [120], mkInt 1), (mkStr [121], mkInt 2)]
    [(mkStr [121], mkInt 2), (mkStr [120], mkInt 1)] "" [] (by decide) (by decide)
    (by
      show List.Pairwise _ [mkStr [120], mkStr [121]]
      refine List.Pairwise.cons ?_ (List.Pairwise.cons ?_ List.Pairwise.nil)
      · intro k hk
        rw [List.mem_singleton] at hk
        subst hk
        decide
      · intro k hk
        cases hk)
    (by decide)

/-- Counterexample to C8 as stated: a `float64` NaN does not compare equal to
itself. -/
theorem compare_nan_self : compare (mkF64 nanBits) (mkF64 nanBits) "" [] = some false := by
  decide

/-- Claim C8, amended: Reflexivity: for every well-formed value `v` that holds no
NaN, no function value and no pointer to an interface-typed variable
(`Value.regular`), with an empty exclusion list, `compare(v, v, path)` is true
for every path, in particular for the root path `""`.  A pointer `&s` to a
variable `var s interface{} = []int{1}` is such an exception: `compare(&s, &s)`
panics, because the slices held by the two variables are compared with
`==`. -/
theorem compare_self (v : Value) (path : String) (h : v.regular = true) :
    compare v v path [] = some true ∧ compare v v "" [] = some true
    ∧ compare (mkAnyPtr 1 (.seq tSliceInt 1 [mkInt 1]))
        (mkAnyPtr 1 (.seq tSliceInt 1 [mkInt 1])) "" [] = none :=
  ⟨compare_self_aux [] (v.depth + 1) v (Nat.lt_succ_self _) h path,
    compare_self_aux [] (v.depth + 1) v (Nat.lt_succ_self _) h "", by decide⟩

/-- Witness for C8: the map `map[string]T{"x": {1,2}}`. -/
theorem compare_self_witness :
    compare (.map tMapStrAB [(mkStr [120], mkAB 1 2)]) (.map tMapStrAB [(mkStr [120], mkAB 1 2)])
        "A" [] = some true
    ∧ compare (.map tMapStrAB [(mkStr [120], mkAB 1 2)])
        (.map tMapStrAB [(mkStr [120], mkAB 1 2)]) "" [] = some true :=
  ⟨(compare_self (.map tMapStrAB [(mkStr [120], mkAB 1 2)]) "A" (by decide)).1,
    (compare_self (.map tMapStrAB [(mkStr [120], mkAB 1 2)]) "A" (by decide)).2.1⟩

/-- Claim C9: Asymmetry of direction: there are values `a` and `b` of different
types, with `b` convertible to the type of `a` but not `a` to the type of `b`,
for which `compare(a, b)` and `compare(b, a)` differ: the expected string `"a"`
against the actual integer `97` compares equal (the integer converts to the
string `"a"`), the expected integer `97` against the actual string `"a"` does
not. -/
theorem compare_direction_asymmetric :
    ∃ a b : Value, a.typ ≠ b.typ ∧ b.canConvert a.typ = true ∧ a.canConvert b.typ = false
      ∧ compare a b "" [] = some true ∧ compare b a "" [] = some false
      ∧ compare a b "" [] ≠ compare b a "" [] :=
  ⟨mkStr [97], mkInt 97, by decide, by decide, by decide, by decide, by decide, by decide⟩

/-- Claim C10: Type incompatibility: two present values (after one pointer
indirection) whose types differ and of which the actual one is not convertible
to the expected one's type compare unequal, whatever their contents, the path
and the exclusion list.  This holds at every recursion node, each being a call
of `compare`: a struct, a sequence or a map that holds such a pair at a
compared field, position or key does not compare equal.  For
`Box{X interface{}}`, `compare(Box{1}, Box{"a"})` is false. -/
theorem compare_incompatible (expected actual : Value) (path : String) (ig : List String)
    (he : expected.kind ≠ .interface) (ha : actual.kind ≠ .interface)
    (hve : expected.indirect.isValid = true) (hva : actual.indirect.isValid = true)
    (hne : expected.indirect.typ ≠ actual.indirect.typ)
    (hnc : actual.indirect.canConvert expected.indirect.typ = false) :
    compare expected actual path ig = some false
    ∧ (∀ (exp act : Value) (p : String) (j : Nat) (field : StructField GoType),
        exp.kind = .struct → act.typ = exp.typ → exp.typ ≠ timeType →
        exp.typ.fields[j]? = some field → field.isExported = true →
        fieldPath p field.name ∉ ig →
        exp.fieldValues[j]? = some expected → act.fieldValues[j]? = some actual →
        compare exp act p ig ≠ some true)
    ∧ (∀ (exp act : Value) (p : String) (i : Nat),
        exp.kind = .slice ∨ exp.kind = .array → act.typ = exp.typ →
        exp.elems[i]? = some expected → act.elems[i]? = some actual →
        compare exp act p ig ≠ some true)
    ∧ (∀ (exp act : Value) (p : String) (key : Value),
        exp.kind = .map → act.typ = exp.typ → key ∈ exp.mapKeys →
        exp.mapIndex key = some expected → act.mapIndex key = some actual →
        compare exp act p ig ≠ some true)
    ∧ compare (.struct tBox [mkInt 1]) (.struct tBox [mkStr [97]]) "" [] = some false := by
  have hall : ∀ p : String, compare expected actual p ig = some false := fun p =>
    compare_of_incompatible expected actual p ig he ha hve hva hne hnc
  refine ⟨hall path, ?_, ?_, ?_, by decide⟩
  · intro exp act p j field hk ht hnt hj hexp hign hfe hfa htrue
    rw [compare_struct_eq exp act p ig hk ht, compareStructs] at htrue
    simp only [if_neg hnt] at htrue
    rw [structLoop_eq_true_iff] at htrue
    obtain ⟨e, a, he', ha', hc⟩ :=
      htrue j field hj hexp ((isIgnoreField_eq_false_iff _ _).mpr hign)
    rw [Nat.zero_add] at he' ha'
    rw [hfe] at he'
    rw [hfa] at ha'
    cases he'
    cases ha'
    rw [hall] at hc
    cases hc
  · intro exp act p i hk ht hfe hfa htrue
    rw [compare_seq_eq exp act p ig hk ht, compareSlices] at htrue
    split_ifs at htrue
    · cases htrue
    rw [sliceLoop_eq_true_iff] at htrue
    obtain ⟨a, ha', hc⟩ := htrue i expected hfe
    rw [hfa] at ha'
    cases ha'
    rw [hall] at hc
    cases hc
  · intro exp act p key hk ht hkey hfe hfa htrue
    rw [compare_map_eq exp act p ig hk ht, compareMaps] at htrue
    split_ifs at htrue
    · cases htrue
    rw [mapLoop_eq_true_iff] at htrue
    obtain ⟨ev, av, he', ha', hc⟩ := htrue key hkey
    rw [hfe] at he'
    rw [hfa] at ha'
    cases he'
    cases ha'
    rw [hall] at hc
    cases hc

/-- Witness for C10: the expected integer `97` against the actual string
`"a"`; a string does not convert to an integer type. -/
theorem compare_incompatible_witness :
    compare (mkInt 97) (mkStr [97]) "" [] = some false :=
  (compare_incompatible (mkInt 97) (mkStr [97]) "" [] (by decide) (by decide) (by decide)
    (by decide) (by decide) (by decide)).1

/-- Claim C11: Timestamp semantics: for two `time.Time` values, every path and
every exclusion list, `compare` returns the result of `Time.Equal`, so it is
true exactly when the two denote the same instant.  `compareStructs` makes no
recursive call on them (the result is the same whatever stands for `compare`),
so the internal fields are never compared and neither the path nor the
exclusion list has any effect.  The same instant in UTC and in another zone,
and the same instant with and without a monotonic clock reading, compare equal
although the structs differ under `==`; two different instants do not, even
with every field name excluded. -/
theorem compare_time (exp act : Value) (path : String) (ig : List String)
    (he : exp.typ = timeType) (ha : act.typ = timeType) :
    compare exp act path ig = some (timeEqual exp act)
    ∧ (compare exp act path ig = some true ↔ timeEqual exp act = true)
    ∧ (∀ cmp : Cmp, compareStructs cmp exp act path ig = some (timeEqual exp act))
    ∧ (∀ (p : String) (l : List String), compare exp act p l = compare exp act path ig)
    ∧ compare (mkTime 0 100) (mkTimeIn 0 100 7 [67, 69, 84]) "" [] = some true
    ∧ (mkTime 0 100).goEq (mkTimeIn 0 100 7 [67, 69, 84]) = false
    ∧ compare (mkTime (2 ^ 63 + 5 * 2 ^ 30 + 7) 12345) (mkTime 7 59453308805) "" []
        = some true
    ∧ compare (mkTime 0 100) (mkTime 0 101) "" ["wall", "ext", "loc"] = some false := by
  have h := compare_time_eq exp act path ig he ha
  refine ⟨h, ?_, fun cmp => compareStructs_time cmp exp act path ig he ha, ?_, by decide,
    by decide, by decide, by decide⟩
  · rw [h]
    simp
  · intro p l
    rw [h, compare_time_eq exp act p l he ha]

/-- Witness for C11: midnight plus 100 seconds of year 1 in UTC and in another
zone. -/
theorem compare_time_witness :
    compare (mkTime 0 100) (mkTimeIn 0 100 7 [67, 69, 84]) "" []
      = some (timeEqual (mkTime 0 100) (mkTimeIn 0 100 7 [67, 69, 84])) :=
  (compare_time (mkTime 0 100) (mkTimeIn 0 100 7 [67, 69, 84]) "" [] (by decide)
    (by decide)).1

/-- Claim C12: the recursion of `compare` is bounded by the depth of the
expected value, so the comparison terminates: unfolding `compare` more than
that many levels deep never changes its outcome, and `compare` satisfies its
defining equation.  The outcome is not always a boolean.  Failing input: a
function value compared with itself panics (`==` on two interface values whose
dynamic type is a function type), at the root and inside a struct field. -/
theorem compare_func_panics :
    (∀ (n : Nat) (expected actual : Value) (path : String) (ig : List String),
      expected.depth < n →
      compareFuel n expected actual path ig = compare expected actual path ig)
    ∧ (∀ (expected actual : Value) (path : String) (ig : List String),
      compare expected actual path ig = compareWith compare expected actual path ig)
    ∧ compare mkFunc mkFunc "" [] = none
    ∧ compare (.struct tHandler [mkFunc]) (.struct tHandler [mkFunc]) "" [] = none := by
  refine ⟨?_, compare_eq, by decide, by decide⟩
  intro n expected actual path ig hn
  exact compareFuel_stable ig n (expected.depth + 1) expected actual path hn
    (Nat.lt_succ_self _)

/-- Claim C13: the two entry points decide with the same comparison.  For every
reporter state, expected value, actual value and exclusion list,
`RequireEqual` reports a failure if and only if `AssertEqual` does, namely
exactly when `compare(expected, actual, "", ignoreFields...)` is false; both
then report the same message, and only `RequireEqual` stops the test.  When the
comparison is true neither changes the reporter; `[]int{1,2,3}` against
`[]int{1,2,3}` passes silently, against `[]int{1,2,4}` both report. -/
theorem entry_points_agree (marshal : Value → String) (t : TB) (expected actual : Value)
    (ig : List String) :
    ((∃ r, RequireEqual marshal t expected actual ig = some r ∧ r.failures ≠ t.failures) ↔
      compare expected actual "" ig = some false)
    ∧ ((∃ r, AssertEqual marshal t expected actual ig = some r ∧ r.failures ≠ t.failures) ↔
      compare expected actual "" ig = some false)
    ∧ ((∃ r, RequireEqual marshal t expected actual ig = some r ∧ r.failures ≠ t.failures) ↔
      (∃ r, AssertEqual marshal t expected actual ig = some r ∧ r.failures ≠ t.failures))
    ∧ (compare expected actual "" ig = some false →
      RequireEqual marshal t expected actual ig
        = some ⟨getErrorMessage marshal expected actual :: t.failures, true⟩
      ∧ AssertEqual marshal t expected actual ig
        = some ⟨getErrorMessage marshal expected actual :: t.failures, t.stopped⟩)
    ∧ (compare expected actual "" ig = some true →
      RequireEqual marshal t expected actual ig = some t
      ∧ AssertEqual marshal t expected actual ig = some t)
    ∧ RequireEqual marshal t (mkInts3 1 2 3) (mkInts3 1 2 3) [] = some t
    ∧ AssertEqual marshal t (mkInts3 1 2 3) (mkInts3 1 2 3) [] = some t
    ∧ RequireEqual marshal t (mkInts3 1 2 3) (mkInts3 1 2 4) []
      = some ⟨getErrorMessage marshal (mkInts3 1 2 3) (mkInts3 1 2 4) :: t.failures, true⟩
    ∧ AssertEqual marshal t (mkInts3 1 2 3) (mkInts3 1 2 4) []
      = some ⟨getErrorMessage marshal (mkInts3 1 2 3) (mkInts3 1 2 4) :: t.failures,
          t.stopped⟩ := by
  have hne : ∀ (m : String) (l : List String), m :: l ≠ l := fun m l h => by
    have := congrArg List.length h
    simp at this
  have hreq : (∃ r, RequireEqual marshal t expected actual ig = some r ∧
      r.failures ≠ t.failures) ↔ compare expected actual "" ig = some false := by
    unfold RequireEqual
    cases hc : compare expected actual "" ig with
    | none => simp
    | some b =>
      cases b with
      | false => simp [requireFail, assertFail, hne]
      | true => simp
  have hass : (∃ r, AssertEqual marshal t expected actual ig = some r ∧
      r.failures ≠ t.failures) ↔ compare expected actual "" ig = some false := by
    unfold AssertEqual
    cases hc : compare expected actual "" ig with
    | none => simp
    | some b =>
      cases b with
      | false => simp [assertFail, hne]
      | true => simp
  have h123 : compare (mkInts3 1 2 3) (mkInts3 1 2 3) "" [] = some true := by decide
  have h124 : compare (mkInts3 1 2 3) (mkInts3 1 2 4) "" [] = some false := by decide
  refine ⟨hreq, hass, hreq.trans hass.symm, ?_, ?_, ?_, ?_, ?_, ?_⟩
  · intro h
    simp [RequireEqual, AssertEqual, h, requireFail, assertFail]
  · intro h
    simp [RequireEqual, AssertEqual, h]
  · simp [RequireEqual, h123]
  · simp [AssertEqual, h123]
  · simp [RequireEqual, h124, requireFail, assertFail]
  · simp [AssertEqual, h124, assertFail]

/-- Claim C14: for two ordered sequences of one type (two slices or two arrays),
every path and every exclusion list, `compare` returns true if and only if the
lengths are equal and, at every position, `compare` of the expected and the
actual element, with the same path and exclusion list, is true. -/
theorem compare_sequences_iff (t : GoType) (d d' : Nat) (es as : List Value)
    (path : String) (ig : List String) (hk : t.kind = .slice ∨ t.kind = .array) :
    compare (.seq t d es) (.seq t d' as) path ig = some true ↔
      es.length = as.length ∧
        ∀ (i : Nat) (h1 : i < es.length) (h2 : i < as.length),
          compare es[i] as[i] path ig = some true := by
  rw [compare_seq_eq (.seq t d es) (.seq t d' as) path ig hk rfl, compareSlices]
  simp only [Value.len, Value.elems]
  by_cases hlen : es.length = as.length
  · rw [if_neg (not_not.mpr hlen), sliceLoop_eq_true_iff]
    constructor
    · intro h
      refine ⟨hlen, fun i h1 h2 => ?_⟩
      obtain ⟨a, ha, hc⟩ := h i es[i] (List.getElem?_eq_getElem h1)
      rw [List.getElem?_eq_getElem h2] at ha
      cases ha
      exact hc
    · rintro ⟨_, h⟩ i e hi
      obtain ⟨h1, rfl⟩ := List.getElem?_eq_some.mp hi
      have h2 : i < as.length := hlen ▸ h1
      exact ⟨as[i], List.getElem?_eq_getElem h2, h i h1 h2⟩
  · rw [if_pos hlen]
    constructor
    · intro h
      cases h
    · intro h
      exact absurd h.1 hlen

/-- Witness for C14: the slices `[]int{1, 2}` and `[]int{1, 3}`. -/
theorem compare_sequences_iff_witness :
    compare (.seq tSliceInt 1 [mkInt 1, mkInt 2]) (.seq tSliceInt 2 [mkInt 1, mkInt 3]) "" []
        = some true ↔
      [mkInt 1, mkInt 2].length = [mkInt 1, mkInt 3].length ∧
        ∀ (i : Nat) (_h1 : i < [mkInt 1, mkInt 2].length) (_h2 : i < [mkInt 1, mkInt 3].length),
          compare [mkInt 1, mkInt 2][i] [mkInt 1, mkInt 3][i] "" [] = some true :=
  compare_sequences_iff tSliceInt 1 2 [mkInt 1, mkInt 2] [mkInt 1, mkInt 3] "" []
    (Or.inl (by decide))

/-- Claim C15: for two maps of one type, every path and every exclusion list,
`compare` returns true if and only if the sizes are equal and every key of the
expected map is present in the actual map with a value that compares equal
under the same path and exclusion list; whether the loop over the expected
keys returns true does not depend on the order in which the keys are
enumerated.  The result itself does depend on that order when one entry
compares unequal and another one panics: for the expected map
`map[string]interface{}{"a": 1, "b": f}` (`f` a function) against
`{"a": 2, "b": f}`, enumerating `"a"` first gives false, enumerating `"b"`
first panics. -/
theorem compare_maps_iff (t : GoType) (es fs : List (Value × Value)) (path : String)
    (ig : List String) (hk : t.kind = .map) :
    (compare (.map t es) (.map t fs) path ig = some true ↔
      es.length = fs.length ∧
        ∀ key ∈ (Value.map t es).mapKeys, ∃ ev av,
          (Value.map t es).mapIndex key = some ev ∧ (Value.map t fs).mapIndex key = some av ∧
            compare ev av path ig = some true)
    ∧ (∀ keys : List Value, keys.Perm (Value.map t es).mapKeys →
      (mapLoop compare (.map t es) (.map t fs) path ig keys = some true ↔
        mapLoop compare (.map t es) (.map t fs) path ig (Value.map t es).mapKeys = some true))
    ∧ compare (.map tMapStrAny [(mkStr [97], mkInt 1), (mkStr [98], mkFunc)])
        (.map tMapStrAny [(mkStr [97], mkInt 2), (mkStr [98], mkFunc)]) "" [] = some false
    ∧ compare (.map tMapStrAny [(mkStr [98], mkFunc), (mkStr [97], mkInt 1)])
        (.map tMapStrAny [(mkStr [97], mkInt 2), (mkStr [98], mkFunc)]) "" [] = none := by
  refine ⟨?_, ?_, by decide, by decide⟩
  · rw [compare_map_eq (.map t es) (.map t fs) path ig hk rfl, compareMaps]
    simp only [Value.len]
    by_cases hlen : es.length = fs.length
    · rw [if_neg (not_not.mpr hlen), mapLoop_eq_true_iff]
      exact ⟨fun h => ⟨hlen, h⟩, fun h => h.2⟩
    · rw [if_pos hlen]
      constructor
      · intro h
        cases h
      · intro h
        exact absurd h.1 hlen
  · intro keys hperm
    rw [mapLoop_eq_true_iff, mapLoop_eq_true_iff]
    constructor
    · intro h key hkey
      exact h key (hperm.mem_iff.mpr hkey)
    · intro h key hkey
      exact h key (hperm.mem_iff.mp hkey)

/-- Witness for C15: the maps `map[string]int{"x": 1}` on both sides. -/
theorem compare_maps_iff_witness :
    compare (.map tMapStrInt [(mkStr [120], mkInt 1)]) (.map tMapStrInt [(mkStr [120], mkInt 1)])
        "" [] = some true ↔
      [(mkStr [120], mkInt 1)].length = [(mkStr [120], mkInt 1)].length ∧
        ∀ key ∈ (Value.map tMapStrInt [(mkStr [120], mkInt 1)]).mapKeys, ∃ ev av,
          (Value.map tMapStrInt [(mkStr [120], mkInt 1)]).mapIndex key = some ev ∧
            (Value.map tMapStrInt [(mkStr [120], mkInt 1)]).mapIndex key = some av ∧
            compare ev av "" [] = some true :=
  (compare_maps_iff tMapStrInt [(mkStr [120], mkInt 1)] [(mkStr [120], mkInt 1)] "" []
    (by decide)).1

/-- Counterexample to C16 as stated: the slice `[]*int{&1}`, whose element is
pointer-typed, against the slice `[]int{1}` of the pointed-to value compares
unequal, because the two slice types differ and are not convertible, although
`compare(&1, 1)` and `compare([]int{1}, []int{1})` are true.  And for a
variable `var a interface{} = T{1,2}`, `compare(&a, T{1,9}, "", "B")` is false
although `compare(a, T{1,9}, "", "B")` is true: behind the pointer stands a
value of interface kind, which is compared with `==`, and `compare(T{1,9}, &a,
"", "B")` is false because the interface type converts to no struct type. -/
theorem compare_pointer_elements_typed :
    compare (.seq tSliceIntPtr 1 [mkIntPtr 10 1]) (.seq tSliceInt 2 [mkInt 1]) "" []
      = some false
    ∧ compare (mkIntPtr 10 1) (mkInt 1) "" [] = some true
    ∧ compare (.seq tSliceInt 1 [mkInt 1]) (.seq tSliceInt 2 [mkInt 1]) "" [] = some true
    ∧ compare (mkAnyPtr 1 (mkAB 1 2)) (mkAB 1 9) "" ["B"] = some false
    ∧ compare (mkAB 1 9) (mkAnyPtr 1 (mkAB 1 2)) "" ["B"] = some false
    ∧ compare (mkAB 1 2) (mkAB 1 9) "" ["B"] = some true := by
  refine ⟨by decide, by decide, by decide, by decide, by decide, by decide⟩

/-- Claim C16, amended: one level of pointer indirection is transparent for
pointers to variables of a type that is not an interface type.  For two
non-pointer values `a` and `b`, two such pointer types, every path and every
exclusion list, `compare(&a, b)`, `compare(a, &b)` and `compare(&a, &b)` all
equal `compare(a, b)`.  The same holds at the recursion nodes of two structs
(other than `time.Time`), maps or sequences of one type: replacing every
pointer among their fields, map values or elements by its pointee leaves the
result unchanged, when no pointee is itself a pointer or an interface-typed
variable.  So `[]interface{}{&1}` against `[]interface{}{1}`,
`map[string]interface{}{"x": &1}` against `{"x": 1}` and `Q{&1}` against
`Q{&1}` with two different pointers compare equal.  A non-nil pointer to an
interface-typed variable is not transparent: against a present `b` the value
held by the variable is compared with `b` by `==`. -/
theorem compare_pointer_transparent (a b : Value) (t u : GoType) (x y : Nat)
    (path : String) (ig : List String) (ha : a.kind ≠ .ptr) (hai : a.kind ≠ .interface)
    (hb : b.kind ≠ .ptr) (hbi : b.kind ≠ .interface) (ht : t.kind = .ptr)
    (hu : u.kind = .ptr) (hte : t.elem.kind ≠ .interface) (hue : u.elem.kind ≠ .interface) :
    compare (.ptr t x a) b path ig = compare a b path ig
    ∧ compare a (.ptr u y b) path ig = compare a b path ig
    ∧ compare (.ptr t x a) (.ptr u y b) path ig = compare a b path ig
    ∧ (∀ exp act : Value,
        exp.kind = .struct ∨ exp.kind = .map ∨ exp.kind = .slice ∨ exp.kind = .array →
        act.typ = exp.typ → exp.typ ≠ timeType →
        (∀ c ∈ exp.fieldValues ++ act.fieldValues, c.oneLevel) →
        (∀ c ∈ exp.entries ++ act.entries, c.2.oneLevel) →
        (∀ c ∈ exp.elems ++ act.elems, c.oneLevel) →
        compare exp.indirectChildren act.indirectChildren path ig = compare exp act path ig)
    ∧ compare (.seq tSliceAny 1 [mkIntPtr 10 1]) (.seq tSliceAny 2 [mkInt 1]) "" []
        = some true
    ∧ compare (.map tMapStrAny [(mkStr [120], mkIntPtr 10 1)])
        (.map tMapStrAny [(mkStr [120], mkInt 1)]) "" [] = some true
    ∧ compare (.struct tQ [mkIntPtr 10 1]) (.struct tQ [mkIntPtr 20 1]) "" [] = some true
    ∧ (∀ (ti : GoType) (z : Nat) (c : Value), ti.kind = .ptr → ti.elem.kind = .interface →
        z ≠ 0 → b.isValid = true → compare (.ptr ti z c) b path ig = ifaceEq c b) := by
  have hpa := oneLevel_ptr t x a ht hte ha hai
  have hpb := oneLevel_ptr u y b hu hue hb hbi
  have hoa := oneLevel_of_not_ptr ha hai
  have hob := oneLevel_of_not_ptr hb hbi
  refine ⟨?_, ?_, ?_, ?_, by decide, by decide, by decide, ?_⟩
  · rw [compare_indirect _ _ path ig hpa hob, indirect_ptr t x a ht hte,
      indirect_of_not_ptr hb]
  · rw [compare_indirect _ _ path ig hoa hpb, indirect_ptr u y b hu hue,
      indirect_of_not_ptr ha]
  · rw [compare_indirect _ _ path ig hpa hpb, indirect_ptr t x a ht hte,
      indirect_ptr u y b hu hue]
  · intro exp act hk hty hnt hf he hs
    exact compare_indirectChildren exp act path ig hk hty hnt hf he hs
  · intro ti z c hti htie hz hbv
    exact compare_ptr_iface ti z c b path ig hti htie hz hbv hb hbi

/-- Witness for C16: the integers `1` and `2` behind pointers of type `*int`. -/
theorem compare_pointer_transparent_witness :
    compare (mkIntPtr 10 1) (mkIntPtr 20 2) "" [] = compare (mkInt 1) (mkInt 2) "" [] :=
  (compare_pointer_transparent (mkInt 1) (mkInt 2) tIntPtr tIntPtr 10 20 "" [] (by decide)
    (by decide) (by decide) (by decide) (by decide) (by decide) (by decide) (by decide)).2.2.1

/-- Counterexample to C17 as stated: two distinct double pointers whose inner
pointers are different pointers to the equal integers `1` and `1` compare
unequal, although the integers they ultimately point to compare equal. -/
theorem compare_double_pointer_distinct :
    compare (mkIntPtrPtr 30 (mkIntPtr 10 1)) (mkIntPtrPtr 40 (mkIntPtr 20 1)) "" []
      = some false
    ∧ compare (mkInt 1) (mkInt 1) "" [] = some true := by
  refine ⟨by decide, by decide⟩

/-- Claim C17, amended: `getValues` removes one level of pointer indirection on
each side and nothing unwraps the rest: a value that is still a pointer after
that step is compared with `==`, by pointer identity.  For two double pointers
whose inner pointers have one type, `compare` is true exactly when the two
inner pointers are the same pointer (have the same address): two different
double pointers to one and the same inner pointer compare equal.  The outer
pointers are pointers to pointer variables; when the actual side is instead a
non-nil pointer to an interface-typed variable holding the inner pointer, the
two sides are incompatible and `compare` is false. -/
theorem compare_double_pointer (t tr ts : GoType) (a b c d : Nat) (x y : Value)
    (path : String) (ig : List String) (ht : t.kind = .ptr) (htr : tr.kind = .ptr)
    (hts : ts.kind = .ptr) (htre : tr.elem.kind ≠ .interface)
    (htse : ts.elem.kind ≠ .interface) :
    compare (.ptr tr c (.ptr t a x)) (.ptr ts d (.ptr t b y)) path ig = some (decide (a = b))
    ∧ compare (mkIntPtrPtr 30 (mkIntPtr 10 1)) (mkIntPtrPtr 40 (mkIntPtr 10 1)) path ig
        = some true
    ∧ (∀ (ti : GoType) (e : Nat), ti.kind = .ptr → ti.elem.kind = .interface → e ≠ 0 →
        compare (.ptr tr c (.ptr t a x)) (.ptr ti e (.ptr t b y)) path ig = some false) := by
  have key : ∀ (t tr ts : GoType) (c d a b : Nat) (x y : Value), t.kind = .ptr →
      tr.kind = .ptr → ts.kind = .ptr → tr.elem.kind ≠ .interface →
      ts.elem.kind ≠ .interface →
      compare (.ptr tr c (.ptr t a x)) (.ptr ts d (.ptr t b y)) path ig
        = some (decide (a = b)) := by
    intro t tr ts c d a b x y ht htr hts htre htse
    have hkr : (Value.ptr tr c (.ptr t a x)).kind = .ptr := htr
    have hks : (Value.ptr ts d (.ptr t b y)).kind = .ptr := hts
    have hka : (Value.ptr t a x).kind = .ptr := ht
    have hkb : (Value.ptr t b y).kind = .ptr := ht
    have hg : getValues (.ptr tr c (.ptr t a x)) (.ptr ts d (.ptr t b y))
        = (.ptr t a x, .ptr t b y, true) := by
      rw [getValues_eq_indirect _ _ (by rw [hkr]; decide) (by rw [hks]; decide),
        indirect_ptr tr c _ htr htre, indirect_ptr ts d _ hts htse]
      simp [Value.isValid, hka, hkb, Value.typ]
    have hc := comparable_of_kind t (by rw [ht]; decide) (by rw [ht]; decide)
      (by rw [ht]; decide) (by rw [ht]; decide) (by rw [ht]; decide)
    have hd := compareValue_leaf compare (.ptr t a x) (.ptr t b y) path ig
      (by rw [hka]; decide) (by rw [hka]; decide) (by rw [hka]; decide) (by rw [hka]; decide)
      (by rw [hka]; decide) (by rw [hkb]; decide)
    rw [compare_eq, compareWith, hg]
    simp only [Value.isValid, Bool.not_true, Bool.and_false, Bool.false_eq_true, if_false,
      Bool.and_self, Bool.not_false]
    rw [hd]
    by_cases hab : a = b <;>
      simp [ifaceEq, Value.isValid, Value.typ, hc, Value.goEq, Value.eqPanics, hab]
  refine ⟨key t tr ts c d a b x y ht htr hts htre htse,
    key tIntPtr (.ptr tIntPtr) (.ptr tIntPtr) 30 40 10 10 (mkInt 1) (mkInt 1) (by decide)
      (by decide) (by decide) (by decide) (by decide), ?_⟩
  intro ti e hti htie he
  have hkr : (Value.ptr tr c (.ptr t a x)).kind = .ptr := htr
  have hki : (Value.ptr ti e (.ptr t b y)).kind = .ptr := hti
  have h1 : (Value.ptr tr c (.ptr t a x)).indirect = .ptr t a x :=
    indirect_ptr tr c _ htr htre
  have h2 : (Value.ptr ti e (.ptr t b y)).indirect = .iface ti.elem (.ptr t b y) := by
    rw [Value.indirect, if_pos hki, elem_ptr_iface ti e _ htie he]
  have hne : t ≠ ti.elem := by
    intro h
    rw [← h, ht] at htie
    cases htie
  apply compare_of_incompatible _ _ path ig (by rw [hkr]; decide) (by rw [hki]; decide)
  · rw [h1]; rfl
  · rw [h2]; rfl
  · rw [h1, h2]; exact hne
  · rw [h1, h2]
    unfold Value.canConvert
    simp only [Value.typ]
    rw [convertOp_from_iface t ti.elem htie (by rw [ht]; decide)]

/-- Witness for C17: two double pointers whose inner `*int` pointers are at the
addresses 10 and 20. -/
theorem compare_double_pointer_witness :
    compare (.ptr (.ptr tIntPtr) 30 (.ptr tIntPtr 10 (mkInt 1)))
      (.ptr (.ptr tIntPtr) 40 (.ptr tIntPtr 20 (mkInt 1))) "" [] = some (decide (10 = 20)) :=
  (compare_double_pointer tIntPtr (.ptr tIntPtr) (.ptr tIntPtr) 10 20 30 40 (mkInt 1)
    (mkInt 1) "" [] (by decide) (by decide) (by decide) (by decide) (by decide)).1

/-- Counterexample to C18 as stated: the actual `int` value 257 is not
representable in the expected type `int8` (converting it wraps to 1), and the
actual `float64` value 1.5 is not integral, yet `compare(int8(1), int(257))`
and `compare(int(1), float64(1.5))` are true. -/
theorem compare_lossy_conversion_accepted :
    wrapInt .int8 257 = 1
    ∧ compare (.scalar int8T (.int 1)) (mkInt 257) "" [] = some true
    ∧ f64Decode 0x3FF8000000000000 = .fin false (3 * 2 ^ 51) (-52)
    ∧ compare (mkInt 1) (mkF64 0x3FF8000000000000) "" [] = some true := by
  refine ⟨by decide, by decide, by decide, by decide⟩

/-- Claim C18, amended: conversion is accepted whenever `CanConvert` accepts it,
with no check that the value is representable.  For two values that are
present after the one pointer indirection of `getValues` and have different
types, every path and every exclusion list, `getValues` declares the two
compatible exactly when the actual value can be converted to the expected type
(`CanConvert`, which looks at the two types and, for a slice against an array
type, at the length of the slice); if it cannot, `compare` is false, and if it
can, `compare` compares the expected value with the converted actual value.
An actual integer is reduced modulo `2 ^ w` into the range of an expected
integer type, and an actual floating-point number is truncated toward zero to
a 64-bit integer and then reduced in the same way, so `compare` is true exactly
when the expected integer equals the wrapped or truncated value:
`compare(int8(1), int(257))` and `compare(int(1), float64(1.5))` are true,
`compare(int8(1), int(2))` is false, and `compare([2]int{1,2}, []int{1})` is
false because the slice is too short to be converted. -/
theorem compare_conversion_unchecked (expected actual : Value) (path : String)
    (ig : List String) (he : expected.kind ≠ .interface) (ha : actual.kind ≠ .interface)
    (hve : expected.indirect.isValid = true) (hva : actual.indirect.isValid = true)
    (hne : expected.indirect.typ ≠ actual.indirect.typ) :
    (getValues expected actual).2.2 = actual.indirect.canConvert expected.indirect.typ
    ∧ (actual.indirect.canConvert expected.indirect.typ = false →
      compare expected actual path ig = some false)
    ∧ (actual.indirect.canConvert expected.indirect.typ = true →
      compare expected actual path ig
        = compareValue compare expected.indirect
            (actual.indirect.convert expected.indirect.typ) path ig)
    ∧ (∀ (t u : GoType) (n m : Int), (t.kind.isInt = true ∨ t.kind.isUint = true) →
      (u.kind.isInt = true ∨ u.kind.isUint = true) → t ≠ u →
      compare (.scalar t (.int n)) (.scalar u (.int m)) path ig
        = some (decide (n = wrapInt t.kind m)))
    ∧ (∀ (t u : GoType) (n : Int) (b : Nat), t.kind.isInt = true → u.kind.isFloat = true →
      compare (.scalar t (.int n)) (.scalar u (.float b)) path ig
        = some (decide (n = wrapInt t.kind (f64ToInt64 b))))
    ∧ (∀ (t u : GoType) (n : Int) (b : Nat), t.kind.isUint = true → u.kind.isFloat = true →
      compare (.scalar t (.int n)) (.scalar u (.float b)) path ig
        = some (decide (n = wrapInt t.kind (f64ToUint64 b))))
    ∧ compare (.scalar int8T (.int 1)) (mkInt 257) path ig = some true
    ∧ compare (.scalar int8T (.int 1)) (mkInt 2) path ig = some false
    ∧ f64ToInt64 0x3FF8000000000000 = 1
    ∧ compare (mkInt 1) (mkF64 0x3FF8000000000000) path ig = some true
    ∧ (Value.seq tSliceInt 1 [mkInt 1]).canConvert tArr2 = false
    ∧ (Value.seq tSliceInt 1 [mkInt 1, mkInt 2, mkInt 3]).canConvert tArr2 = true
    ∧ compare (.seq tArr2 0 [mkInt 1, mkInt 2]) (.seq tSliceInt 1 [mkInt 1]) path ig
        = some false := by
  have hint : ∀ (t u : GoType) (n m : Int), (t.kind.isInt = true ∨ t.kind.isUint = true) →
      (u.kind.isInt = true ∨ u.kind.isUint = true) → t ≠ u →
      compare (.scalar t (.int n)) (.scalar u (.int m)) path ig
        = some (decide (n = wrapInt t.kind m)) := by
    intro t u n m ht hu htu
    obtain ⟨hc1, hc2⟩ := convert_int t u m ht hu
    exact compare_int_of_convert t n _ (.scalar u (.int m)) path ig ht rfl
      (show u.kind ≠ .ptr from (int_kind_ne hu).1)
      (show u.kind ≠ .interface from (int_kind_ne hu).2.1) htu hc1 hc2
  have hfloat : ∀ (t u : GoType), t.kind.isInt = true ∨ t.kind.isUint = true →
      u.kind.isFloat = true → t ≠ u := by
    intro t u ht hu h
    rw [h] at ht
    obtain ⟨_, _, _, h1, h2⟩ := float_kind_ne hu
    rcases ht with ht | ht
    · rw [h1] at ht; cases ht
    · rw [h2] at ht; cases ht
  have hfi : ∀ (t u : GoType) (n : Int) (b : Nat), t.kind.isInt = true →
      u.kind.isFloat = true →
      compare (.scalar t (.int n)) (.scalar u (.float b)) path ig
        = some (decide (n = wrapInt t.kind (f64ToInt64 b))) := by
    intro t u n b ht hu
    obtain ⟨hc1, hc2⟩ := (convert_float_int t u b hu).1 ht
    exact compare_int_of_convert t n _ (.scalar u (.float b)) path ig (Or.inl ht) rfl
      (show u.kind ≠ .ptr from (float_kind_ne hu).1)
      (show u.kind ≠ .interface from (float_kind_ne hu).2.1)
      (hfloat t u (Or.inl ht) hu) hc1 hc2
  have hfu : ∀ (t u : GoType) (n : Int) (b : Nat), t.kind.isUint = true →
      u.kind.isFloat = true →
      compare (.scalar t (.int n)) (.scalar u (.float b)) path ig
        = some (decide (n = wrapInt t.kind (f64ToUint64 b))) := by
    intro t u n b ht hu
    obtain ⟨hc1, hc2⟩ := (convert_float_int t u b hu).2 ht
    exact compare_int_of_convert t n _ (.scalar u (.float b)) path ig (Or.inr ht) rfl
      (show u.kind ≠ .ptr from (float_kind_ne hu).1)
      (show u.kind ≠ .interface from (float_kind_ne hu).2.1)
      (hfloat t u (Or.inr ht) hu) hc1 hc2
  have hg : getValues expected actual =
      if actual.indirect.canConvert expected.indirect.typ then
        (expected.indirect, actual.indirect.convert expected.indirect.typ, true)
      else (expected.indirect, actual.indirect, false) := by
    rw [getValues_eq_indirect expected actual he ha]
    simp [hve, hva, hne]
  refine ⟨?_, ?_, ?_, hint, hfi, hfu, ?_, ?_, by decide, ?_, by decide, by decide, ?_⟩
  · rw [hg]
    cases hc : actual.indirect.canConvert expected.indirect.typ <;> simp
  · intro hc
    rw [compare_eq, compareWith, hg]
    simp [hc]
  · intro hc
    rw [compare_eq, compareWith, hg, if_pos hc]
    simp [hve, convert_isValid actual.indirect expected.indirect.typ hva]
  · rw [mkInt, hint int8T intT 1 257 (by decide) (by decide) (by decide)]
    rfl
  · rw [mkInt, hint int8T intT 1 2 (by decide) (by decide) (by decide)]
    rfl
  · rw [mkInt, mkF64, hfi intT (.basic .float64) 1 0x3FF8000000000000 (by decide) (by decide)]
    decide
  · exact compare_of_incompatible _ _ path ig (by decide) (by decide) (by decide) (by decide)
      (by decide) (by decide)

/-- Witness for C18: the expected `int8` value 1 against the actual `int`
value 257, which converts to the `int8` value 1. -/
theorem compare_conversion_unchecked_witness :
    compare (.scalar int8T (.int 1)) (mkInt 257) "" []
      = compareValue compare (Value.scalar int8T (.int 1)).indirect
          ((mkInt 257).indirect.convert (Value.scalar int8T (.int 1)).indirect.typ) "" [] :=
  (compare_conversion_unchecked (.scalar int8T (.int 1)) (mkInt 257) "" [] (by decide)
    (by decide) (by decide) (by decide) (by decide)).2.2.1 (by decide)

/-- Claim C19: `compare` is monotone in the exclusion list.  For every expected
value, actual value and path and every two exclusion lists of which the second
contains every entry of the first, a true result under the first list is a
true result under the second.  Two lists with the same entries, in whatever
order and multiplicity, give the same result. -/
theorem compare_exclusion_monotone (expected actual : Value) (path : String)
    (ig ig' : List String) :
    ((∀ x ∈ ig, x ∈ ig') → compare expected actual path ig = some true →
      compare expected actual path ig' = some true)
    ∧ ((∀ x, x ∈ ig ↔ x ∈ ig') →
      compare expected actual path ig = compare expected actual path ig')
    ∧ compare (mkAB 1 2) (mkAB 1 9) "" ["B"] = some true
    ∧ compare (mkAB 1 2) (mkAB 1 9) "" ["A", "B"] = some true
    ∧ compare (mkAB 1 2) (mkAB 3 9) "" ["B", "A", "B"]
      = compare (mkAB 1 2) (mkAB 3 9) "" ["A", "B"] := by
  refine ⟨?_, ?_, by decide, by decide, by decide⟩
  · intro hsub h
    exact compare_mono_aux ig ig' hsub _ expected actual path (Nat.lt_succ_self _) h
  · intro hset
    apply compare_congr_ig
    intro x
    have h1 := isIgnoreField_eq_true_iff x ig
    have h2 := isIgnoreField_eq_true_iff x ig'
    cases hx : isIgnoreField x ig <;> cases hx' : isIgnoreField x ig' <;> simp_all

/-- Witness for C19: the lists `["B"]` and `["A", "B"]` on `T{1,2}` and
`T{1,9}`. -/
theorem compare_exclusion_monotone_witness :
    compare (mkAB 1 2) (mkAB 1 9) "" ["A", "B"] = some true :=
  (compare_exclusion_monotone (mkAB 1 2) (mkAB 1 9) "" ["B"] ["A", "B"]).1
    (by intro x hx; rw [List.mem_singleton] at hx; subst hx; decide) (by decide)

/-- Claim C20: where the two sides have the same type at a node, so that
nothing is converted, the comparison of that node does not depend on the order
of its two arguments as long as the comparisons of the children do not: this
holds for values that are neither a struct, a map, a sequence nor a pointer,
for two structs, for two sequences, and, as far as the result `true` goes, for
two maps with pairwise different keys.  Symmetry fails where one direction
panics.  Failing input: `a = map[string]interface{}{"a": 1, "b": f}`
enumerated `"a"`, `"b"`, and `b = map[string]interface{}{"b": f, "a": 2}`
enumerated `"b"`, `"a"`, for a function value `f`; every pair of values
visited has one and the same type, `compare(a, b)` is false and
`compare(b, a)` panics. -/
theorem compare_symmetry (path : String) (ig : List String) :
    (∀ exp act : Value, exp.isValid = true → act.isValid = true → act.typ = exp.typ →
      exp.kind ≠ .ptr → exp.kind ≠ .interface → exp.kind ≠ .struct → exp.kind ≠ .map →
      exp.kind ≠ .slice → exp.kind ≠ .array →
      compare exp act path ig = compare act exp path ig)
    ∧ (∀ (t : GoType) (fs gs : List Value), t.kind = .struct →
      (∀ e ∈ fs, ∀ a ∈ gs, ∀ p : String, compare e a p ig = compare a e p ig) →
      compare (.struct t fs) (.struct t gs) path ig
        = compare (.struct t gs) (.struct t fs) path ig)
    ∧ (∀ (t : GoType) (d d' : Nat) (es as : List Value),
      t.kind = .slice ∨ t.kind = .array →
      (∀ e ∈ es, ∀ a ∈ as, ∀ p : String, compare e a p ig = compare a e p ig) →
      compare (.seq t d es) (.seq t d' as) path ig
        = compare (.seq t d' as) (.seq t d es) path ig)
    ∧ (∀ (t : GoType) (es fs : List (Value × Value)), t.kind = .map →
      (Value.map t es).mapKeys.Pairwise (fun a b => a.goEq b = false) →
      (Value.map t fs).mapKeys.Pairwise (fun a b => a.goEq b = false) →
      (∀ e ∈ es, ∀ a ∈ fs, (compare e.2 a.2 path ig = some true ↔
        compare a.2 e.2 path ig = some true)) →
      (compare (.map t es) (.map t fs) path ig = some true ↔
        compare (.map t fs) (.map t es) path ig = some true))
    ∧ (Value.map tMapStrAny [(mkStr [97], mkInt 1), (mkStr [98], mkFunc)]).typ
        = (Value.map tMapStrAny [(mkStr [98], mkFunc), (mkStr [97], mkInt 2)]).typ
    ∧ (mkInt 1).typ = (mkInt 2).typ
    ∧ compare (.map tMapStrAny [(mkStr [97], mkInt 1), (mkStr [98], mkFunc)])
        (.map tMapStrAny [(mkStr [98], mkFunc), (mkStr [97], mkInt 2)]) "" [] = some false
    ∧ compare (.map tMapStrAny [(mkStr [98], mkFunc), (mkStr [97], mkInt 2)])
        (.map tMapStrAny [(mkStr [97], mkInt 1), (mkStr [98], mkFunc)]) "" [] = none := by
  refine ⟨?_, ?_, ?_, ?_, rfl, rfl, by decide, by decide⟩
  · intro exp act hv hva ht hp hi h1 h2 h3 h4
    have hk : exp.kind = act.kind := by
      cases exp <;> cases act <;> simp_all [Value.kind, Value.isValid, Value.typ]
    rw [compare_of_same_typ exp act path ig hp hi hv ht hva,
      compare_of_same_typ act exp path ig (hk ▸ hp) (hk ▸ hi) hva ht.symm hv,
      compareValue_leaf compare exp act path ig h1 h2 h3 h4 hi (hk ▸ hi),
      compareValue_leaf compare act exp path ig (hk ▸ h1) (hk ▸ h2) (hk ▸ h3) (hk ▸ h4)
        (hk ▸ hi) hi,
      ifaceEq_comm]
  · intro t fs gs hk h
    rw [compare_struct_eq (.struct t fs) (.struct t gs) path ig hk rfl,
      compare_struct_eq (.struct t gs) (.struct t fs) path ig hk rfl]
    unfold compareStructs
    simp only [Value.typ]
    by_cases htt : t = timeType
    · simp only [htt, if_true, timeEqual_comm]
    · rw [if_neg htt, if_neg htt]
      exact structLoop_comm compare (.struct t fs) (.struct t gs) path ig h t.fields 0
  · intro t d d' es as hk h
    rw [compare_seq_eq (.seq t d es) (.seq t d' as) path ig hk rfl,
      compare_seq_eq (.seq t d' as) (.seq t d es) path ig hk rfl]
    unfold compareSlices
    simp only [Value.len, Value.elems]
    by_cases hlen : es.length = as.length
    · rw [if_neg (not_not.mpr hlen), if_neg (not_not.mpr hlen.symm)]
      exact sliceLoop_comm compare path ig es as hlen h
    · rw [if_pos hlen, if_pos (fun h' => hlen h'.symm)]
  · intro t es fs hk hde hdf h
    constructor
    · exact compareMaps_swap t es fs path ig hk hde (fun e he a ha => (h e he a ha).mp)
    · exact compareMaps_swap t fs es path ig hk hdf (fun a ha e he => (h e he a ha).mpr)

end Testhelper
